import Mathlib

/-!
Verification development for `add-language-examples.py`, a CLI tool that
rewrites documentation markdown files, converting fenced `console` / `esql`
request examples into multi-language tab-sets backed by snippet files.

The Python source works on strings with `re` regexes and on a per-document
snippet directory.  We embed it shallowly:

* strings are `List Char`;
* each regex used by the source is implemented as an explicit scanner with
  the exact matching semantics of that regex (leftmost match, non-greedy
  `.*?` as "up to the first occurrence", greedy repetition, backtracking
  for `\s+` / `\s*` via enumeration of splits);
* the snippet directory is a list of `(exampleNumber, language, content)`
  entries keyed by `(exampleNumber, language)` — the file
  `example{n}-{lang}.md`;
* the external `es-request-converter` subprocess is an oracle parameter;
* Python exceptions (`ValueError` from `ThreadPoolExecutor`,
  `StopIteration` from an exhausted replacement iterator) are `Except`.

Scanners that advance through a string use an explicit fuel argument so
that every definition is structurally recursive and kernel-computable;
top-level wrappers instantiate the fuel with the string length, which is
always sufficient.
-/

namespace AddLang

/-- Characters of a string literal. -/
def cl (s : String) : List Char := s.toList

/-- Python `\s` (ASCII whitespace as used by the source's regexes). -/
def is_ws (c : Char) : Bool :=
  c = ' ' || c = '\t' || c = '\n' || c = '\r' || c = '\x0b' || c = '\x0c'

/-- Python `\w` (ASCII approximation, as the source only handles ASCII names). -/
def is_word_char (c : Char) : Bool :=
  c.isAlpha || c.isDigit || c = '_'

/-- Python `\d`. -/
def is_digit_char (c : Char) : Bool := c.isDigit

/-- `pat` is a prefix of `s`. -/
def startsL : List Char → List Char → Bool
  | [], _ => true
  | _ :: _, [] => false
  | p :: ps, c :: rest => p = c && startsL ps rest

/-- Drop the literal prefix `pat` from `s`, or fail. -/
def dropPre : List Char → List Char → Option (List Char)
  | [], s => some s
  | _ :: _, [] => none
  | p :: ps, c :: rest => if p = c then dropPre ps rest else none

/-- `pat` occurs as a contiguous substring of `s`. -/
def containsSub (pat s : List Char) : Bool :=
  s.tails.any (fun t => startsL pat t)

/-- Python `str.strip()`. -/
def pstrip (s : List Char) : List Char :=
  ((s.dropWhile is_ws).reverse.dropWhile is_ws).reverse

/-- Python `str.lower()` (ASCII). -/
def lower_list (s : List Char) : List Char := s.map Char.toLower

/-- Python `str.capitalize()`: first character upper-cased, the rest lower-cased. -/
def capitalizeP : List Char → List Char
  | [] => []
  | c :: rest => c.toUpper :: rest.map Char.toLower

/-- Case-insensitive character comparison (regex `re.IGNORECASE`). -/
def ci_eq (a b : Char) : Bool := a.toLower = b.toLower

/-- Case-insensitive literal prefix match. -/
def ci_starts : List Char → List Char → Bool
  | [], _ => true
  | _ :: _, [] => false
  | p :: ps, c :: rest => ci_eq p c && ci_starts ps rest

/-- Split on `'\n'`, Python `str.split('\n')` (always at least one piece). -/
def split_nl : List Char → List (List Char)
  | [] => [[]]
  | c :: rest =>
      if c = '\n' then [] :: split_nl rest
      else
        match split_nl rest with
        | [] => [[c]]
        | l :: ls => (c :: l) :: ls

/-- Join with `'\n'`, Python `'\n'.join(...)`. -/
def join_nl : List (List Char) → List Char
  | [] => []
  | [l] => l
  | l :: ls => l ++ '\n' :: join_nl ls

/-- Python `str.rstrip()` (trailing whitespace removed). -/
def prstrip (s : List Char) : List Char :=
  (s.reverse.dropWhile is_ws).reverse

/-- Decimal digits of a natural number (Python `str(n)`), with fuel. -/
def nat_digits_aux : Nat → Nat → List Char
  | 0, _ => []
  | fuel + 1, n =>
      if n < 10 then [Char.ofNat (48 + n)]
      else nat_digits_aux fuel (n / 10) ++ [Char.ofNat (48 + n % 10)]

/-- Decimal representation of a natural number, e.g. `nat_digits 42 = ['4','2']`. -/
def nat_digits (n : Nat) : List Char := nat_digits_aux (n + 1) n

/-- Evaluate a digit list back to a number (left fold base 10). -/
def digits_val (ds : List Char) : Nat :=
  ds.foldl (fun acc c => 10 * acc + (c.toNat - 48)) 0

/-- Association-list lookup (Python dict access). -/
def alookup : List (List Char × List Char) → List Char → Option (List Char)
  | [], _ => none
  | e :: rest, k => if e.1 = k then some e.2 else alookup rest k

/-- Association-list update (Python dict assignment: replace or append; a
dict never holds duplicate keys, so replacing the first occurrence is the
dict semantics). -/
def aupdate : List (List Char × List Char) → List Char → List Char →
    List (List Char × List Char)
  | [], k, v => [(k, v)]
  | e :: rest, k, v =>
      if e.1 = k then (k, v) :: rest else e :: aupdate rest k v

/-!
## Fenced-block matcher

The source extracts and replaces fenced blocks with the regex

  ```` ```{block_type}\n(.*?)\n```(?:\n\n(\d+\.[^\n]+(?:\n\d+\.[^\n]+)*))? ````

under `re.DOTALL`.  The non-greedy `(.*?)\n``` ` captures everything up to
the **first** occurrence of `"\n```"` after the opening fence; the optional
group captures a maximal run of `\d+\.[^\n]+` lines separated by single
newlines, provided exactly `"\n\n"` follows the closing fence.
-/

/-- Split `s` at the first occurrence of `"\n```"`:
returns `(before, after)` with `s = before ++ "\n```" ++ after`. -/
def find_close : List Char → Option (List Char × List Char)
  | [] => none
  | c :: rest =>
      if startsL (cl "\n```") (c :: rest) then some ([], rest.drop 3)
      else
        match find_close rest with
        | some (code, r) => some (c :: code, r)
        | none => none

/-- Match one `\d+\.[^\n]+` annotation line (greedy), returning
`(matchedLine, rest)`. -/
def match_num_line (s : List Char) : Option (List Char × List Char) :=
  let ds := s.takeWhile is_digit_char
  if ds.isEmpty then none
  else
    match s.drop ds.length with
    | '.' :: r =>
        let body := r.takeWhile (fun c => c ≠ '\n')
        if body.isEmpty then none
        else some (ds ++ '.' :: body, r.drop body.length)
    | _ => none

/-- Greedy repetition `(?:\n\d+\.[^\n]+)*` with fuel. -/
def match_num_rest : Nat → List Char → List Char × List Char
  | 0, s => ([], s)
  | fuel + 1, s =>
      match s with
      | '\n' :: r =>
          match match_num_line r with
          | some (line, r2) =>
              let (more, r3) := match_num_rest fuel r2
              ('\n' :: (line ++ more), r3)
          | none => ([], s)
      | _ => ([], s)

/-- The annotation-list group `\d+\.[^\n]+(?:\n\d+\.[^\n]+)*`. -/
def match_num_list (s : List Char) : Option (List Char × List Char) :=
  match match_num_line s with
  | some (line, r) =>
      let (more, r2) := match_num_rest r.length r
      some (line ++ more, r2)
  | none => none

/-- The optional annotation suffix `(?:\n\n(list))?` after a closing fence:
returns `(capturedGroup, matchedText, rest)`; an absent list yields
`([], [], s)` (the optional group matches empty). -/
def match_ann (s : List Char) : List Char × List Char × List Char :=
  match dropPre (cl "\n\n") s with
  | some r2 =>
      match match_num_list r2 with
      | some (ann, r3) => (ann, cl "\n\n" ++ ann, r3)
      | none => ([], [], s)
  | none => ([], [], s)

/-- Match the whole block regex at the current position.  Returns
`(codeGroup, annGroup, wholeMatch, rest)`. -/
def match_block_at (block_type : List Char) (s : List Char) :
    Option (List Char × List Char × List Char × List Char) :=
  match dropPre (cl "```" ++ block_type ++ [ '\n' ]) s with
  | none => none
  | some r1 =>
      match find_close r1 with
      | none => none
      | some (code, r2) =>
          let (ann, annText, r3) := match_ann r2
          some (code, ann,
            (cl "```" ++ block_type ++ [ '\n' ]) ++ code ++ cl "\n```" ++ annText, r3)

/-- `re.findall` scan: leftmost matches, resuming after each whole match. -/
def scan_blocks (block_type : List Char) : Nat → List Char → List (List Char × List Char)
  | 0, _ => []
  | _ + 1, [] => []
  | fuel + 1, c :: rest =>
      match match_block_at block_type (c :: rest) with
      | some (code, ann, _, r) => (code, ann) :: scan_blocks block_type fuel r
      | none => scan_blocks block_type fuel rest

/-- `extract_code_blocks` (source lines 28–45): scan for blocks of
`block_type`, drop console result blocks, strip annotations. -/
def extract_code_blocks (markdown_text : List Char) (block_type : List Char) :
    List (List Char × List Char) :=
  (scan_blocks block_type markdown_text.length markdown_text).filterMap
    (fun p =>
      if block_type ≠ cl "console" || !(startsL (cl "-result") p.1) then
        some (p.1, pstrip p.2)
      else none)

/-- One substitution pass of `replace_blocks` (source lines 539–571):
`re.sub` with a replacer that keeps console result blocks and otherwise
consumes the next replacement (`next(iter)`; exhaustion raises, modelled
as `Except.error`).  Returns the rewritten text and the unconsumed
replacements. -/
def sub_blocks (block_type : List Char) (is_console : Bool) :
    Nat → List (List Char) → List Char → Except Unit (List Char × List (List Char))
  | 0, reps, s => .ok (s, reps)
  | _ + 1, reps, [] => .ok ([], reps)
  | fuel + 1, reps, c :: rest =>
      match match_block_at block_type (c :: rest) with
      | some (code, _, whole, r) =>
          if is_console && startsL (cl "-result") code then
            match sub_blocks block_type is_console fuel reps r with
            | .ok (t, rs) => .ok (whole ++ t, rs)
            | .error e => .error e
          else
            match reps with
            | [] => .error ()
            | rep :: rs =>
                match sub_blocks block_type is_console fuel rs r with
                | .ok (t, rs2) => .ok (rep ++ t, rs2)
                | .error e => .error e
      | none =>
          match sub_blocks block_type is_console fuel reps rest with
          | .ok (t, rs) => .ok (c :: t, rs)
          | .error e => .error e

/-- `replace_blocks`: console blocks first, then esql blocks on the
already-rewritten text. -/
def replace_blocks (markdown_text : List Char)
    (console_replacements esql_replacements : List (List Char)) :
    Except Unit (List Char) :=
  match sub_blocks (cl "console") true markdown_text.length console_replacements
      markdown_text with
  | .error e => .error e
  | .ok (t1, _) =>
      match sub_blocks (cl "esql") false t1.length esql_replacements t1 with
      | .error e => .error e
      | .ok (t2, _) => .ok t2

/-!
## Remaining pure text helpers of the source
-/

/-- `esql_to_console` (source lines 48–64). -/
def esql_to_console (esql_content : List Char) : List Char :=
  cl "POST /_query?format=txt\n\x7b\n  \"query\": \"\"\"\n" ++ esql_content ++
    cl "\n  \"\"\"\n\x7d"

/-- One pass of `re.sub(r'\s*<\d+>', '', code)`: at each position the
regex takes a maximal whitespace run followed by `<digits>`. -/
def strip_markers : Nat → List Char → List Char
  | 0, s => s
  | _ + 1, [] => []
  | fuel + 1, c :: rest =>
      let ws := (c :: rest).takeWhile is_ws
      let r1 := (c :: rest).drop ws.length
      match r1 with
      | '<' :: r2 =>
          let ds := r2.takeWhile is_digit_char
          if ds.isEmpty then c :: strip_markers fuel rest
          else
            match r2.drop ds.length with
            | '>' :: r3 => strip_markers fuel r3
            | _ => c :: strip_markers fuel rest
      | _ => c :: strip_markers fuel rest

/-- One pass of `re.sub(r'\s*#.*$', '', code, flags=re.MULTILINE)`: a
maximal whitespace run (which may include newlines) followed by `#`
consumes the rest of the line. -/
def strip_comments : Nat → List Char → List Char
  | 0, s => s
  | _ + 1, [] => []
  | fuel + 1, c :: rest =>
      let ws := (c :: rest).takeWhile is_ws
      let r1 := (c :: rest).drop ws.length
      match r1 with
      | '#' :: r2 => strip_comments fuel (r2.dropWhile (fun x => x ≠ '\n'))
      | _ => c :: strip_comments fuel rest

/-- `strip_annotations` (source lines 214–225). -/
def strip_annotations (code : List Char) : List Char :=
  let c1 := strip_markers code.length code
  strip_comments c1.length c1

/-- Directive names recognised by `increment_directive_delimiters`. -/
def directive_names : List (List Char) :=
  [cl "stepper", cl "step", cl "dropdown", cl "note", cl "warning", cl "tip",
   cl "important", cl "plain", cl "tabs", cl "tab-set", cl "tab-item"]

/-- Does a line open a known directive, i.e. match `^(:+)\{(names)\}`? -/
def is_directive_open (line : List Char) : Bool :=
  let colons := line.takeWhile (fun c => c = ':')
  if colons.isEmpty then false
  else
    match line.drop colons.length with
    | '{' :: r => directive_names.any (fun nm => startsL (nm ++ [ '}' ]) r)
    | _ => false

/-- `increment_directive_delimiters` (source lines 228–255). -/
def increment_directive_delimiters (text : List Char) (levels : Nat) : List Char :=
  let add := List.replicate levels ':'
  join_nl ((split_nl text).map (fun line =>
    if is_directive_open line then add ++ line
    else
      let stripped := pstrip line
      if stripped.length ≥ 3 && stripped.all (fun c => c = ':') then
        line.takeWhile is_ws ++ add ++ stripped
      else line))

/-- Generic literal-pattern replacement, one `re.sub`-style left-to-right
non-overlapping pass (the pattern must be nonempty). -/
def replace_lit (pat repl : List Char) : Nat → List Char → List Char
  | 0, s => s
  | _ + 1, [] => []
  | fuel + 1, c :: rest =>
      match dropPre pat (c :: rest) with
      | some r => repl ++ replace_lit pat repl fuel r
      | none => c :: replace_lit pat repl fuel rest

/-- `format_python` (source lines 158–169): a literal substitution. -/
def format_python (code : List Char) : List Char :=
  replace_lit (cl "hosts=[\"http://localhost:9200\"]")
    (cl "hosts=[os.getenv(\"ELASTICSEARCH_URL\")]") code.length code

/-- `format_php` (source lines 200–211): a literal substitution. -/
def format_php (code : List Char) : List Char :=
  replace_lit (cl "->setHosts([\"http://localhost:9200\"])")
    (cl "->setHosts([getenv(\"ELASTICSEARCH_URL\")])") code.length code

/-- `format_ruby`'s pattern `host:\s*["']http://localhost:9200["']` at the
current position; returns the remainder after a match. -/
def ruby_host_at (s : List Char) : Option (List Char) :=
  match dropPre (cl "host:") s with
  | none => none
  | some r1 =>
      let r2 := r1.dropWhile is_ws
      match r2 with
      | q1 :: r3 =>
          if q1 = '"' || q1 = '\'' then
            match dropPre (cl "http://localhost:9200") r3 with
            | some (q2 :: r4) =>
                if q2 = '"' || q2 = '\'' then some r4 else none
            | _ => none
          else none
      | _ => none

/-- `format_ruby` (source lines 172–183). -/
def format_ruby_aux : Nat → List Char → List Char
  | 0, s => s
  | _ + 1, [] => []
  | fuel + 1, c :: rest =>
      match ruby_host_at (c :: rest) with
      | some r => cl "host: ENV[\"ELASTICSEARCH_URL\"]" ++ format_ruby_aux fuel r
      | none => c :: format_ruby_aux fuel rest

def format_ruby (code : List Char) : List Char := format_ruby_aux code.length code

/-- `format_javascript`'s pattern `nodes:\s*\["http://localhost:9200"\]`. -/
def js_nodes_at (s : List Char) : Option (List Char) :=
  match dropPre (cl "nodes:") s with
  | none => none
  | some r1 => dropPre (cl "[\"http://localhost:9200\"]") (r1.dropWhile is_ws)

/-- `format_javascript` (source lines 186–197). -/
def format_javascript_aux : Nat → List Char → List Char
  | 0, s => s
  | _ + 1, [] => []
  | fuel + 1, c :: rest =>
      match js_nodes_at (c :: rest) with
      | some r =>
          cl "nodes: [process.env[\"ELASTICSEARCH_URL\"]]" ++ format_javascript_aux fuel r
      | none => c :: format_javascript_aux fuel rest

def format_javascript (code : List Char) : List Char :=
  format_javascript_aux code.length code

/-- The per-line rewrite `re.sub(r'(curl -X \w+)(.*?)(\s+"[^"]+")$', r'\1\3\2')`:
the third group is the whitespace run plus final quoted string at the end of
the line, moved right after `curl -X METHOD`. -/
def curl_line_tail (t : List Char) : Option (List Char × List Char) :=
  match t.reverse with
  | '"' :: r1 =>
      let inner := r1.takeWhile (fun c => c ≠ '"')
      if inner.isEmpty then none
      else
        match r1.drop inner.length with
        | '"' :: r2 =>
            let ws := r2.takeWhile is_ws
            if ws.isEmpty then none
            else
              some ((r2.drop ws.length).reverse,
                ws.reverse ++ '"' :: inner.reverse ++ [ '"' ])
        | _ => none
  | _ => none

/-- Find the leftmost `curl -X \w+` on a line and reorder; at most one match
per line (the match extends to the line end). -/
def curl_reorder_line : Nat → List Char → List Char
  | 0, s => s
  | _ + 1, [] => []
  | fuel + 1, c :: rest =>
      match dropPre (cl "curl -X ") (c :: rest) with
      | some r1 =>
          let w := r1.takeWhile is_word_char
          if w.isEmpty then c :: curl_reorder_line fuel rest
          else
            let t := r1.drop w.length
            match curl_line_tail t with
            | some (middle, g3) => cl "curl -X " ++ w ++ g3 ++ middle
            | none => c :: curl_reorder_line fuel rest
      | none => c :: curl_reorder_line fuel rest

/-- The pass `re.sub(r' (-[Hd] )', r' \\\n  \1', code)`: each match is the
four characters `" -H "` / `" -d "`, replaced by a break plus the captured
three-character flag group. -/
def curl_breaks : Nat → List Char → List Char
  | 0, s => s
  | _ + 1, [] => []
  | fuel + 1, c :: rest =>
      if startsL (cl " -H ") (c :: rest) then
        cl " \\\n  -H " ++ curl_breaks fuel (rest.drop 3)
      else if startsL (cl " -d ") (c :: rest) then
        cl " \\\n  -d " ++ curl_breaks fuel (rest.drop 3)
      else c :: curl_breaks fuel rest

/-- `format_curl` (source lines 137–155): endpoint substitution, per-line
URL reordering, then flag line breaks. -/
def format_curl (code : List Char) : List Char :=
  let c1 := replace_lit (cl "\"http://localhost:9200") (cl "\"$ELASTICSEARCH_URL")
    code.length code
  let c2 := join_nl ((split_nl c1).map (fun line => curl_reorder_line line.length line))
  curl_breaks c2.length c2

/-!
## Snippet files

A snippet directory holds files `example{n}-{lang}.md`; we model it as a
list of `(n, lang, content)` entries keyed by `(n, lang)` (the file name).
Non-snippet files never arise in this tool's directories and are out of
scope of the model.
-/

abbrev Dir := List (Nat × List Char × List Char)

/-- Write (create or overwrite) the file `example{n}-{lang}.md`; a file
system never holds two files of the same name, so replacing the first
occurrence is the file-system semantics. -/
def dir_write : Dir → Nat → List Char → List Char → Dir
  | [], n, lang, content => [(n, lang, content)]
  | e :: rest, n, lang, content =>
      if e.1 = n && e.2.1 = lang then (n, lang, content) :: rest
      else e :: dir_write rest n lang content

/-- Look up the content of `example{n}-{lang}.md`. -/
def dir_get : Dir → Nat → List Char → Option (List Char)
  | [], _, _ => none
  | e :: rest, n, lang =>
      if e.1 = n && e.2.1 = lang then some e.2.2 else dir_get rest n lang

/-- `DEFAULT_LANGUAGES` (source line 16). -/
def DEFAULT_LANGUAGES : List (List Char) :=
  [cl "curl", cl "python", cl "js", cl "php", cl "ruby"]

/-- `LANGUAGE_MAP` (source lines 19–26), accessed as
`LANGUAGE_MAP.get(key)`. -/
def LANGUAGE_MAP (key : List Char) : Option (List Char) :=
  if key = cl "python" then some (cl "Python")
  else if key = cl "javascript" then some (cl "JavaScript")
  else if key = cl "js" then some (cl "JavaScript")
  else if key = cl "php" then some (cl "PHP")
  else if key = cl "ruby" then some (cl "Ruby")
  else if key = cl "curl" then some (cl "curl")
  else none

/-- The body written by `write_snippet_file` (source lines 304–357):
syntax-highlighting tag selection plus language formatting, then the
fenced block and the optional annotation list. -/
def snippet_body (lang code anns : List Char) : List Char :=
  let (code2, code_lang) :=
    if lang = cl "esql" then (code, cl "esql")
    else if lang = cl "console" then (code, cl "console")
    else if lang = cl "curl" then (format_curl code, cl "bash")
    else if lower_list lang = cl "python" then (format_python code, cl "python")
    else if lower_list lang = cl "ruby" then (format_ruby code, cl "ruby")
    else if lower_list lang = cl "js" || lower_list lang = cl "javascript" then
      (format_javascript code, cl "js")
    else if lower_list lang = cl "php" then (format_php code, cl "php")
    else (code, lang)
  cl "```" ++ code_lang ++ [ '\n' ] ++ code2 ++ cl "\n```\n" ++
    (if anns.isEmpty then [] else [ '\n' ] ++ anns ++ [ '\n' ])

/-- `write_snippet_file`: writes `example{example_num}-{lang}.md`. -/
def write_snippet_file (snippets_dir : Dir) (example_num : Nat)
    (lang code anns : List Char) : Dir :=
  dir_write snippets_dir example_num lang (snippet_body lang code anns)

/-- `has_console_snippets` (source lines 574–585): any `example*-console.md`. -/
def has_console_snippets (snippets_dir : Dir) : Bool :=
  snippets_dir.any (fun e => e.2.1 = cl "console")

/-- Insertion into a list sorted by example number (Python `sorted` by key). -/
def insert_by_num (x : Nat × List Char) : List (Nat × List Char) → List (Nat × List Char)
  | [] => [x]
  | y :: ys => if x.1 ≤ y.1 then x :: y :: ys else y :: insert_by_num x ys

def sort_by_num : List (Nat × List Char) → List (Nat × List Char)
  | [] => []
  | x :: xs => insert_by_num x (sort_by_num xs)

/-- The `(number, content)` pairs of the `example{n}-console.md` files, in
directory order (`glob('example*-console.md')`). -/
def console_entries (snippets_dir : Dir) : List (Nat × List Char) :=
  snippets_dir.filterMap
    (fun e => if e.2.1 = cl "console" then some (e.1, e.2.2) else none)

/-- `get_console_snippets` (source lines 588–608): the `(number, content)`
pairs of files `example{n}-console.md`, sorted by example number. -/
def get_console_snippets (snippets_dir : Dir) : List (Nat × List Char) :=
  sort_by_num (console_entries snippets_dir)

/-- The code search of `parse_snippet_file`:
`re.search(r'```(?:console|esql)\n(.*?)\n```', content, re.DOTALL)`,
scanning for the leftmost opening fence that has a later `"\n```"`. -/
def find_code_group : Nat → List Char → Option (List Char)
  | 0, _ => none
  | _ + 1, [] => none
  | fuel + 1, c :: rest =>
      match
        (match dropPre (cl "```console\n") (c :: rest) with
         | some r => some r
         | none => dropPre (cl "```esql\n") (c :: rest)) with
      | some r1 =>
          match find_close r1 with
          | some (code, _) => some code
          | none => find_code_group fuel rest
      | none => find_code_group fuel rest

/-- The annotation search of `parse_snippet_file`:
`re.search(r'```\n\n(\d+\.[^\n]+(?:\n\d+\.[^\n]+)*)', content)`. -/
def find_ann_group : Nat → List Char → Option (List Char)
  | 0, _ => none
  | _ + 1, [] => none
  | fuel + 1, c :: rest =>
      match dropPre (cl "```\n\n") (c :: rest) with
      | some r1 =>
          match match_num_list r1 with
          | some (ann, _) => some ann
          | none => find_ann_group fuel rest
      | none => find_ann_group fuel rest

/-- `parse_snippet_file` (source lines 611–634). -/
def parse_snippet_file (content : List Char) : List Char × List Char :=
  match find_code_group content.length content with
  | none => ([], [])
  | some code =>
      let anns :=
        match find_ann_group content.length content with
        | some g => pstrip g
        | none => []
      (code, anns)

/-- `count_tabsets_in_markdown` (source lines 666–676). -/
def count_tabsets : Nat → List Char → Nat
  | 0, _ => 0
  | _ + 1, [] => 0
  | fuel + 1, c :: rest =>
      match dropPre (cl "::::{tab-set}") (c :: rest) with
      | some r => 1 + count_tabsets fuel r
      | none => count_tabsets fuel rest

def count_tabsets_in_markdown (markdown_text : List Char) : Nat :=
  count_tabsets markdown_text.length markdown_text

/-!
## Include-directive renumbering

`regenerate_from_snippets` rewrites include paths with
`re.sub(rf'(_snippets/{parent}/example){old}(-\w+\.md)', rf'\g<1>{new}\g<2>', text)`.
-/

/-- The literal first group `_snippets/{parent}/example` plus the old number. -/
def include_pat (parent : List Char) (old : Nat) : List Char :=
  cl "_snippets/" ++ parent ++ cl "/example" ++ nat_digits old

/-- Try the include-renumbering regex at the current position; on success
return the second group `-\w+\.md` and the remainder. -/
def try_include (parent : List Char) (old : Nat) (s : List Char) :
    Option (List Char × List Char) :=
  match dropPre (include_pat parent old) s with
  | none => none
  | some r1 =>
      match r1 with
      | [] => none
      | c :: r2 =>
          if c = '-' then
            let w := r2.takeWhile is_word_char
            if w.isEmpty then none
            else
              match dropPre (cl ".md") (r2.drop w.length) with
              | some r3 => some ('-' :: (w ++ cl ".md"), r3)
              | none => none
          else none

/-- One `re.sub` pass replacing old example numbers by new ones in
include paths. -/
def sub_include (parent : List Char) (old new : Nat) :
    Nat → List Char → List Char
  | 0, s => s
  | _ + 1, [] => []
  | fuel + 1, c :: rest =>
      match try_include parent old (c :: rest) with
      | some (g2, r) =>
          include_pat parent new ++ g2 ++ sub_include parent old new fuel r
      | none => c :: sub_include parent old new fuel rest

/-- The renumbering loop of `regenerate_from_snippets` (source lines
773–778): sequential substitutions, skipped when the number is unchanged. -/
def apply_renumber (parent : List Char) (pairs : List (Nat × Nat))
    (text : List Char) : List Char :=
  pairs.foldl
    (fun t p => if p.1 ≠ p.2 then sub_include parent p.1 p.2 t.length t else t)
    text

/-!
## Tab detection (`has_language_tabs`)

Pattern `:::+\{tab-item\}\s+LABEL\s*\n\s*:sync:\s+SYNC` with
`re.IGNORECASE`.  `\s+` / `\s*` backtracking is the enumeration of all
splits of a whitespace run.
-/

/-- Suffixes of `s` obtained by removing one or more leading whitespace
characters (the candidate remainders after `\s+`). -/
def ws_splits : List Char → List (List Char)
  | [] => []
  | c :: rest => if is_ws c then rest :: ws_splits rest else []

/-- Candidate remainders after `\s*` (zero or more). -/
def ws_splits0 (s : List Char) : List (List Char) := s :: ws_splits s

/-- Match `:::+\{tab-item\}\s+LABEL\s*\n\s*:sync:\s+SYNC` (case-insensitive)
at the current position. -/
def match_tab_item_at (label sync s : List Char) : Bool :=
  let colons := s.takeWhile (fun c => c = ':')
  decide (colons.length ≥ 3) &&
    (let r1 := s.drop colons.length
     ci_starts (cl "{tab-item}") r1 &&
       (ws_splits (r1.drop 10)).any (fun r2 =>
         ci_starts label r2 &&
           (ws_splits0 (r2.drop label.length)).any (fun r3 =>
             match r3 with
             | '\n' :: r4 =>
                 (ws_splits0 r4).any (fun r5 =>
                   ci_starts (cl ":sync:") r5 &&
                     (ws_splits (r5.drop 6)).any (fun r6 => ci_starts sync r6))
             | _ => false)))

/-- `re.search` of the tab-item pattern anywhere in the text. -/
def search_tab_item (label sync text : List Char) : Bool :=
  text.tails.any (fun t => match_tab_item_at label sync t)

/-- `has_language_tabs` (source lines 800–819). -/
def has_language_tabs (markdown_text : List Char)
    (languages : Option (List (List Char))) : Bool × Option (List Char) :=
  let langs := languages.getD DEFAULT_LANGUAGES
  if search_tab_item (cl "ES|QL") (cl "esql") markdown_text then
    (true, some (cl "esql"))
  else
    match langs.find? (fun lang =>
        search_tab_item (capitalizeP lang) (lower_list lang) markdown_text) with
    | some lang => (true, some lang)
    | none => (false, none)

/-!
## Converter client

`es-request-converter` is an external subprocess; we model one invocation
as an oracle `Conv` taking the converter-format language name, the console
text and the `--complete` flag.
-/

/-- Outcome of one `es-request-converter` subprocess run. -/
inductive ConvOut where
  | ok (stdout : List Char)
  | fail (stderr : List Char)
  | notFound
deriving DecidableEq

/-- The external converter as a deterministic oracle. -/
def Conv : Type := List Char → List Char → Bool → ConvOut

/-- `splitlines` + per-line `rstrip` + join (source line 83); a single
trailing newline produces no trailing empty line. -/
def rstrip_lines (s : List Char) : List Char :=
  let ls := split_nl s
  let ls2 := if ls.getLast? = some [] then ls.dropLast else ls
  join_nl (ls2.map prstrip)

/-- Error-message extraction from stderr (source lines 86–93): the first
line containing `Error:` or `TypeError:` stripped, else the first line of
the stripped stderr. -/
def extract_error_msg (stderr : List Char) : List Char :=
  let ls := split_nl (pstrip stderr)
  match ls.find? (fun l =>
      containsSub (cl "Error:") l || containsSub (cl "TypeError:") l) with
  | some l => pstrip l
  | none => ls.headD (cl "Conversion failed")

/-- `_convert_single_language` (source lines 69–97): returns
`(code, errorMessage?)`; on failure the original console text is passed
through. -/
def convert_single_language (conv : Conv) (console_content : List Char)
    (complete : Bool) (converter_lang : List Char) : List Char × Option (List Char) :=
  match conv converter_lang console_content complete with
  | .ok stdout => (rstrip_lines stdout, none)
  | .fail stderr => (console_content, some (extract_error_msg stderr))
  | .notFound =>
      (console_content,
       some (cl "es-request-converter not found (install: npm install -g @elastic/request-converter)"))

/-- The `language` argument of `convert_console` (None / str / list). -/
inductive LangArg where
  | noneArg
  | one (s : List Char)
  | many (l : List (List Char))

/-- Normalisation at the top of `convert_console` (source lines 102–108). -/
def normalize_langs : LangArg → List (List Char)
  | .noneArg => DEFAULT_LANGUAGES
  | .one s => [s]
  | .many l => l

/-- An association list of strings (a Python dict of strings). -/
abbrev Assoc := List (List Char × List Char)

/-- One step of the task-preparation loop of `convert_console` (source
lines 114–121): unsupported languages get a pass-through result and an
error; supported ones become a task `(lang, converter_lang)`. -/
def prep_step (console_content : List Char)
    (acc : Assoc × Assoc × List (List Char × List Char)) (lang : List Char) :
    Assoc × Assoc × List (List Char × List Char) :=
  match LANGUAGE_MAP (lower_list lang) with
  | none =>
      (aupdate acc.1 lang console_content,
       aupdate acc.2.1 lang (cl "Unsupported language: " ++ lang),
       acc.2.2)
  | some converter_lang => (acc.1, acc.2.1, acc.2.2 ++ [(lang, converter_lang)])

/-- One step of the parallel-conversion aggregation (source lines
128–132): store the converted code, and the error when the message is a
non-empty (truthy) string. -/
def conv_step (conv : Conv) (console_content : List Char) (complete : Bool)
    (acc : Assoc × Assoc) (task : List Char × List Char) : Assoc × Assoc :=
  let r := convert_single_language conv console_content complete task.2
  (aupdate acc.1 task.1 r.1,
   match r.2 with
   | some e => if e.isEmpty then acc.2 else aupdate acc.2 task.1 e
   | none => acc.2)

/-- `convert_console` (source lines 100–134).  If no task remains,
`ThreadPoolExecutor(max_workers=len(tasks)*1.5)` receives `max_workers=0`
and raises `ValueError` before anything is returned.  Thread completion
order only affects dict insertion order, never the final key-value
mapping, so the parallel loop is modelled in task order. -/
def convert_console (conv : Conv) (console_content : List Char)
    (language : LangArg) (complete : Bool) :
    Except (List Char) (Assoc × Assoc) :=
  let languages := normalize_langs language
  let prep := languages.foldl (prep_step console_content) ([], [], [])
  if prep.2.2.isEmpty then
    .error (cl "ValueError: max_workers must be greater than 0")
  else
    .ok (prep.2.2.foldl (conv_step conv console_content complete)
      (prep.1, prep.2.1))

/-!
## Tab-set builders
-/

/-- `build_include_directive` (source lines 360–373). -/
def build_include_directive (snippets_dir_name parent : List Char)
    (example_num : Nat) (lang : List Char) : List Char :=
  cl ":::{include} " ++ snippets_dir_name ++ [ '/' ] ++ parent ++ cl "/example" ++
    nat_digits example_num ++ [ '-' ] ++ lang ++ cl ".md\n:::"

/-- `build_language_tab` (source lines 376–411): an inline language tab. -/
def build_language_tab (lang converted_code : List Char) : List Char :=
  let lang_label := (LANGUAGE_MAP (lower_list lang)).getD (capitalizeP lang)
  let code2 :=
    if lang = cl "curl" then format_curl converted_code
    else if lower_list lang = cl "python" then format_python converted_code
    else if lower_list lang = cl "ruby" then format_ruby converted_code
    else if lower_list lang = cl "js" || lower_list lang = cl "javascript" then
      format_javascript converted_code
    else if lower_list lang = cl "php" then format_php converted_code
    else converted_code
  let code_lang := if lang = cl "curl" then cl "bash" else lang
  cl "\n:::{tab-item} " ++ lang_label ++ cl "\n:sync: " ++ lang ++
    cl "\n```" ++ code_lang ++ [ '\n' ] ++ code2 ++ cl "\n```\n:::\n"

/-- `prepare_code_for_conversion` (source lines 257–301). -/
def prepare_code_for_conversion (code block_type anns : List Char) :
    List Char × List Char :=
  let code := pstrip code
  if block_type = cl "esql" then
    let first_tab :=
      cl ":::{tab-item} ES|QL\n:sync: esql\n```esql\n" ++ code ++ cl "\n```\n" ++
        (if anns.isEmpty then [] else anns ++ [ '\n' ]) ++ cl ":::\n"
    (esql_to_console (strip_annotations code), first_tab)
  else
    let first_tab :=
      cl ":::{tab-item} Console\n:sync: console\n```console\n" ++ code ++ cl "\n```\n" ++
        (if anns.isEmpty then [] else anns ++ [ '\n' ]) ++ cl ":::\n"
    (strip_annotations code, first_tab)

/-- The console/esql snippet writes of `create_snippets_and_tabs` (source
lines 437–453): returns the updated directory and the code to convert. -/
def prepare_snippets (snippets_dir : Dir) (example_num : Nat)
    (code anns : List Char) (block_type : List Char) : Dir × List Char :=
  if block_type = cl "esql" then
    let da := write_snippet_file snippets_dir example_num (cl "esql") code anns
    let ctc := esql_to_console (strip_annotations code)
    (write_snippet_file da example_num (cl "console") ctc [], ctc)
  else
    (write_snippet_file snippets_dir example_num (cl "console") code anns,
     strip_annotations code)

/-- The converted-snippet writes of `create_snippets_and_tabs` (source
lines 459–460). -/
def write_converted (d : Dir) (example_num : Nat) (langs : List (List Char))
    (converted_codes : Assoc) : Dir :=
  langs.foldl
    (fun dd lang =>
      write_snippet_file dd example_num lang
        ((alookup converted_codes lang).getD []) [])
    d

/-- The include-directive tab-set of `create_snippets_and_tabs` (source
lines 462–487). -/
def snippet_tabs (parent : List Char) (example_num : Nat)
    (langs : List (List Char)) (block_type : List Char) : List Char :=
  cl "::::{tab-set}\n:group: api-examples\n\n" ++
    (if block_type = cl "esql" then
      cl ":::{tab-item} ES|QL\n:sync: esql\n\n" ++
        build_include_directive (cl "_snippets") parent example_num (cl "esql") ++
        cl "\n\n"
    else []) ++
    cl ":::{tab-item} Console\n:sync: console\n\n" ++
    build_include_directive (cl "_snippets") parent example_num (cl "console") ++
    cl "\n\n" ++
    (langs.foldl (fun acc lang =>
      let lang_label := (LANGUAGE_MAP (lower_list lang)).getD (capitalizeP lang)
      acc ++ cl ":::{tab-item} " ++ lang_label ++ cl "\n:sync: " ++
        lower_list lang ++ cl "\n\n" ++
        build_include_directive (cl "_snippets") parent example_num lang ++
        cl "\n\n") []) ++
    cl "::::"

/-- `create_snippets_and_tabs` (source lines 414–487): snippet mode.
Returns `(tabsMarkdown, directory, errors)`. -/
def create_snippets_and_tabs (conv : Conv) (snippets_dir : Dir)
    (parent : List Char) (example_num : Nat) (code anns : List Char)
    (languages : Option (List (List Char))) (is_first_block : Bool)
    (block_type : List Char) :
    Except (List Char) (List Char × Dir × List (List Char × List Char)) :=
  match convert_console conv
      (prepare_snippets snippets_dir example_num (pstrip code) anns block_type).2
      (.many (languages.getD DEFAULT_LANGUAGES)) is_first_block with
  | .error e => .error e
  | .ok pr =>
      .ok (snippet_tabs parent example_num (languages.getD DEFAULT_LANGUAGES)
          block_type,
        write_converted
          (prepare_snippets snippets_dir example_num (pstrip code) anns
            block_type).1
          example_num (languages.getD DEFAULT_LANGUAGES) pr.1, pr.2)

/-- `wrap_in_tabs` (source lines 490–535): inline mode. -/
def wrap_in_tabs (conv : Conv) (code anns : List Char)
    (languages : Option (List (List Char))) (is_first_block : Bool)
    (block_type : List Char) :
    Except (List Char) (List Char × List (List Char × List Char)) :=
  let langs := languages.getD DEFAULT_LANGUAGES
  let (code_to_convert, first_tab) := prepare_code_for_conversion code block_type anns
  let tabs := cl "::::{tab-set}\n:group: api-examples\n\n" ++ first_tab ++
    (if block_type = cl "esql" then
      cl "\n:::{tab-item} Console\n:sync: console\n```console\n" ++
        code_to_convert ++ cl "\n```\n:::\n"
    else [])
  match convert_console conv code_to_convert (.many langs) is_first_block with
  | .error e => .error e
  | .ok (converted_codes, conversion_errors) =>
      let tabs2 := langs.foldl
        (fun acc lang =>
          acc ++ build_language_tab lang ((alookup converted_codes lang).getD []))
        tabs
      .ok (tabs2 ++ cl "\n::::", conversion_errors)

/-!
## Orchestrators

`process_file` / `regenerate_from_snippets` act on one document: the
markdown text plus its snippet directory.  Both return the new directory,
the new markdown content and the boolean the Python functions return
(`False` covers "skipped" and "completed with errors").  Uncaught Python
exceptions are `Except.error`.
-/

structure FileState where
  dir : Dir
  md : List Char
  updated : Bool
deriving DecidableEq

/-- The per-snippet loop of `regenerate_from_snippets` (source lines
748–765): sequential numbering from 1, `complete` only for the first. -/
def regen_loop (conv : Conv) (langs : List (List Char)) :
    Dir → Nat → Bool → List (List Char × List Char) →
    Except (List Char) (Dir × Bool)
  | d, _, errs, [] => .ok (d, errs)
  | d, n, errs, (code, anns) :: rest =>
      match convert_console conv (strip_annotations code) (.many langs) (n == 1) with
      | .error e => .error e
      | .ok pr =>
          regen_loop conv langs
            (write_converted (write_snippet_file d n (cl "console") code anns)
              n langs pr.1)
            (n + 1) (errs || !pr.2.isEmpty) rest

/-- The `(code, annotations)` list `console_data` of
`regenerate_from_snippets` (source lines 721–726): parses of the sorted
console snippets, dropping files whose code could not be extracted. -/
def console_data_of (dir : Dir) : List (List Char × List Char) :=
  (get_console_snippets dir).filterMap (fun p =>
    if (parse_snippet_file p.2).1.isEmpty then none
    else some (parse_snippet_file p.2))

/-- `actual_numbers` of `regenerate_from_snippets` (source line 730). -/
def actual_numbers_of (dir : Dir) : List Nat :=
  (get_console_snippets dir).map Prod.fst

/-- `expected_numbers` of `regenerate_from_snippets` (source line 729). -/
def expected_numbers_of (dir : Dir) : List Nat :=
  List.range' 1 (get_console_snippets dir).length

/-- `regenerate_from_snippets` (source lines 679–797).  Deleting
`example*.md` empties the modelled directory; the snippet data is read
before the deletion, exactly as in the source. -/
def regenerate_from_snippets (conv : Conv) (parent : List Char)
    (languages : Option (List (List Char))) (dir : Dir) (markdown : List Char) :
    Except (List Char) FileState :=
  if !has_console_snippets dir then .ok ⟨dir, markdown, false⟩
  else
    match regen_loop conv (languages.getD DEFAULT_LANGUAGES) [] 1 false
        (console_data_of dir) with
    | .error e => .error e
    | .ok (d2, errs) =>
        .ok ⟨d2,
          if actual_numbers_of dir ≠ expected_numbers_of dir ∨
              (console_data_of dir).length ≠ count_tabsets_in_markdown markdown
          then apply_renumber parent
            ((actual_numbers_of dir).zip (expected_numbers_of dir)) markdown
          else markdown,
          !errs⟩

/-- The create-mode block loop of `process_file` (source lines 881–906):
example numbers `base + i + 1`, `is_first_block` for index 0 when
`first_enabled`. -/
def create_loop (conv : Conv) (parent : List Char)
    (languages : Option (List (List Char))) (block_type : List Char)
    (first_enabled : Bool) (base : Nat) :
    Dir → Nat → List (List Char × List Char) →
    Except (List Char) (Dir × List (List Char) × Bool)
  | d, _, [] => .ok (d, [], false)
  | d, i, (code, anns) :: rest =>
      match create_snippets_and_tabs conv d parent (base + i + 1) code anns
          languages (first_enabled && i == 0) block_type with
      | .error e => .error e
      | .ok (tab, d2, errs) =>
          match create_loop conv parent languages block_type first_enabled base
              d2 (i + 1) rest with
          | .error e => .error e
          | .ok (d3, tabs, eflag) => .ok (d3, tab :: tabs, eflag || !errs.isEmpty)

/-- The tail of create mode once blocks exist (source lines 881–927):
convert the console blocks, then the esql blocks, then substitute the
generated tab-sets into the nesting-incremented markdown.  `md1` is the
nesting-incremented text, `cb`/`eb` the extracted console/esql blocks. -/
def process_create (conv : Conv) (parent : List Char)
    (languages : Option (List (List Char))) (dir : Dir) (md1 : List Char)
    (cb eb : List (List Char × List Char)) : Except (List Char) FileState :=
  match create_loop conv parent languages (cl "console") true 0 dir 0 cb with
  | .error e => .error e
  | .ok (d1, console_tabs, cerr) =>
      match create_loop conv parent languages (cl "esql")
          cb.isEmpty cb.length d1 0 eb with
      | .error e => .error e
      | .ok (d2, esql_tabs, eerr) =>
          match replace_blocks md1 console_tabs esql_tabs with
          | .error _ => .error (cl "StopIteration")
          | .ok md2 => .ok ⟨d2, md2, !(cerr || eerr)⟩

/-- `process_file` (source lines 821–927). -/
def process_file (conv : Conv) (parent : List Char)
    (languages : Option (List (List Char))) (regenerate : Bool)
    (dir : Dir) (markdown : List Char) : Except (List Char) FileState :=
  if regenerate then
    if !has_console_snippets dir then .ok ⟨dir, markdown, false⟩
    else regenerate_from_snippets conv parent languages dir markdown
  else
    if (has_language_tabs markdown languages).1 then .ok ⟨dir, markdown, false⟩
    else
      if (extract_code_blocks (increment_directive_delimiters markdown 1)
            (cl "console")).isEmpty &&
          (extract_code_blocks (increment_directive_delimiters markdown 1)
            (cl "esql")).isEmpty then
        .ok ⟨dir, markdown, false⟩
      else
        process_create conv parent languages dir
          (increment_directive_delimiters markdown 1)
          (extract_code_blocks (increment_directive_delimiters markdown 1)
            (cl "console"))
          (extract_code_blocks (increment_directive_delimiters markdown 1)
            (cl "esql"))

/-!
## Specification-side observers and sample data

These are not source functions: they only observe outputs (tab labels and
sync keys of generated markup) or provide concrete oracles for sample
runs.
-/

/-- A language identifier the converter client supports
(`LANGUAGE_MAP.get(lang.lower())` is not `None`). -/
def supportedB (l : List Char) : Bool := (LANGUAGE_MAP (lower_list l)).isSome

/-- The task built for one language by the preparation loop. -/
def task_of (lang : List Char) : Option (List Char × List Char) :=
  (LANGUAGE_MAP (lower_list lang)).map (fun c => (lang, c))

/-- The blocks create mode works on: extraction from the document after
directive nesting has been incremented (source lines 853–857). -/
def doc_blocks (markdown bt : List Char) : List (List Char × List Char) :=
  extract_code_blocks (increment_directive_delimiters markdown 1) bt

/-- The console snippet files the regeneration loop writes for the given
data, numbered from `n`: specification-side description of the loop's
console output. -/
def expected_consoles (n : Nat) : List (List Char × List Char) → List (Nat × List Char)
  | [] => []
  | (code, anns) :: rest =>
      (n, snippet_body (cl "console") code anns) :: expected_consoles (n + 1) rest

/-- A sample deterministic converter oracle: tags the output with the
converter language and the `--complete` flag. -/
def demo_conv : Conv := fun fmt input complete =>
  .ok (cl "CONV[" ++ fmt ++ [ '|' ] ++ [if complete then 'C' else 'c'] ++
    [ ']', '\n' ] ++ input)

end AddLang

namespace AddLang

/-!
## Lemmas: association lists
-/

theorem alookup_aupdate_self (m : Assoc) (k v : List Char) :
    alookup (aupdate m k v) k = some v := by
  induction m with
  | nil => simp [aupdate, alookup]
  | cons e rest ih =>
      by_cases h : e.1 = k
      · simp [aupdate, h, alookup]
      · simp [aupdate, h, alookup, ih]

theorem alookup_aupdate_ne (m : Assoc) (k v l : List Char) (h : k ≠ l) :
    alookup (aupdate m k v) l = alookup m l := by
  induction m with
  | nil => simp [aupdate, alookup, h]
  | cons e rest ih =>
      by_cases he : e.1 = k
      · simp [aupdate, he, alookup, h, he.symm ▸ h]
      · simp [aupdate, he, alookup, ih]

/-!
## Lemmas: converter client
-/

theorem prep_tasks (cc : List Char) (langs : List (List Char))
    (acc : Assoc × Assoc × List (List Char × List Char)) :
    (langs.foldl (prep_step cc) acc).2.2 = acc.2.2 ++ langs.filterMap task_of := by
  induction langs generalizing acc with
  | nil => simp
  | cons lang rest ih =>
      simp only [List.foldl_cons, List.filterMap_cons]
      cases h : LANGUAGE_MAP (lower_list lang) with
      | none => rw [ih]; simp [prep_step, h, task_of]
      | some c => rw [ih]; simp [prep_step, h, task_of]

theorem prep_res_unsupported (cc l : List Char) (hl : supportedB l = false)
    (langs : List (List Char)) (acc : Assoc × Assoc × List (List Char × List Char))
    (hbase : l ∈ langs ∨ alookup acc.1 l = some cc) :
    alookup (langs.foldl (prep_step cc) acc).1 l = some cc := by
  induction langs generalizing acc with
  | nil =>
      rcases hbase with h | h
      · cases h
      · simpa using h
  | cons lang rest ih =>
      simp only [List.foldl_cons]
      by_cases hll : lang = l
      · subst hll
        have hnone : LANGUAGE_MAP (lower_list lang) = none := by
          cases hm : LANGUAGE_MAP (lower_list lang) with
          | none => rfl
          | some c => rw [supportedB, hm] at hl; cases hl
        refine ih _ (Or.inr ?_)
        simp [prep_step, hnone, alookup_aupdate_self]
      · rcases hbase with h | h
        · rcases List.mem_cons.mp h with h1 | h1
          · exact absurd h1.symm hll
          · exact ih _ (Or.inl h1)
        · refine ih _ (Or.inr ?_)
          cases hm : LANGUAGE_MAP (lower_list lang) with
          | none => simpa [prep_step, hm, alookup_aupdate_ne _ _ _ _ hll] using h
          | some c => simpa [prep_step, hm] using h

theorem prep_err_unsupported (cc l : List Char) (hl : supportedB l = false)
    (langs : List (List Char)) (acc : Assoc × Assoc × List (List Char × List Char))
    (hbase : l ∈ langs ∨ alookup acc.2.1 l = some (cl "Unsupported language: " ++ l)) :
    alookup (langs.foldl (prep_step cc) acc).2.1 l =
      some (cl "Unsupported language: " ++ l) := by
  induction langs generalizing acc with
  | nil =>
      rcases hbase with h | h
      · cases h
      · simpa using h
  | cons lang rest ih =>
      simp only [List.foldl_cons]
      by_cases hll : lang = l
      · subst hll
        have hnone : LANGUAGE_MAP (lower_list lang) = none := by
          cases hm : LANGUAGE_MAP (lower_list lang) with
          | none => rfl
          | some c => rw [supportedB, hm] at hl; cases hl
        refine ih _ (Or.inr ?_)
        simp [prep_step, hnone, alookup_aupdate_self]
      · rcases hbase with h | h
        · rcases List.mem_cons.mp h with h1 | h1
          · exact absurd h1.symm hll
          · exact ih _ (Or.inl h1)
        · refine ih _ (Or.inr ?_)
          cases hm : LANGUAGE_MAP (lower_list lang) with
          | none => simpa [prep_step, hm, alookup_aupdate_ne _ _ _ _ hll] using h
          | some c => simpa [prep_step, hm] using h

theorem conv_fold_unsupported (conv : Conv) (cc : List Char) (complete : Bool)
    (l : List Char) (hl : supportedB l = false)
    (tasks : List (List Char × List Char)) (acc : Assoc × Assoc)
    (htasks : ∀ t ∈ tasks, supportedB t.1 = true) :
    alookup (tasks.foldl (conv_step conv cc complete) acc).1 l = alookup acc.1 l ∧
    alookup (tasks.foldl (conv_step conv cc complete) acc).2 l = alookup acc.2 l := by
  induction tasks generalizing acc with
  | nil => exact ⟨rfl, rfl⟩
  | cons t rest ih =>
      have hne : t.1 ≠ l := by
        intro h
        have := htasks t (List.mem_cons_self t rest)
        rw [h, hl] at this
        cases this
      have hstep1 :
          alookup (conv_step conv cc complete acc t).1 l = alookup acc.1 l := by
        simp [conv_step, alookup_aupdate_ne _ _ _ _ hne]
      have hstep2 :
          alookup (conv_step conv cc complete acc t).2 l = alookup acc.2 l := by
        simp only [conv_step]
        cases h2 : (convert_single_language conv cc complete t.2).2 with
        | none => rfl
        | some e =>
            by_cases he : e.isEmpty
            · simp [he]
            · simp [he, alookup_aupdate_ne _ _ _ _ hne]
      have := ih (conv_step conv cc complete acc t)
        (fun t2 ht2 => htasks t2 (List.mem_cons_of_mem _ ht2))
      simp only [List.foldl_cons]
      exact ⟨this.1.trans hstep1, this.2.trans hstep2⟩

theorem conv_fold_supported (conv : Conv) (cc : List Char) (complete : Bool)
    (l c : List Char) (tasks : List (List Char × List Char)) (acc : Assoc × Assoc)
    (hcons : ∀ t ∈ tasks, t.1 = l → t.2 = c)
    (hbase : (l, c) ∈ tasks ∨
      alookup acc.1 l = some (convert_single_language conv cc complete c).1) :
    alookup (tasks.foldl (conv_step conv cc complete) acc).1 l =
      some (convert_single_language conv cc complete c).1 := by
  induction tasks generalizing acc with
  | nil =>
      rcases hbase with h | h
      · cases h
      · simpa using h
  | cons t rest ih =>
      simp only [List.foldl_cons]
      by_cases htl : t.1 = l
      · have htc : t.2 = c := hcons t (List.mem_cons_self t rest) htl
        refine ih _ (fun t2 ht2 => hcons t2 (List.mem_cons_of_mem _ ht2)) (Or.inr ?_)
        simp [conv_step, htc, htl, alookup_aupdate_self]
      · refine ih _ (fun t2 ht2 => hcons t2 (List.mem_cons_of_mem _ ht2)) ?_
        rcases hbase with h | h
        · rcases List.mem_cons.mp h with h1 | h1
          · exact absurd (congrArg Prod.fst h1.symm) htl
          · exact Or.inl h1
        · refine Or.inr ?_
          simp only [conv_step]
          rw [alookup_aupdate_ne _ _ _ _ htl]
          exact h

end AddLang

namespace AddLang

theorem mem_tasks_spec (langs : List (List Char)) (t : List Char × List Char)
    (h : t ∈ langs.filterMap task_of) :
    t.1 ∈ langs ∧ LANGUAGE_MAP (lower_list t.1) = some t.2 := by
  rcases List.mem_filterMap.mp h with ⟨lang, hmem, hsome⟩
  unfold task_of at hsome
  cases hm : LANGUAGE_MAP (lower_list lang) with
  | none => rw [hm] at hsome; cases hsome
  | some c =>
      rw [hm] at hsome
      have h2 : (lang, c) = t := by simpa using hsome
      subst h2
      exact ⟨hmem, hm⟩

theorem tasks_supported (langs : List (List Char)) (t : List Char × List Char)
    (h : t ∈ langs.filterMap task_of) : supportedB t.1 = true := by
  have := (mem_tasks_spec langs t h).2
  simp [supportedB, this]

theorem supported_mem_tasks (langs : List (List Char)) (l c : List Char)
    (hmem : l ∈ langs) (hc : LANGUAGE_MAP (lower_list l) = some c) :
    (l, c) ∈ langs.filterMap task_of :=
  List.mem_filterMap.mpr ⟨l, hmem, by simp [task_of, hc]⟩

theorem tasks_isEmpty_eq (langs : List (List Char)) :
    (langs.filterMap task_of).isEmpty = !(langs.any supportedB) := by
  cases he : langs.filterMap task_of with
  | nil =>
      have hall : ∀ l ∈ langs, task_of l = none := List.filterMap_eq_nil_iff.mp he
      have hany : langs.any supportedB = false := by
        rw [List.any_eq_false]
        intro x hx
        have h2 := hall x hx
        unfold task_of at h2
        cases hm : LANGUAGE_MAP (lower_list x) with
        | none => simp [supportedB, hm]
        | some c => rw [hm] at h2; cases h2
      rw [hany]; rfl
  | cons t rest =>
      have hmem : t ∈ langs.filterMap task_of := by
        rw [he]; exact List.mem_cons_self t rest
      have hs := tasks_supported langs t hmem
      have hany : langs.any supportedB = true :=
        List.any_eq_true.mpr ⟨t.1, (mem_tasks_spec langs t hmem).1, hs⟩
      rw [hany]; rfl

theorem convert_console_many_eq (conv : Conv) (cc : List Char) (complete : Bool)
    (langs : List (List Char)) :
    convert_console conv cc (.many langs) complete =
      (if (langs.filterMap task_of).isEmpty then
        .error (cl "ValueError: max_workers must be greater than 0")
      else
        .ok ((langs.filterMap task_of).foldl (conv_step conv cc complete)
          ((langs.foldl (prep_step cc) ([], [], [])).1,
           (langs.foldl (prep_step cc) ([], [], [])).2.1))) := by
  have htasks : (langs.foldl (prep_step cc) ([], [], [])).2.2 =
      langs.filterMap task_of := by
    simpa using prep_tasks cc langs ([], [], [])
  simp only [convert_console, normalize_langs, htasks]

/-- C8: `convert_console` returns normally (with one results entry per
requested language) only when some requested identifier is supported; a
language list with no supported identifier makes the task list empty, so
`ThreadPoolExecutor` is constructed with zero maximum workers and the call
raises `ValueError` instead of returning the collected per-language
errors. -/
theorem convert_console_requires_supported (conv : Conv) (cc : List Char)
    (complete : Bool) (langs : List (List Char)) :
    ((convert_console conv cc (.many langs) complete).isOk = langs.any supportedB) ∧
    (langs.any supportedB = false →
      convert_console conv cc (.many langs) complete =
        .error (cl "ValueError: max_workers must be greater than 0")) ∧
    (∀ res errs, convert_console conv cc (.many langs) complete = .ok (res, errs) →
      ∀ l ∈ langs, (alookup res l).isSome = true) := by
  have heq := convert_console_many_eq conv cc complete langs
  have hemp := tasks_isEmpty_eq langs
  refine ⟨?_, ?_, ?_⟩
  · rw [heq]
    cases hany : langs.any supportedB with
    | false =>
        have hc : (langs.filterMap task_of).isEmpty = true := by rw [hemp, hany]; rfl
        simp [hc, hany, Except.isOk, Except.toBool]
    | true =>
        have hc : (langs.filterMap task_of).isEmpty = false := by rw [hemp, hany]; rfl
        simp [hc, hany, Except.isOk, Except.toBool]
  · intro hany
    have hc : (langs.filterMap task_of).isEmpty = true := by rw [hemp, hany]; rfl
    rw [heq]
    simp [hc]
  · intro res errs hok l hl
    rw [heq] at hok
    by_cases hemp2 : (langs.filterMap task_of).isEmpty
    · rw [if_pos hemp2] at hok; cases hok
    · rw [if_neg hemp2] at hok
      have hpair : (langs.filterMap task_of).foldl (conv_step conv cc complete)
          ((langs.foldl (prep_step cc) ([], [], [])).1,
           (langs.foldl (prep_step cc) ([], [], [])).2.1) = (res, errs) := by
        injection hok
      have h1 : res = ((langs.filterMap task_of).foldl (conv_step conv cc complete)
          ((langs.foldl (prep_step cc) ([], [], [])).1,
           (langs.foldl (prep_step cc) ([], [], [])).2.1)).1 := by rw [hpair]
      rw [h1]
      cases hs : supportedB l with
      | false =>
          have hpre := prep_res_unsupported cc l hs langs ([], [], []) (Or.inl hl)
          have hkeep := conv_fold_unsupported conv cc complete l hs
            (langs.filterMap task_of)
            ((langs.foldl (prep_step cc) ([], [], [])).1,
             (langs.foldl (prep_step cc) ([], [], [])).2.1)
            (fun t ht => tasks_supported langs t ht)
          rw [hkeep.1, hpre]
          rfl
      | true =>
          have hc : ∃ c, LANGUAGE_MAP (lower_list l) = some c := by
            cases hm : LANGUAGE_MAP (lower_list l) with
            | none => rw [supportedB, hm] at hs; cases hs
            | some c => exact ⟨c, rfl⟩
          rcases hc with ⟨c, hc⟩
          have hfold := conv_fold_supported conv cc complete l c
            (langs.filterMap task_of)
            ((langs.foldl (prep_step cc) ([], [], [])).1,
             (langs.foldl (prep_step cc) ([], [], [])).2.1)
            (fun t ht htl => by
              have h2 := (mem_tasks_spec langs t ht).2
              rw [htl, hc] at h2
              exact (Option.some_inj.mp h2).symm)
            (Or.inl (supported_mem_tasks langs l c hl hc))
          rw [hfold]
          rfl

/-- Witness for C8 at a concrete unsupported-only call. -/
theorem convert_console_requires_supported_witness :
    convert_console demo_conv (cl "POST /y") (.many [cl "fortran"]) false =
      .error (cl "ValueError: max_workers must be greater than 0") :=
  (convert_console_requires_supported demo_conv (cl "POST /y") false
    [cl "fortran"]).2.1 (by decide)

end AddLang

namespace AddLang

/-- C6 (amended): provided at least one requested identifier is supported
(otherwise the call raises `ValueError` instead of returning — see the
worker-pool construction), every identifier without a converter-tool
mapping receives an "Unsupported language" error and its result is the
original console text unchanged — for every oracle, so no conversion is
attempted for it — while every supported identifier in the same list is
still converted; all per-language results are returned together in one
results/errors pair. -/
theorem convert_console_unsupported_passthrough (conv : Conv) (cc : List Char)
    (complete : Bool) (langs : List (List Char))
    (hok : langs.any supportedB = true) :
    ∃ res errs, convert_console conv cc (.many langs) complete = .ok (res, errs) ∧
      (∀ l ∈ langs, supportedB l = false →
        alookup res l = some cc ∧
        alookup errs l = some (cl "Unsupported language: " ++ l)) ∧
      (∀ l ∈ langs, ∀ c, LANGUAGE_MAP (lower_list l) = some c →
        alookup res l = some (convert_single_language conv cc complete c).1) := by
  have heq := convert_console_many_eq conv cc complete langs
  have hemp := tasks_isEmpty_eq langs
  have hc : (langs.filterMap task_of).isEmpty = false := by rw [hemp, hok]; rfl
  refine ⟨((langs.filterMap task_of).foldl (conv_step conv cc complete)
      ((langs.foldl (prep_step cc) ([], [], [])).1,
       (langs.foldl (prep_step cc) ([], [], [])).2.1)).1,
    ((langs.filterMap task_of).foldl (conv_step conv cc complete)
      ((langs.foldl (prep_step cc) ([], [], [])).1,
       (langs.foldl (prep_step cc) ([], [], [])).2.1)).2, ?_, ?_, ?_⟩
  · rw [heq]
    simp [hc]
  · intro l hl hs
    have hpre1 := prep_res_unsupported cc l hs langs ([], [], []) (Or.inl hl)
    have hpre2 := prep_err_unsupported cc l hs langs ([], [], []) (Or.inl hl)
    have hkeep := conv_fold_unsupported conv cc complete l hs
      (langs.filterMap task_of)
      ((langs.foldl (prep_step cc) ([], [], [])).1,
       (langs.foldl (prep_step cc) ([], [], [])).2.1)
      (fun t ht => tasks_supported langs t ht)
    exact ⟨hkeep.1.trans hpre1, hkeep.2.trans hpre2⟩
  · intro l hl c hcl
    exact conv_fold_supported conv cc complete l c (langs.filterMap task_of)
      ((langs.foldl (prep_step cc) ([], [], [])).1,
       (langs.foldl (prep_step cc) ([], [], [])).2.1)
      (fun t ht htl => by
        have h2 := (mem_tasks_spec langs t ht).2
        rw [htl, hcl] at h2
        exact (Option.some_inj.mp h2).symm)
      (Or.inl (supported_mem_tasks langs l c hl hcl))

/-- C6 counterexample: a call whose language list contains no supported
identifier (here `["cobol"]`) raises instead of returning the collected
results/errors pair, so the unconditional claim fails for such calls. -/
theorem convert_console_all_unsupported_cex :
    convert_console demo_conv (cl "GET /x") (.many [cl "cobol"]) true =
      .error (cl "ValueError: max_workers must be greater than 0") := by
  rfl

/-- Witness for the amended C6 at a concrete mixed call. -/
theorem convert_console_unsupported_passthrough_witness :
    ∃ res errs,
      convert_console demo_conv (cl "GET /idx") (.many [cl "cobol", cl "python"])
        true = .ok (res, errs) ∧
      (∀ l ∈ [cl "cobol", cl "python"], supportedB l = false →
        alookup res l = some (cl "GET /idx") ∧
        alookup errs l = some (cl "Unsupported language: " ++ l)) ∧
      (∀ l ∈ [cl "cobol", cl "python"], ∀ c, LANGUAGE_MAP (lower_list l) = some c →
        alookup res l =
          some (convert_single_language demo_conv (cl "GET /idx") true c).1) :=
  convert_console_unsupported_passthrough demo_conv (cl "GET /idx") true
    [cl "cobol", cl "python"] (by decide)

end AddLang

namespace AddLang

/-!
## Lemmas: snippet directory
-/

theorem dir_get_write_self (d : Dir) (n : Nat) (lang c : List Char) :
    dir_get (dir_write d n lang c) n lang = some c := by
  induction d with
  | nil => simp [dir_write, dir_get]
  | cons e rest ih =>
      cases hw : (e.1 = n && e.2.1 = lang) with
      | true => simp [dir_write, dir_get, hw]
      | false => simp [dir_write, dir_get, hw, ih]

theorem dir_get_write_ne (d : Dir) (n : Nat) (lang c : List Char)
    (m : Nat) (lang2 : List Char) (h : ¬(m = n ∧ lang2 = lang)) :
    dir_get (dir_write d n lang c) m lang2 = dir_get d m lang2 := by
  have hb1 : (n = m && lang = lang2) = false := by
    by_cases h1 : n = m
    · by_cases h2 : lang = lang2
      · exact absurd ⟨h1.symm, h2.symm⟩ h
      · simp [h2]
    · simp [h1]
  induction d with
  | nil => simp [dir_write, dir_get, hb1]
  | cons e rest ih =>
      cases hw : (e.1 = n && e.2.1 = lang) with
      | true =>
          have hw2 := Bool.and_eq_true _ _ |>.mp hw
          have he1 : e.1 = n := of_decide_eq_true hw2.1
          have he2 : e.2.1 = lang := of_decide_eq_true hw2.2
          have hb2 : (e.1 = m && e.2.1 = lang2) = false := by
            rw [he1, he2]; exact hb1
          simp [dir_write, dir_get, hw, hb1, hb2]
      | false =>
          cases hw2 : (e.1 = m && e.2.1 = lang2) with
          | true => simp [dir_write, dir_get, hw, hw2]
          | false => simp [dir_write, dir_get, hw, hw2, ih]

theorem dir_get_write_isSome (d : Dir) (n : Nat) (lang c : List Char)
    (m : Nat) (lang2 : List Char)
    (h : (dir_get (dir_write d n lang c) m lang2).isSome = true) :
    (dir_get d m lang2).isSome = true ∨ (m = n ∧ lang2 = lang) := by
  by_cases hk : m = n ∧ lang2 = lang
  · exact Or.inr hk
  · rw [dir_get_write_ne d n lang c m lang2 hk] at h
    exact Or.inl h

end AddLang

namespace AddLang

theorem fold_write_get_other (num : Nat) (g : List Char → List Char)
    (langs : List (List Char)) (d : Dir) (m : Nat) (lang2 : List Char)
    (h : ¬(m = num ∧ lang2 ∈ langs)) :
    dir_get (langs.foldl (fun dd l => dir_write dd num l (g l)) d) m lang2 =
      dir_get d m lang2 := by
  induction langs generalizing d with
  | nil => rfl
  | cons l rest ih =>
      simp only [List.foldl_cons]
      rw [ih _ (fun hc => h ⟨hc.1, List.mem_cons_of_mem _ hc.2⟩)]
      exact dir_get_write_ne d num l (g l) m lang2
        (fun hc => h ⟨hc.1, hc.2 ▸ List.mem_cons_self l rest⟩)

theorem fold_write_isSome (num : Nat) (g : List Char → List Char)
    (langs : List (List Char)) (d : Dir) (m : Nat) (lang2 : List Char)
    (h : (dir_get (langs.foldl (fun dd l => dir_write dd num l (g l)) d) m lang2).isSome
      = true) :
    (dir_get d m lang2).isSome = true ∨ m = num := by
  induction langs generalizing d with
  | nil => exact Or.inl h
  | cons l rest ih =>
      simp only [List.foldl_cons] at h
      rcases ih _ h with h2 | h2
      · rcases dir_get_write_isSome d num l (g l) m lang2 h2 with h3 | h3
        · exact Or.inl h3
        · exact Or.inr h3.1
      · exact Or.inr h2

theorem write_converted_get_other (d : Dir) (num : Nat)
    (langs : List (List Char)) (codes : Assoc) (m : Nat) (lang2 : List Char)
    (h : ¬(m = num ∧ lang2 ∈ langs)) :
    dir_get (write_converted d num langs codes) m lang2 = dir_get d m lang2 :=
  fold_write_get_other num _ langs d m lang2 h

theorem write_converted_isSome (d : Dir) (num : Nat)
    (langs : List (List Char)) (codes : Assoc) (m : Nat) (lang2 : List Char)
    (h : (dir_get (write_converted d num langs codes) m lang2).isSome = true) :
    (dir_get d m lang2).isSome = true ∨ m = num :=
  fold_write_isSome num _ langs d m lang2 h

theorem prepare_snippets_get_other (d : Dir) (num : Nat)
    (code anns bt : List Char) (m : Nat) (lang2 : List Char) (h : m ≠ num) :
    dir_get (prepare_snippets d num code anns bt).1 m lang2 =
      dir_get d m lang2 := by
  unfold prepare_snippets
  by_cases hbt : bt = cl "esql"
  · rw [if_pos hbt]
    simp only [write_snippet_file]
    rw [dir_get_write_ne _ _ _ _ m lang2 (fun hx => h hx.1),
      dir_get_write_ne _ _ _ _ m lang2 (fun hx => h hx.1)]
  · rw [if_neg hbt]
    simp only [write_snippet_file]
    rw [dir_get_write_ne _ _ _ _ m lang2 (fun hx => h hx.1)]

theorem prepare_snippets_isSome (d : Dir) (num : Nat)
    (code anns bt : List Char) (m : Nat) (lang2 : List Char)
    (h : (dir_get (prepare_snippets d num code anns bt).1 m lang2).isSome = true) :
    (dir_get d m lang2).isSome = true ∨ m = num := by
  unfold prepare_snippets at h
  by_cases hbt : bt = cl "esql"
  · rw [if_pos hbt] at h
    simp only [write_snippet_file] at h
    rcases dir_get_write_isSome _ _ _ _ m lang2 h with h2 | h2
    · rcases dir_get_write_isSome _ _ _ _ m lang2 h2 with h3 | h3
      · exact Or.inl h3
      · exact Or.inr h3.1
    · exact Or.inr h2.1
  · rw [if_neg hbt] at h
    simp only [write_snippet_file] at h
    rcases dir_get_write_isSome _ _ _ _ m lang2 h with h2 | h2
    · exact Or.inl h2
    · exact Or.inr h2.1

theorem prepare_snippets_get_bt (d : Dir) (num : Nat)
    (code anns bt : List Char) (hbt : bt = cl "console" ∨ bt = cl "esql") :
    dir_get (prepare_snippets d num code anns bt).1 num bt =
      some (snippet_body bt code anns) := by
  unfold prepare_snippets
  rcases hbt with h | h
  · have hne : bt ≠ cl "esql" := by rw [h]; decide
    rw [if_neg hne, h]
    simp only [write_snippet_file]
    rw [dir_get_write_self]
  · rw [if_pos h, h]
    simp only [write_snippet_file]
    rw [dir_get_write_ne _ _ _ _ num (cl "esql") (fun hx => by cases hx.2),
      dir_get_write_self]

theorem csat_dir_char (conv : Conv) (d : Dir) (parent : List Char) (num : Nat)
    (code anns : List Char) (languages : Option (List (List Char)))
    (is_first : Bool) (bt : List Char) (tabs : List Char) (d2 : Dir)
    (errs : Assoc)
    (hok : create_snippets_and_tabs conv d parent num code anns languages
      is_first bt = .ok (tabs, d2, errs)) :
    (∀ m lang2, m ≠ num → dir_get d2 m lang2 = dir_get d m lang2) ∧
    (∀ m lang2, (dir_get d2 m lang2).isSome = true →
      (dir_get d m lang2).isSome = true ∨ m = num) ∧
    ((bt = cl "console" ∨ bt = cl "esql") →
      bt ∉ languages.getD DEFAULT_LANGUAGES →
      dir_get d2 num bt = some (snippet_body bt (pstrip code) anns)) ∧
    tabs = snippet_tabs parent num (languages.getD DEFAULT_LANGUAGES) bt := by
  unfold create_snippets_and_tabs at hok
  cases hc : convert_console conv
      (prepare_snippets d num (pstrip code) anns bt).2
      (.many (languages.getD DEFAULT_LANGUAGES)) is_first with
  | error e =>
      rw [hc] at hok
      exact Except.noConfusion hok
  | ok pr =>
      rw [hc] at hok
      have hok2 : (Except.ok
          (snippet_tabs parent num (languages.getD DEFAULT_LANGUAGES) bt,
           write_converted (prepare_snippets d num (pstrip code) anns bt).1
             num (languages.getD DEFAULT_LANGUAGES) pr.1, pr.2) :
          Except (List Char) (List Char × Dir × Assoc)) =
          Except.ok (tabs, d2, errs) := hok
      injection hok2 with htup
      have hd2 : write_converted (prepare_snippets d num (pstrip code) anns bt).1
            num (languages.getD DEFAULT_LANGUAGES) pr.1 = d2 :=
        congrArg (fun t => t.2.1) htup
      have htabs : tabs = snippet_tabs parent num
          (languages.getD DEFAULT_LANGUAGES) bt :=
        (congrArg (fun t => t.1) htup).symm
      subst hd2
      refine ⟨?_, ?_, ?_, htabs⟩
      · intro m lang2 hm
        rw [write_converted_get_other _ _ _ _ m lang2 (fun hx => hm hx.1)]
        exact prepare_snippets_get_other d num _ anns bt m lang2 hm
      · intro m lang2 hs
        rcases write_converted_isSome _ _ _ _ m lang2 hs with h2 | h2
        · exact prepare_snippets_isSome d num _ anns bt m lang2 h2
        · exact Or.inr h2
      · intro hbt hnl
        rw [write_converted_get_other _ _ _ _ num bt (fun hx => hnl hx.2)]
        exact prepare_snippets_get_bt d num _ anns bt hbt

end AddLang

namespace AddLang

/-!
## Lemmas: create-mode block loop
-/

theorem create_loop_char (conv : Conv) (parent : List Char)
    (languages : Option (List (List Char))) (bt : List Char) (fe : Bool)
    (base : Nat)
    (hbt : bt = cl "console" ∨ bt = cl "esql")
    (hnl : bt ∉ languages.getD DEFAULT_LANGUAGES) :
    ∀ (blocks : List (List Char × List Char)) (d : Dir) (i : Nat)
      (d2 : Dir) (tabs : List (List Char)) (eflag : Bool),
    create_loop conv parent languages bt fe base d i blocks =
      .ok (d2, tabs, eflag) →
    (∀ k (hk : k < blocks.length),
       dir_get d2 (base + i + k + 1) bt =
         some (snippet_body bt (pstrip (blocks.get ⟨k, hk⟩).1)
           (blocks.get ⟨k, hk⟩).2)) ∧
    (∀ m lang2, (m ≤ base + i ∨ base + i + blocks.length < m) →
       dir_get d2 m lang2 = dir_get d m lang2) ∧
    (∀ m lang2, (dir_get d2 m lang2).isSome = true →
       (dir_get d m lang2).isSome = true ∨
         (base + i + 1 ≤ m ∧ m ≤ base + i + blocks.length)) := by
  intro blocks
  induction blocks with
  | nil =>
      intro d i d2 tabs eflag hok
      have h1 : d = d2 := by
        simp only [create_loop] at hok
        injection hok with h
        exact congrArg (fun t => t.1) h
      subst h1
      refine ⟨?_, ?_, ?_⟩
      · intro k hk; cases hk
      · intro m lang2 _; rfl
      · intro m lang2 hs; exact Or.inl hs
  | cons blk rest ih =>
      intro d i d2 tabs eflag hok
      obtain ⟨code, anns⟩ := blk
      simp only [create_loop] at hok
      cases hc : create_snippets_and_tabs conv d parent (base + i + 1) code anns
          languages (fe && i == 0) bt with
      | error e => rw [hc] at hok; exact Except.noConfusion hok
      | ok tr =>
          obtain ⟨tab, dmid, errsb⟩ := tr
          rw [hc] at hok
          have hok1 : (match create_loop conv parent languages bt fe base dmid
                (i + 1) rest with
              | .error e =>
                  (.error e : Except (List Char) (Dir × List (List Char) × Bool))
              | .ok (d3, tabs3, ef3) =>
                  .ok (d3, tab :: tabs3, ef3 || !errsb.isEmpty)) =
              Except.ok (d2, tabs, eflag) := hok
          cases hr : create_loop conv parent languages bt fe base dmid (i + 1)
              rest with
          | error e => rw [hr] at hok1; exact Except.noConfusion hok1
          | ok rr =>
              obtain ⟨d3, tabs3, ef3⟩ := rr
              rw [hr] at hok1
              have hok2 : (Except.ok (d3, tab :: tabs3, ef3 || !errsb.isEmpty) :
                  Except (List Char) (Dir × List (List Char) × Bool)) =
                  Except.ok (d2, tabs, eflag) := hok1
              injection hok2 with htup
              have hd3 : d3 = d2 := congrArg (fun t => t.1) htup
              subst hd3
              have hcsat := csat_dir_char conv d parent (base + i + 1) code anns
                languages (fe && i == 0) bt tab dmid errsb hc
              have hrest := ih dmid (i + 1) d3 tabs3 ef3 hr
              refine ⟨?_, ?_, ?_⟩
              · intro k hk
                cases k with
                | zero =>
                    have hfr := hrest.2.1 (base + i + 1) bt (Or.inl (by omega))
                    have hv := hcsat.2.2.1 hbt hnl
                    exact hfr.trans hv
                | succ k2 =>
                    have hk2 : k2 < rest.length := by
                      rw [List.length_cons] at hk
                      omega
                    have hstep := hrest.1 k2 hk2
                    have harith : base + (i + 1) + k2 + 1 = base + i + (k2 + 1) + 1 := by
                      omega
                    rw [harith] at hstep
                    exact hstep
              · intro m lang2 hm
                rw [List.length_cons] at hm
                have hfr := hrest.2.1 m lang2 (by
                  rcases hm with h | h
                  · exact Or.inl (by omega)
                  · exact Or.inr (by omega))
                rw [hfr]
                refine hcsat.1 m lang2 ?_
                rcases hm with h | h
                · omega
                · omega
              · intro m lang2 hs
                rw [List.length_cons]
                rcases hrest.2.2 m lang2 hs with h2 | h2
                · rcases hcsat.2.1 m lang2 h2 with h3 | h3
                  · exact Or.inl h3
                  · exact Or.inr (by omega)
                · exact Or.inr (by omega)

end AddLang

namespace AddLang

/-- C3: in create mode the example numbers assigned to snippet files form
a single running sequence: the k-th console block (0-based) of the
document receives number `k+1` — its console snippet file is written under
that number with its code and annotations — and the k-th esql block
receives number `N+k+1` with `N` the number of console blocks; starting
from an empty snippet directory, every written file's number lies in
`1..N+M`. -/
theorem process_file_numbering (conv : Conv) (parent : List Char)
    (languages : Option (List (List Char))) (markdown : List Char)
    (st : FileState)
    (hnc : cl "console" ∉ languages.getD DEFAULT_LANGUAGES)
    (hne : cl "esql" ∉ languages.getD DEFAULT_LANGUAGES)
    (htabs : (has_language_tabs markdown languages).1 = false)
    (hok : process_file conv parent languages false [] markdown = .ok st) :
    (∀ k (hk : k < (doc_blocks markdown (cl "console")).length),
       dir_get st.dir (k + 1) (cl "console") =
         some (snippet_body (cl "console")
           (pstrip ((doc_blocks markdown (cl "console")).get ⟨k, hk⟩).1)
           ((doc_blocks markdown (cl "console")).get ⟨k, hk⟩).2)) ∧
    (∀ k (hk : k < (doc_blocks markdown (cl "esql")).length),
       dir_get st.dir ((doc_blocks markdown (cl "console")).length + k + 1)
           (cl "esql") =
         some (snippet_body (cl "esql")
           (pstrip ((doc_blocks markdown (cl "esql")).get ⟨k, hk⟩).1)
           ((doc_blocks markdown (cl "esql")).get ⟨k, hk⟩).2)) ∧
    (∀ n lang2, (dir_get st.dir n lang2).isSome = true →
       1 ≤ n ∧ n ≤ (doc_blocks markdown (cl "console")).length +
         (doc_blocks markdown (cl "esql")).length) := by
  unfold process_file at hok
  rw [if_neg (by decide)] at hok
  rw [htabs, if_neg (by decide)] at hok
  by_cases hemp : ((extract_code_blocks (increment_directive_delimiters markdown 1)
        (cl "console")).isEmpty &&
      (extract_code_blocks (increment_directive_delimiters markdown 1)
        (cl "esql")).isEmpty) = true
  · rw [if_pos hemp] at hok
    have hst : st = ⟨[], markdown, false⟩ := by
      injection hok with h
      exact h.symm
    subst hst
    have hc0 : (doc_blocks markdown (cl "console")).length = 0 := by
      have := (Bool.and_eq_true _ _).mp hemp
      rw [doc_blocks, List.isEmpty_iff.mp this.1]
      rfl
    have he0 : (doc_blocks markdown (cl "esql")).length = 0 := by
      have := (Bool.and_eq_true _ _).mp hemp
      rw [doc_blocks, List.isEmpty_iff.mp this.2]
      rfl
    refine ⟨?_, ?_, ?_⟩
    · intro k hk; rw [hc0] at hk; cases hk
    · intro k hk; rw [he0] at hk; cases hk
    · intro n lang2 hs; cases hs
  · rw [if_neg hemp] at hok
    unfold process_create at hok
    cases h1 : create_loop conv parent languages (cl "console") true 0 [] 0
        (extract_code_blocks (increment_directive_delimiters markdown 1)
          (cl "console")) with
    | error e => rw [h1] at hok; exact Except.noConfusion hok
    | ok r1 =>
        obtain ⟨d1, ctabs, cerr⟩ := r1
        rw [h1] at hok
        have hok1 : (match create_loop conv parent languages (cl "esql")
              (extract_code_blocks (increment_directive_delimiters markdown 1)
                (cl "console")).isEmpty
              (extract_code_blocks (increment_directive_delimiters markdown 1)
                (cl "console")).length d1 0
              (extract_code_blocks (increment_directive_delimiters markdown 1)
                (cl "esql")) with
            | .error e => (.error e : Except (List Char) FileState)
            | .ok (d2, esql_tabs, eerr) =>
                match replace_blocks (increment_directive_delimiters markdown 1)
                    ctabs esql_tabs with
                | .error _ => .error (cl "StopIteration")
                | .ok md2 => .ok ⟨d2, md2, !(cerr || eerr)⟩) = .ok st := hok
        cases h2 : create_loop conv parent languages (cl "esql")
            (extract_code_blocks (increment_directive_delimiters markdown 1)
              (cl "console")).isEmpty
            (extract_code_blocks (increment_directive_delimiters markdown 1)
              (cl "console")).length d1 0
            (extract_code_blocks (increment_directive_delimiters markdown 1)
              (cl "esql")) with
        | error e => rw [h2] at hok1; exact Except.noConfusion hok1
        | ok r2 =>
            obtain ⟨d2, etabs, eerr⟩ := r2
            rw [h2] at hok1
            have hok2 : (match replace_blocks
                  (increment_directive_delimiters markdown 1) ctabs etabs with
                | .error _ => (.error (cl "StopIteration") :
                    Except (List Char) FileState)
                | .ok md2 => .ok ⟨d2, md2, !(cerr || eerr)⟩) = .ok st := hok1
            cases h3 : replace_blocks (increment_directive_delimiters markdown 1)
                ctabs etabs with
            | error e => rw [h3] at hok2; exact Except.noConfusion hok2
            | ok md2 =>
                rw [h3] at hok2
                have hst : FileState.mk d2 md2 (!(cerr || eerr)) = st := by
                  injection hok2
                have hdir : st.dir = d2 := by rw [← hst]
                have hcl := (create_loop_char conv parent languages (cl "console")
                  true 0 (Or.inl rfl) hnc) _ [] 0 d1 ctabs cerr h1
                have hel := (create_loop_char conv parent languages (cl "esql")
                  (extract_code_blocks (increment_directive_delimiters markdown 1)
                    (cl "console")).isEmpty
                  (extract_code_blocks (increment_directive_delimiters markdown 1)
                    (cl "console")).length (Or.inr rfl) hne) _ d1 0 d2 etabs
                  eerr h2
                rw [doc_blocks, doc_blocks, hdir]
                refine ⟨?_, ?_, ?_⟩
                · intro k hk
                  have hfr := hel.2.1 (k + 1) (cl "console") (Or.inl (by omega))
                  rw [hfr]
                  have := hcl.1 k hk
                  simpa using this
                · intro k hk
                  have := hel.1 k hk
                  simpa using this
                · intro n lang2 hs
                  rcases hel.2.2 n lang2 hs with h4 | h4
                  · rcases hcl.2.2 n lang2 h4 with h5 | h5
                    · cases h5
                    · omega
                  · omega

end AddLang

namespace AddLang

/-- The file state produced by create mode on a one-block sample document. -/
def sample_create_state : FileState :=
  ⟨[(1, cl "console", cl "```console\nGET /a\n```\n"),
    (1, cl "python", cl "```python\nCONV[Python|C]\nGET /a\n```\n")],
   cl "::::{tab-set}\n:group: api-examples\n\n:::{tab-item} Console\n:sync: console\n\n:::{include} _snippets/doc/example1-console.md\n:::\n\n:::{tab-item} Python\n:sync: python\n\n:::{include} _snippets/doc/example1-python.md\n:::\n\n::::\n",
   true⟩

set_option maxRecDepth 8192 in
/-- Witness for C3 on a concrete one-block document. -/
theorem process_file_numbering_witness :
    dir_get sample_create_state.dir 1 (cl "console") =
      some (snippet_body (cl "console")
        (pstrip ((doc_blocks (cl "```console\nGET /a\n```\n")
          (cl "console")).get ⟨0, by decide⟩).1)
        ((doc_blocks (cl "```console\nGET /a\n```\n")
          (cl "console")).get ⟨0, by decide⟩).2) := by
  have h := (process_file_numbering demo_conv (cl "doc") (some [cl "python"])
    (cl "```console\nGET /a\n```\n") sample_create_state
    (by decide) (by decide) (by decide) (by rfl)).1 0 (by decide)
  simpa using h

end AddLang

namespace AddLang

/-!
## Lemmas: regeneration loop
-/

theorem dir_get_write_isSome_mono (d : Dir) (n : Nat) (lang c : List Char)
    (m : Nat) (lang2 : List Char)
    (h : (dir_get d m lang2).isSome = true) :
    (dir_get (dir_write d n lang c) m lang2).isSome = true := by
  by_cases hk : m = n ∧ lang2 = lang
  · rw [hk.1, hk.2, dir_get_write_self]
    rfl
  · rw [dir_get_write_ne _ _ _ _ _ _ hk]
    exact h

theorem fold_write_isSome_mono (num : Nat) (g : List Char → List Char)
    (langs : List (List Char)) (d : Dir) (m : Nat) (lang2 : List Char)
    (h : (dir_get d m lang2).isSome = true) :
    (dir_get (langs.foldl (fun dd l => dir_write dd num l (g l)) d) m lang2).isSome
      = true := by
  induction langs generalizing d with
  | nil => exact h
  | cons l rest ih =>
      simp only [List.foldl_cons]
      exact ih _ (dir_get_write_isSome_mono d num l (g l) m lang2 h)

theorem fold_write_mem (num : Nat) (g : List Char → List Char)
    (langs : List (List Char)) (d : Dir) (lang2 : List Char)
    (h : lang2 ∈ langs) :
    (dir_get (langs.foldl (fun dd l => dir_write dd num l (g l)) d) num lang2).isSome
      = true := by
  induction langs generalizing d with
  | nil => cases h
  | cons l rest ih =>
      simp only [List.foldl_cons]
      rcases List.mem_cons.mp h with h1 | h1
      · subst h1
        refine fold_write_isSome_mono num g rest _ num lang2 ?_
        rw [dir_get_write_self]
        rfl
      · exact ih _ h1

theorem fold_write_isSome_mem (num : Nat) (g : List Char → List Char)
    (langs : List (List Char)) (d : Dir) (m : Nat) (lang2 : List Char)
    (h : (dir_get (langs.foldl (fun dd l => dir_write dd num l (g l)) d) m lang2).isSome
      = true) :
    (dir_get d m lang2).isSome = true ∨ (m = num ∧ lang2 ∈ langs) := by
  induction langs generalizing d with
  | nil => exact Or.inl h
  | cons l rest ih =>
      simp only [List.foldl_cons] at h
      rcases ih _ h with h2 | h2
      · rcases dir_get_write_isSome d num l (g l) m lang2 h2 with h3 | h3
        · exact Or.inl h3
        · exact Or.inr ⟨h3.1, h3.2 ▸ List.mem_cons_self l rest⟩
      · exact Or.inr ⟨h2.1, List.mem_cons_of_mem _ h2.2⟩

theorem console_entries_write_other (d : Dir) (n : Nat) (lang c : List Char)
    (h : lang ≠ cl "console") :
    console_entries (dir_write d n lang c) = console_entries d := by
  induction d with
  | nil => simp [dir_write, console_entries, h]
  | cons e rest ih =>
      cases hw : (e.1 = n && e.2.1 = lang) with
      | true =>
          have hw2 := Bool.and_eq_true _ _ |>.mp hw
          have he2 : e.2.1 = lang := of_decide_eq_true hw2.2
          have hec : ¬(e.2.1 = cl "console") := by rw [he2]; exact h
          simp [dir_write, hw, console_entries, hec, h]
      | false =>
          simp only [dir_write, hw, Bool.false_eq_true, if_neg]
          simp only [console_entries, List.filterMap_cons] at ih ⊢
          cases hc : (e.2.1 = cl "console" : Bool) with
          | true =>
              have := of_decide_eq_true hc
              simp [this, ih]
          | false =>
              have : ¬(e.2.1 = cl "console") := of_decide_eq_false hc
              simp [this, ih]

theorem console_entries_write_converted (d : Dir) (num : Nat)
    (langs : List (List Char)) (codes : Assoc)
    (hnc : cl "console" ∉ langs) :
    console_entries (write_converted d num langs codes) = console_entries d := by
  unfold write_converted
  induction langs generalizing d with
  | nil => rfl
  | cons l rest ih =>
      simp only [List.foldl_cons]
      rw [ih _ (fun hx => hnc (List.mem_cons_of_mem _ hx))]
      exact console_entries_write_other d num l _
        (fun hx => hnc (hx ▸ List.mem_cons_self l rest))

theorem dir_get_console_none (d : Dir) (n : Nat)
    (h : ∀ p ∈ console_entries d, p.1 < n) :
    dir_get d n (cl "console") = none := by
  induction d with
  | nil => rfl
  | cons e rest ih =>
      cases hw : (e.1 = n && e.2.1 = cl "console") with
      | true =>
          have hw2 := Bool.and_eq_true _ _ |>.mp hw
          have he1 : e.1 = n := of_decide_eq_true hw2.1
          have he2 : e.2.1 = cl "console" := of_decide_eq_true hw2.2
          have hmem : (e.1, e.2.2) ∈ console_entries (e :: rest) := by
            simp [console_entries, List.filterMap_cons, he2]
          have := h _ hmem
          rw [he1] at this
          omega
      | false =>
          simp only [dir_get, hw, Bool.false_eq_true, if_neg]
          refine ih (fun p hp => h p ?_)
          simp only [console_entries, List.filterMap_cons] at hp ⊢
          cases hc : (e.2.1 = cl "console" : Bool) with
          | true =>
              have := of_decide_eq_true hc
              simp [this]
              exact Or.inr (by simpa [console_entries] using hp)
          | false =>
              have : ¬(e.2.1 = cl "console") := of_decide_eq_false hc
              simpa [this] using hp

theorem console_entries_write_console (d : Dir) (n : Nat) (c : List Char)
    (h : dir_get d n (cl "console") = none) :
    console_entries (dir_write d n (cl "console") c) =
      console_entries d ++ [(n, c)] := by
  induction d with
  | nil => simp [dir_write, console_entries]
  | cons e rest ih =>
      cases hw : (e.1 = n && e.2.1 = cl "console") with
      | true =>
          simp only [dir_get, hw, if_pos] at h
          cases h
      | false =>
          simp only [dir_get, hw, Bool.false_eq_true, if_false] at h
          simp only [dir_write, hw, Bool.false_eq_true, if_false]
          simp only [console_entries, List.filterMap_cons] at ih ⊢
          by_cases hce : e.2.1 = cl "console"
          · simp only [hce, if_pos]
            rw [ih h]
            simp
          · simp only [if_neg hce]
            exact ih h

end AddLang

namespace AddLang

theorem regen_loop_char (conv : Conv) (langs : List (List Char)) :
    ∀ (data : List (List Char × List Char)) (d : Dir) (n : Nat) (errs : Bool)
      (d2 : Dir) (e2 : Bool),
    regen_loop conv langs d n errs data = .ok (d2, e2) →
    (∀ m lang2, (dir_get d2 m lang2).isSome = true →
       (dir_get d m lang2).isSome = true ∨
         (n ≤ m ∧ m < n + data.length ∧
           (lang2 = cl "console" ∨ lang2 ∈ langs))) ∧
    (∀ k, k < data.length → ∀ lang2, (lang2 = cl "console" ∨ lang2 ∈ langs) →
       (dir_get d2 (n + k) lang2).isSome = true) ∧
    (∀ m lang2, (m < n ∨ n + data.length ≤ m) →
       dir_get d2 m lang2 = dir_get d m lang2) := by
  intro data
  induction data with
  | nil =>
      intro d n errs d2 e2 hok
      have h1 : d = d2 := by
        simp only [regen_loop] at hok
        injection hok with h
        exact congrArg (fun t => t.1) h
      subst h1
      refine ⟨fun m lang2 hs => Or.inl hs, ?_, fun m lang2 _ => rfl⟩
      intro k hk; cases hk
  | cons blk rest ih =>
      intro d n errs d2 e2 hok
      obtain ⟨code, anns⟩ := blk
      simp only [regen_loop] at hok
      cases hc : convert_console conv (strip_annotations code) (.many langs)
          (n == 1) with
      | error e => rw [hc] at hok; exact Except.noConfusion hok
      | ok pr =>
          rw [hc] at hok
          have hok1 : regen_loop conv langs
              (write_converted (write_snippet_file d n (cl "console") code anns)
                n langs pr.1)
              (n + 1) (errs || !pr.2.isEmpty) rest = .ok (d2, e2) := hok
          have hrest := ih _ (n + 1) (errs || !pr.2.isEmpty) d2 e2 hok1
          refine ⟨?_, ?_, ?_⟩
          · intro m lang2 hs
            rcases hrest.1 m lang2 hs with h2 | h2
            · rcases fold_write_isSome_mem n
                  (fun l => snippet_body l ((alookup pr.1 l).getD []) []) langs
                  (write_snippet_file d n (cl "console") code anns) m lang2 h2
                with h3 | h3
              · rcases dir_get_write_isSome _ _ _ _ m lang2 h3 with h4 | h4
                · exact Or.inl h4
                · refine Or.inr ⟨by omega, ?_, Or.inl h4.2⟩
                  rw [List.length_cons]
                  omega
              · refine Or.inr ⟨by omega, ?_, Or.inr h3.2⟩
                rw [List.length_cons]
                omega
            · refine Or.inr ⟨by omega, ?_, h2.2.2⟩
              rw [List.length_cons]
              omega
          · intro k hk lang2 hcond
            cases k with
            | zero =>
                rw [Nat.add_zero]
                have hfr := hrest.2.2 n lang2 (Or.inl (by omega))
                rw [hfr]
                rcases hcond with h1 | h1
                · subst h1
                  exact fold_write_isSome_mono n
                    (fun l => snippet_body l ((alookup pr.1 l).getD []) []) langs
                    (write_snippet_file d n (cl "console") code anns) n
                    (cl "console")
                    (by rw [write_snippet_file, dir_get_write_self]; rfl)
                · exact fold_write_mem n
                    (fun l => snippet_body l ((alookup pr.1 l).getD []) []) langs
                    (write_snippet_file d n (cl "console") code anns) lang2 h1
            | succ k2 =>
                rw [List.length_cons] at hk
                have hstep := hrest.2.1 k2 (by omega) lang2 hcond
                have harith : n + 1 + k2 = n + (k2 + 1) := by omega
                rw [harith] at hstep
                exact hstep
          · intro m lang2 hm
            rw [List.length_cons] at hm
            have hfr := hrest.2.2 m lang2 (by
              rcases hm with h | h
              exacts [Or.inl (by omega), Or.inr (by omega)])
            rw [hfr]
            have h2 : dir_get (write_converted
                (write_snippet_file d n (cl "console") code anns) n langs pr.1)
                m lang2 =
                dir_get (write_snippet_file d n (cl "console") code anns)
                  m lang2 :=
              fold_write_get_other n
                (fun l => snippet_body l ((alookup pr.1 l).getD []) []) langs
                (write_snippet_file d n (cl "console") code anns) m lang2
                (fun hx => by rcases hm with h | h <;> omega)
            rw [h2, write_snippet_file,
              dir_get_write_ne _ _ _ _ m lang2
                (fun hx => by rcases hm with h | h <;> omega)]

theorem regen_loop_consoles (conv : Conv) (langs : List (List Char))
    (hnc : cl "console" ∉ langs) :
    ∀ (data : List (List Char × List Char)) (d : Dir) (n : Nat) (errs : Bool)
      (d2 : Dir) (e2 : Bool),
    regen_loop conv langs d n errs data = .ok (d2, e2) →
    (∀ p ∈ console_entries d, p.1 < n) →
    console_entries d2 = console_entries d ++ expected_consoles n data := by
  intro data
  induction data with
  | nil =>
      intro d n errs d2 e2 hok hlt
      have h1 : d = d2 := by
        simp only [regen_loop] at hok
        injection hok with h
        exact congrArg (fun t => t.1) h
      subst h1
      simp [expected_consoles]
  | cons blk rest ih =>
      intro d n errs d2 e2 hok hlt
      obtain ⟨code, anns⟩ := blk
      simp only [regen_loop] at hok
      cases hc : convert_console conv (strip_annotations code) (.many langs)
          (n == 1) with
      | error e => rw [hc] at hok; exact Except.noConfusion hok
      | ok pr =>
          rw [hc] at hok
          have hok1 : regen_loop conv langs
              (write_converted (write_snippet_file d n (cl "console") code anns)
                n langs pr.1)
              (n + 1) (errs || !pr.2.isEmpty) rest = .ok (d2, e2) := hok
          have hw1 : console_entries
              (write_snippet_file d n (cl "console") code anns) =
              console_entries d ++ [(n, snippet_body (cl "console") code anns)] := by
            rw [write_snippet_file]
            exact console_entries_write_console d n _ (dir_get_console_none d n hlt)
          have hw2 : console_entries
              (write_converted (write_snippet_file d n (cl "console") code anns)
                n langs pr.1) =
              console_entries d ++ [(n, snippet_body (cl "console") code anns)] := by
            rw [console_entries_write_converted _ _ _ _ hnc]
            exact hw1
          have hnext := ih _ (n + 1) (errs || !pr.2.isEmpty) d2 e2 hok1 (by
            intro p hp
            rw [hw2] at hp
            rcases List.mem_append.mp hp with h1 | h1
            · have := hlt p h1
              omega
            · have : p = (n, snippet_body (cl "console") code anns) := by
                simpa using h1
              rw [this]
              omega)
          rw [hnext, hw2]
          simp [expected_consoles, List.append_assoc]

end AddLang

namespace AddLang

/-- C9: once regeneration actually runs (console snippets exist) and
completes, the snippet directory contains exactly the files
`example{n}-console.md` and `example{n}-{lang}.md` for `n` in `1..N` (`N`
the number of parsed console snippets) and `lang` in the target-language
list; in particular, when `esql` is not a target language no esql snippet
file remains. -/
theorem regenerate_exact_files (conv : Conv) (parent : List Char)
    (languages : Option (List (List Char))) (dir : Dir) (markdown : List Char)
    (st : FileState)
    (hcs : has_console_snippets dir = true)
    (hok : regenerate_from_snippets conv parent languages dir markdown = .ok st) :
    (∀ n lang2, (dir_get st.dir n lang2).isSome = true ↔
      (1 ≤ n ∧ n ≤ (console_data_of dir).length ∧
        (lang2 = cl "console" ∨ lang2 ∈ languages.getD DEFAULT_LANGUAGES))) ∧
    (cl "esql" ∉ languages.getD DEFAULT_LANGUAGES →
      ∀ n, dir_get st.dir n (cl "esql") = none) := by
  unfold regenerate_from_snippets at hok
  rw [hcs] at hok
  rw [if_neg (by decide)] at hok
  cases hr : regen_loop conv (languages.getD DEFAULT_LANGUAGES) [] 1 false
      (console_data_of dir) with
  | error e => rw [hr] at hok; exact Except.noConfusion hok
  | ok pr =>
      obtain ⟨d2, errs⟩ := pr
      rw [hr] at hok
      have hst : FileState.mk d2
          (if actual_numbers_of dir ≠ expected_numbers_of dir ∨
              (console_data_of dir).length ≠ count_tabsets_in_markdown markdown
           then apply_renumber parent
             ((actual_numbers_of dir).zip (expected_numbers_of dir)) markdown
           else markdown) (!errs) = st := by
        injection hok
      have hdir : st.dir = d2 := by rw [← hst]
      have hchar := regen_loop_char conv (languages.getD DEFAULT_LANGUAGES)
        (console_data_of dir) [] 1 false d2 errs hr
      rw [hdir]
      have hmain : ∀ n lang2, (dir_get d2 n lang2).isSome = true ↔
          (1 ≤ n ∧ n ≤ (console_data_of dir).length ∧
            (lang2 = cl "console" ∨ lang2 ∈ languages.getD DEFAULT_LANGUAGES)) := by
        intro n lang2
        constructor
        · intro hs
          rcases hchar.1 n lang2 hs with h2 | h2
          · cases h2
          · exact ⟨h2.1, by omega, h2.2.2⟩
        · intro ⟨h1, h2, hcond⟩
          have := hchar.2.1 (n - 1) (by omega) lang2 hcond
          have harith : 1 + (n - 1) = n := by omega
          rw [harith] at this
          exact this
      refine ⟨hmain, ?_⟩
      intro hne n
      cases hg : dir_get d2 n (cl "esql") with
      | none => rfl
      | some c =>
          have hs : (dir_get d2 n (cl "esql")).isSome = true := by rw [hg]; rfl
          rcases ((hmain n (cl "esql")).mp hs).2.2 with h | h
          · cases h
          · exact absurd h hne

end AddLang

namespace AddLang

/-- The state produced by a sample regeneration run: the stale esql file
is gone, the files are exactly `example1-console.md` / `example1-python.md`. -/
def sample_regen_state : FileState :=
  ⟨[(1, cl "console", cl "```console\nGET /a\n```\n"),
    (1, cl "python", cl "```python\nCONV[Python|C]\nGET /a\n```\n")],
   cl "::::{tab-set}\n", true⟩

set_option maxRecDepth 8192 in
/-- Witness for C9: a directory holding `example2-console.md` and a stale
`example5-esql.md`. -/
theorem regenerate_exact_files_witness :
    (∀ n lang2, (dir_get sample_regen_state.dir n lang2).isSome = true ↔
      (1 ≤ n ∧ n ≤ (console_data_of
          [(2, cl "console", cl "```console\nGET /a\n```\n"),
           (5, cl "esql", cl "old esql\n")]).length ∧
        (lang2 = cl "console" ∨ lang2 ∈ (some [cl "python"]).getD DEFAULT_LANGUAGES))) ∧
    (cl "esql" ∉ (some [cl "python"]).getD DEFAULT_LANGUAGES →
      ∀ n, dir_get sample_regen_state.dir n (cl "esql") = none) :=
  regenerate_exact_files demo_conv (cl "doc") (some [cl "python"])
    [(2, cl "console", cl "```console\nGET /a\n```\n"),
     (5, cl "esql", cl "old esql\n")]
    (cl "::::{tab-set}\n") sample_regen_state (by decide) (by rfl)

end AddLang

namespace AddLang

/-!
## Lemmas: fenced-block scanner
-/

theorem dropPre_append_self (p r : List Char) : dropPre p (p ++ r) = some r := by
  induction p with
  | nil => rfl
  | cons c ps ih => simp [dropPre, ih]

theorem dropPre_cons_ne (p : Char) (ps : List Char) (c : Char) (rest : List Char)
    (h : p ≠ c) : dropPre (p :: ps) (c :: rest) = none := by
  simp [dropPre, h]

theorem startsL_close_append (code r : List Char)
    (h : startsL (cl "\n```") (code ++ (cl "\n```" ++ r)) = true) :
    code = [] ∨ containsSub (cl "\n```") code = true := by
  rcases code with _ | ⟨c1, code1⟩
  · exact Or.inl rfl
  rcases code1 with _ | ⟨c2, code2⟩
  · simp [cl, startsL] at h
  · rcases code2 with _ | ⟨c3, code3⟩
    · simp [cl, startsL] at h
    · rcases code3 with _ | ⟨c4, code4⟩
      · simp [cl, startsL] at h
      · refine Or.inr ?_
        simp only [cl, startsL, List.cons_append, Bool.and_eq_true,
          decide_eq_true_eq] at h
        refine List.any_eq_true.mpr ⟨c1 :: c2 :: c3 :: c4 :: code4, ?_, ?_⟩
        · exact (List.mem_tails _ _).mpr (List.suffix_refl _)
        · simp only [cl, startsL, Bool.and_eq_true, decide_eq_true_eq]
          exact h

theorem find_close_concat (code r : List Char)
    (hcode : containsSub (cl "\n```") code = false) :
    find_close (code ++ (cl "\n```" ++ r)) = some (code, r) := by
  induction code with
  | nil =>
      show find_close ('\n' :: (cl "```" ++ r)) = some ([], r)
      rw [find_close]
      rw [if_pos (by simp [cl, startsL])]
      rfl
  | cons c cs ih =>
      have hcs : containsSub (cl "\n```") cs = false := by
        cases hcs2 : containsSub (cl "\n```") cs with
        | false => rfl
        | true =>
            exfalso
            rcases List.any_eq_true.mp hcs2 with ⟨t, ht, hst⟩
            have : containsSub (cl "\n```") (c :: cs) = true := by
              refine List.any_eq_true.mpr ⟨t, ?_, hst⟩
              exact (List.mem_tails _ _).mpr
                (((List.mem_tails _ _).mp ht).trans (List.suffix_cons c cs))
            rw [this] at hcode
            cases hcode
      have hns : startsL (cl "\n```") ((c :: cs) ++ (cl "\n```" ++ r)) = false := by
        cases hs : startsL (cl "\n```") ((c :: cs) ++ (cl "\n```" ++ r)) with
        | false => rfl
        | true =>
            rcases startsL_close_append (c :: cs) r hs with h | h
            · cases h
            · rw [h] at hcode; cases hcode
      show find_close (c :: (cs ++ (cl "\n```" ++ r))) = some (c :: cs, r)
      rw [find_close]
      rw [show (c :: (cs ++ (cl "\n```" ++ r))) =
        ((c :: cs) ++ (cl "\n```" ++ r)) from rfl, if_neg (by rw [hns]; decide)]
      rw [ih hcs]

end AddLang

namespace AddLang

theorem match_block_at_build (bt code tail : List Char)
    (hcode : containsSub (cl "\n```") code = false) :
    match_block_at bt ((cl "```" ++ bt ++ [ '\n' ]) ++ (code ++ (cl "\n```" ++ tail))) =
      some (code, (match_ann tail).1,
        (cl "```" ++ bt ++ [ '\n' ]) ++ code ++ cl "\n```" ++ (match_ann tail).2.1,
        (match_ann tail).2.2) := by
  rcases hma : match_ann tail with ⟨a, bx, r3⟩
  simp only [match_block_at, dropPre_append_self,
    find_close_concat code tail hcode, hma]

theorem match_block_at_no_backtick (bt : List Char) (c : Char) (rest : List Char)
    (hc : c ≠ '`') : match_block_at bt (c :: rest) = none := by
  unfold match_block_at
  rw [show (cl "```" ++ bt ++ [ '\n' ]) =
    '`' :: ('`' :: '`' :: (bt ++ [ '\n' ])) from rfl]
  rw [dropPre_cons_ne _ _ _ _ (Ne.symm hc)]

theorem scan_blocks_no_backtick (bt : List Char) (fuel : Nat) (s : List Char)
    (h : '`' ∉ s) : scan_blocks bt fuel s = [] := by
  induction fuel generalizing s with
  | zero => rfl
  | succ f ih =>
      cases s with
      | nil => rfl
      | cons c rest =>
          have hc : c ≠ '`' := fun hx => h (hx ▸ List.mem_cons_self c rest)
          rw [scan_blocks, match_block_at_no_backtick bt c rest hc]
          exact ih rest (fun hx => h (List.mem_cons_of_mem _ hx))

theorem scan_blocks_cons_match (bt : List Char) (fuel : Nat) (c : Char)
    (rest : List Char) (code ann whole r : List Char)
    (hm : match_block_at bt (c :: rest) = some (code, ann, whole, r)) :
    scan_blocks bt (fuel + 1) (c :: rest) = (code, ann) :: scan_blocks bt fuel r := by
  rw [scan_blocks, hm]

end AddLang

namespace AddLang

theorem scan_blocks_nil (bt : List Char) (fuel : Nat) :
    scan_blocks bt fuel [] = [] := by
  cases fuel <;> rfl

theorem match_num_line_head (s : List Char) (x : List Char × List Char)
    (h : match_num_line s = some x) :
    ∃ d t, s = d :: t ∧ is_digit_char d = true := by
  cases s with
  | nil => cases h
  | cons d t =>
      by_cases hd : is_digit_char d
      · exact ⟨d, t, rfl, hd⟩
      · exfalso
        unfold match_num_line at h
        rw [show (d :: t).takeWhile is_digit_char = [] by
          simp [List.takeWhile_cons, hd]] at h
        simp at h

theorem match_num_list_head (s : List Char) (x : List Char × List Char)
    (h : match_num_list s = some x) :
    ∃ d t, s = d :: t ∧ is_digit_char d = true := by
  unfold match_num_list at h
  cases hl : match_num_line s with
  | none => rw [hl] at h; cases h
  | some y => exact match_num_line_head s y hl

/-- C5 (amended): the annotation list is captured exactly when a single
blank line (the character sequence `"\n\n"`) separates it from the closing
fence: with one blank line it becomes the block's annotation text, while
with two blank lines, or with the list directly on the next line, the
annotation is the empty string. -/
theorem extract_ann_blank_lines (code annText : List Char)
    (hcode : containsSub (cl "\n```") code = false)
    (hres : startsL (cl "-result") code = false)
    (hann : match_num_list annText = some (annText, []))
    (hstrip : pstrip annText = annText)
    (hnb : '`' ∉ annText) :
    extract_code_blocks (cl "```console\n" ++ (code ++ (cl "\n```\n\n" ++ annText)))
        (cl "console") = [(code, annText)] ∧
    extract_code_blocks (cl "```console\n" ++ (code ++ (cl "\n```\n\n\n" ++ annText)))
        (cl "console") = [(code, [])] ∧
    extract_code_blocks (cl "```console\n" ++ (code ++ (cl "\n```\n" ++ annText)))
        (cl "console") = [(code, [])] := by
  obtain ⟨d0, t0, hdt, hdig⟩ := match_num_list_head annText _ hann
  have hma1 : match_ann (cl "\n\n" ++ annText) = (annText, cl "\n\n" ++ annText, []) := by
    unfold match_ann
    rw [dropPre_append_self]
    show (match match_num_list annText with
          | some (ann, r3) => (ann, cl "\n\n" ++ ann, r3)
          | none => ([], [], cl "\n\n" ++ annText)) =
        (annText, cl "\n\n" ++ annText, [])
    rw [hann]
  have hma2 : match_ann (cl "\n\n" ++ ('\n' :: annText)) =
      ([], [], cl "\n\n" ++ ('\n' :: annText)) := by
    unfold match_ann
    rw [dropPre_append_self]
    rfl
  have hma3 : match_ann ('\n' :: annText) = ([], [], '\n' :: annText) := by
    unfold match_ann
    rw [hdt]
    rw [show dropPre (cl "\n\n") ('\n' :: d0 :: t0) = none by
      have hd0 : d0 ≠ '\n' := by
        intro hx
        rw [hx] at hdig
        cases hdig
      simp [cl, dropPre, Ne.symm hd0]]
  refine ⟨?_, ?_, ?_⟩
  · have hm : match_block_at (cl "console")
        ('`' :: (cl "``console\n" ++ (code ++ (cl "\n```" ++ (cl "\n\n" ++ annText))))) =
        some (code, annText,
          cl "```console\n" ++ code ++ cl "\n```" ++ (cl "\n\n" ++ annText), []) := by
      have hb := match_block_at_build (cl "console") code (cl "\n\n" ++ annText) hcode
      rw [hma1] at hb
      exact hb
    have hshape : (cl "```console\n" ++ (code ++ (cl "\n```\n\n" ++ annText))) =
        ('`' :: (cl "``console\n" ++ (code ++ (cl "\n```" ++ (cl "\n\n" ++ annText))))) := by
      simp [cl, List.append_assoc]
    rw [extract_code_blocks, hshape]
    have hlen : ('`' :: (cl "``console\n" ++ (code ++ (cl "\n```" ++ (cl "\n\n" ++ annText))))).length =
        (cl "``console\n" ++ (code ++ (cl "\n```" ++ (cl "\n\n" ++ annText)))).length + 1 := by
      rw [List.length_cons]
    rw [hlen, scan_blocks_cons_match _ _ _ _ _ _ _ _ hm, scan_blocks_nil]
    simp [hres, hstrip]
  · have hm : match_block_at (cl "console")
        ('`' :: (cl "``console\n" ++ (code ++ (cl "\n```" ++ (cl "\n\n" ++ ('\n' :: annText)))))) =
        some (code, [],
          cl "```console\n" ++ code ++ cl "\n```" ++ [],
          cl "\n\n" ++ ('\n' :: annText)) := by
      have hb := match_block_at_build (cl "console") code (cl "\n\n" ++ ('\n' :: annText)) hcode
      rw [hma2] at hb
      exact hb
    have hshape : (cl "```console\n" ++ (code ++ (cl "\n```\n\n\n" ++ annText))) =
        ('`' :: (cl "``console\n" ++ (code ++ (cl "\n```" ++ (cl "\n\n" ++ ('\n' :: annText)))))) := by
      simp [cl, List.append_assoc]
    rw [extract_code_blocks, hshape]
    rw [List.length_cons, scan_blocks_cons_match _ _ _ _ _ _ _ _ hm]
    rw [scan_blocks_no_backtick _ _ _ (by
      intro hx
      rcases List.mem_append.mp hx with h | h
      · simp [cl] at h
      · rcases List.mem_cons.mp h with h | h
        · cases h
        · exact hnb h)]
    simp [hres]
    rfl
  · have hm : match_block_at (cl "console")
        ('`' :: (cl "``console\n" ++ (code ++ (cl "\n```" ++ ('\n' :: annText))))) =
        some (code, [],
          cl "```console\n" ++ code ++ cl "\n```" ++ [],
          '\n' :: annText) := by
      have hb := match_block_at_build (cl "console") code ('\n' :: annText) hcode
      rw [hma3] at hb
      exact hb
    have hshape : (cl "```console\n" ++ (code ++ (cl "\n```\n" ++ annText))) =
        ('`' :: (cl "``console\n" ++ (code ++ (cl "\n```" ++ ('\n' :: annText))))) := by
      simp [cl, List.append_assoc]
    rw [extract_code_blocks, hshape]
    rw [List.length_cons, scan_blocks_cons_match _ _ _ _ _ _ _ _ hm]
    rw [scan_blocks_no_backtick _ _ _ (by
      intro hx
      rcases List.mem_cons.mp hx with h | h
      · cases h
      · exact hnb h)]
    simp [hres]
    rfl

end AddLang

namespace AddLang

/-- C5 counterexample: with two blank lines between the closing fence and the
numbered list the list is NOT captured (annotation empty), while with one
blank line it is — refuting "one or two blank lines". -/
theorem extract_ann_two_blank_lines_cex :
    extract_code_blocks (cl "```console\nGET /x\n```\n\n\n1. one\n") (cl "console") =
      [(cl "GET /x", [])] ∧
    extract_code_blocks (cl "```console\nGET /x\n```\n\n1. one") (cl "console") =
      [(cl "GET /x", cl "1. one")] := ⟨rfl, rfl⟩

theorem extract_ann_blank_lines_witness :
    extract_code_blocks (cl "```console\n" ++ (cl "GET /x" ++ (cl "\n```\n\n" ++ cl "1. one")))
        (cl "console") = [(cl "GET /x", cl "1. one")] ∧
    extract_code_blocks (cl "```console\n" ++ (cl "GET /x" ++ (cl "\n```\n\n\n" ++ cl "1. one")))
        (cl "console") = [(cl "GET /x", [])] ∧
    extract_code_blocks (cl "```console\n" ++ (cl "GET /x" ++ (cl "\n```\n" ++ cl "1. one")))
        (cl "console") = [(cl "GET /x", [])] :=
  extract_ann_blank_lines (cl "GET /x") (cl "1. one")
    (by decide) (by decide) rfl rfl (by decide)

end AddLang

namespace AddLang

/-!
## Tab-set observer

`scan_tab_items` reads any markdown text and lists the `(label, sync)`
pairs of its `\x7btab-item\x7d` directives: at each `{` followed by
`tab-item} ` it records the rest of that line as the label and the text
after the following `:sync: ` marker, up to the end of that line, as the
synchronisation key.
-/

def scan_tab_items : Nat → List Char → List (List Char × List Char)
  | 0, _ => []
  | _ + 1, [] => []
  | fuel + 1, c :: rest =>
      if c = '{' then
        match dropPre (cl "tab-item\x7d ") rest with
        | some r1 =>
            let label := r1.takeWhile (fun ch => ch ≠ '\n')
            let r2 := (r1.dropWhile (fun ch => ch ≠ '\n')).drop 1
            match dropPre (cl ":sync: ") r2 with
            | some r3 =>
                (label, r3.takeWhile (fun ch => ch ≠ '\n')) ::
                  scan_tab_items fuel (r3.dropWhile (fun ch => ch ≠ '\n'))
            | none => (label, []) :: scan_tab_items fuel r2
        | none => scan_tab_items fuel rest
      else scan_tab_items fuel rest

def tab_items (s : List Char) : List (List Char × List Char) :=
  scan_tab_items s.length s

/-- The tab label the source computes for a requested language. -/
def tab_label (lang : List Char) : List Char :=
  (LANGUAGE_MAP (lower_list lang)).getD (capitalizeP lang)

/-- The part of an inline language tab following its `:sync:` line
(source lines 385–411). -/
def blt_body (lang converted_code : List Char) : List Char :=
  let code2 :=
    if lang = cl "curl" then format_curl converted_code
    else if lower_list lang = cl "python" then format_python converted_code
    else if lower_list lang = cl "ruby" then format_ruby converted_code
    else if lower_list lang = cl "js" || lower_list lang = cl "javascript" then
      format_javascript converted_code
    else if lower_list lang = cl "php" then format_php converted_code
    else converted_code
  let code_lang := if lang = cl "curl" then cl "bash" else lang
  cl "```" ++ code_lang ++ [ '\n' ] ++ code2 ++ cl "\n```\n:::\n"

theorem takeWhile_no_nl (label Y : List Char) (h : '\n' ∉ label) :
    (label ++ '\n' :: Y).takeWhile (fun ch => ch ≠ '\n') = label ∧
    (label ++ '\n' :: Y).dropWhile (fun ch => ch ≠ '\n') = '\n' :: Y := by
  induction label with
  | nil => simp
  | cons c cs ih =>
      have hc : c ≠ '\n' := fun hx => h (hx ▸ List.mem_cons_self c cs)
      have hcs : '\n' ∉ cs := fun hx => h (List.mem_cons_of_mem c hx)
      obtain ⟨h1, h2⟩ := ih hcs
      simp only [ne_eq, decide_not] at h1 h2
      constructor
      · simp [List.takeWhile_cons, hc, h1]
      · simp [List.dropWhile_cons, hc, h2]

theorem scan_skip (u : List Char) (fuel : Nat) (rest : List Char) (h : '{' ∉ u) :
    scan_tab_items (u.length + fuel) (u ++ rest) = scan_tab_items fuel rest := by
  induction u with
  | nil => simp
  | cons c cs ih =>
      have hc : c ≠ '{' := fun hx => h (hx ▸ List.mem_cons_self c cs)
      have hcs : '{' ∉ cs := fun hx => h (List.mem_cons_of_mem c hx)
      rw [List.length_cons, show cs.length + 1 + fuel = (cs.length + fuel) + 1 by omega]
      show scan_tab_items ((cs.length + fuel) + 1) (c :: (cs ++ rest)) = _
      rw [scan_tab_items]
      rw [if_neg hc]
      exact ih hcs

theorem scan_brace_no_item (fuel : Nat) (rest : List Char)
    (h : dropPre (cl "tab-item\x7d ") rest = none) :
    scan_tab_items (fuel + 1) ('{' :: rest) = scan_tab_items fuel rest := by
  rw [scan_tab_items, if_pos rfl, h]

theorem scan_no_brace (fuel : Nat) (s : List Char) (h : '{' ∉ s) :
    scan_tab_items fuel s = [] := by
  induction fuel generalizing s with
  | zero => rfl
  | succ f ih =>
      cases s with
      | nil => rfl
      | cons c cs =>
          have hc : c ≠ '{' := fun hx => h (hx ▸ List.mem_cons_self c cs)
          rw [scan_tab_items, if_neg hc]
          exact ih cs (fun hx => h (List.mem_cons_of_mem c hx))

theorem scan_tab_chunk (fuel : Nat) (label sync rest : List Char)
    (hl : '\n' ∉ label) (hs : '\n' ∉ sync) :
    scan_tab_items (fuel + 1)
      ('{' :: (cl "tab-item\x7d " ++ (label ++ ('\n' :: (cl ":sync: " ++ (sync ++ ('\n' :: rest))))))) =
      (label, sync) :: scan_tab_items fuel ('\n' :: rest) := by
  rw [scan_tab_items, if_pos rfl, dropPre_append_self]
  have h1 := takeWhile_no_nl label (cl ":sync: " ++ (sync ++ ('\n' :: rest))) hl
  have h2 := takeWhile_no_nl sync rest hs
  simp only [h1.1, h1.2, List.drop_succ_cons, List.drop_zero, dropPre_append_self,
    h2.1, h2.2]

end AddLang

namespace AddLang

def joinL : List (List Char) → List Char
  | [] => []
  | a :: as => a ++ joinL as

/-- The include-directive tail of one snippet-mode tab (the text scanned
past after its `\x7binclude\x7d` brace), ending with the blank line that
separates it from the next tab. -/
def inc_junk (parent : List Char) (n : Nat) (l : List Char) : List Char :=
  cl "include\x7d _snippets/" ++ (parent ++ (cl "/example" ++ (nat_digits n ++
    ([ '-' ] ++ (l ++ cl ".md\n:::\n\n")))))

/-- One snippet-mode tab of `snippet_tabs`, in head-normal form. -/
def snip_chunk (label sync parent : List Char) (n : Nat) (fl : List Char) :
    List Char :=
  cl ":::" ++ ('{' :: (cl "tab-item\x7d " ++ (label ++ ('\n' :: (cl ":sync: " ++
    (sync ++ ('\n' :: ('\n' :: (cl ":::" ++ ('{' :: inc_junk parent n fl))))))))))

theorem not_mem_app {c : Char} {a b : List Char} (ha : c ∉ a) (hb : c ∉ b) :
    c ∉ a ++ b :=
  fun hx => (List.mem_append.mp hx).elim ha hb

theorem brace_not_mem_inc (parent : List Char) (n : Nat) (l : List Char)
    (hp : '{' ∉ parent) (hn : '{' ∉ nat_digits n) (hl : '{' ∉ l) :
    '{' ∉ inc_junk parent n l :=
  not_mem_app (by decide) (not_mem_app hp (not_mem_app (by decide)
    (not_mem_app hn (not_mem_app (by decide) (not_mem_app hl (by decide))))))

theorem scan_header (fuel : Nat) (TAIL : List Char) :
    scan_tab_items (36 + fuel) (cl "::::{tab-set}\n:group: api-examples\n\n" ++ TAIL) =
      scan_tab_items fuel TAIL := by
  rw [show cl "::::{tab-set}\n:group: api-examples\n\n" ++ TAIL =
      cl "::::" ++ ('{' :: (cl "tab-set\x7d\n:group: api-examples\n\n" ++ TAIL)) from rfl]
  rw [show 36 + fuel = (cl "::::").length +
      (((cl "tab-set\x7d\n:group: api-examples\n\n").length + fuel) + 1) from by
    rw [show (cl "::::").length = 4 from rfl,
      show (cl "tab-set\x7d\n:group: api-examples\n\n").length = 31 from rfl]
    omega]
  rw [scan_skip _ _ _ (by decide),
    scan_brace_no_item _ (cl "tab-set\x7d\n:group: api-examples\n\n" ++ TAIL) rfl,
    scan_skip _ _ _ (by decide)]

theorem scan_snip_chunk (fuel : Nat) (label sync parent : List Char) (n : Nat)
    (fl TAIL : List Char)
    (hp : '{' ∉ parent) (hn : '{' ∉ nat_digits n) (hfl : '{' ∉ fl)
    (hlab : '\n' ∉ label) (hsync : '\n' ∉ sync) :
    scan_tab_items (10 + (inc_junk parent n fl).length + fuel)
        (snip_chunk label sync parent n fl ++ TAIL) =
      (label, sync) :: scan_tab_items fuel TAIL := by
  have hsh : snip_chunk label sync parent n fl ++ TAIL =
      cl ":::" ++ ('{' :: (cl "tab-item\x7d " ++ (label ++ ('\n' :: (cl ":sync: " ++
        (sync ++ ('\n' :: ('\n' :: (cl ":::" ++
          ('{' :: (inc_junk parent n fl ++ TAIL))))))))))) := by
    simp [snip_chunk, List.append_assoc]
  rw [hsh]
  rw [show 10 + (inc_junk parent n fl).length + fuel =
      (cl ":::").length + ((((cl "\n\n:::").length +
        ((((inc_junk parent n fl).length + fuel)) + 1)) + 1)) from by
    rw [show (cl ":::").length = 3 from rfl, show (cl "\n\n:::").length = 5 from rfl]
    omega]
  rw [scan_skip _ _ _ (by decide)]
  rw [scan_tab_chunk _ label sync _ hlab hsync]
  rw [show ('\n' :: ('\n' :: (cl ":::" ++ ('{' :: (inc_junk parent n fl ++ TAIL))))) =
      cl "\n\n:::" ++ ('{' :: (inc_junk parent n fl ++ TAIL)) from rfl]
  rw [scan_skip _ _ _ (by decide)]
  rw [scan_brace_no_item _ (inc_junk parent n fl ++ TAIL) rfl]
  rw [scan_skip _ _ _ (brace_not_mem_inc parent n fl hp hn hfl)]

end AddLang

namespace AddLang

theorem snip_chunk_length (label sync parent : List Char) (n : Nat) (fl : List Char) :
    (snip_chunk label sync parent n fl).length =
      28 + label.length + sync.length + (inc_junk parent n fl).length := by
  simp only [snip_chunk, List.length_append, List.length_cons]
  rw [show (cl ":::").length = 3 from rfl, show (cl "tab-item\x7d ").length = 10 from rfl,
    show (cl ":sync: ").length = 7 from rfl]
  omega

theorem snip_fold_eq (parent : List Char) (n : Nat) (langs : List (List Char))
    (a : List Char) :
    langs.foldl (fun acc lang =>
      let lang_label := (LANGUAGE_MAP (lower_list lang)).getD (capitalizeP lang)
      acc ++ cl ":::{tab-item} " ++ lang_label ++ cl "\n:sync: " ++
        lower_list lang ++ cl "\n\n" ++
        build_include_directive (cl "_snippets") parent n lang ++
        cl "\n\n") a =
    a ++ joinL (langs.map (fun l => snip_chunk (tab_label l) (lower_list l) parent n l)) := by
  induction langs generalizing a with
  | nil => simp [joinL]
  | cons l ls ih =>
      rw [List.foldl_cons, ih, List.map_cons, joinL]
      show (a ++ cl ":::{tab-item} " ++ tab_label l ++ cl "\n:sync: " ++
          lower_list l ++ cl "\n\n" ++
          build_include_directive (cl "_snippets") parent n l ++ cl "\n\n") ++
          joinL (ls.map (fun l => snip_chunk (tab_label l) (lower_list l) parent n l)) =
        a ++ (snip_chunk (tab_label l) (lower_list l) parent n l ++
          joinL (ls.map (fun l => snip_chunk (tab_label l) (lower_list l) parent n l)))
      simp only [snip_chunk, inc_junk, build_include_directive, List.append_assoc,
        List.cons_append, List.nil_append]
      rfl

theorem snippet_tabs_shape (parent : List Char) (n : Nat)
    (langs : List (List Char)) (bt : List Char) :
    snippet_tabs parent n langs bt =
      cl "::::{tab-set}\n:group: api-examples\n\n" ++
        ((if bt = cl "esql" then
            snip_chunk (cl "ES|QL") (cl "esql") parent n (cl "esql") else []) ++
         (snip_chunk (cl "Console") (cl "console") parent n (cl "console") ++
          (joinL (langs.map (fun l => snip_chunk (tab_label l) (lower_list l) parent n l)) ++
           cl "::::"))) := by
  rw [snippet_tabs, snip_fold_eq]
  by_cases hbt : bt = cl "esql"
  · rw [if_pos hbt, if_pos hbt]
    simp only [snip_chunk, inc_junk, build_include_directive, List.append_assoc,
      List.cons_append, List.nil_append]
    rfl
  · rw [if_neg hbt, if_neg hbt]
    simp only [snip_chunk, inc_junk, build_include_directive, List.append_assoc,
      List.cons_append, List.nil_append]
    rfl

end AddLang

namespace AddLang

theorem scan_lang_list (parent : List Char) (n : Nat)
    (hp : '{' ∉ parent) (hn : '{' ∉ nat_digits n) :
    ∀ (langs : List (List Char)),
      (∀ l ∈ langs, '{' ∉ l ∧ '\n' ∉ lower_list l ∧ '\n' ∉ tab_label l) →
    ∃ k, k ≤ (joinL (langs.map (fun l =>
        snip_chunk (tab_label l) (lower_list l) parent n l))).length ∧
      ∀ (fuel : Nat) (TAIL : List Char),
        scan_tab_items (k + fuel)
          (joinL (langs.map (fun l =>
            snip_chunk (tab_label l) (lower_list l) parent n l)) ++ TAIL) =
        langs.map (fun l => (tab_label l, lower_list l)) ++ scan_tab_items fuel TAIL := by
  intro langs
  induction langs with
  | nil =>
      intro _
      refine ⟨0, by simp, ?_⟩
      intro fuel TAIL
      simp [joinL, Nat.zero_add]
  | cons l ls ih =>
      intro hl
      obtain ⟨k, hk, hs⟩ := ih (fun x hx => hl x (List.mem_cons_of_mem l hx))
      obtain ⟨hbl, hlow, hlab⟩ := hl l (List.mem_cons_self l ls)
      refine ⟨10 + (inc_junk parent n l).length + k, ?_, ?_⟩
      · rw [List.map_cons, joinL, List.length_append,
          snip_chunk_length (tab_label l) (lower_list l) parent n l]
        omega
      · intro fuel TAIL
        rw [List.map_cons, joinL, List.append_assoc]
        rw [show 10 + (inc_junk parent n l).length + k + fuel =
            10 + (inc_junk parent n l).length + (k + fuel) from by omega]
        rw [scan_snip_chunk (k + fuel) (tab_label l) (lower_list l) parent n l _
          hp hn hbl hlab hlow]
        rw [hs fuel TAIL, List.map_cons, List.cons_append]

end AddLang

namespace AddLang

theorem tab_items_snippet_tabs (parent : List Char) (n : Nat)
    (langs : List (List Char)) (bt : List Char)
    (hp : '{' ∉ parent) (hn : '{' ∉ nat_digits n)
    (hl : ∀ l ∈ langs, '{' ∉ l ∧ '\n' ∉ lower_list l ∧ '\n' ∉ tab_label l) :
    tab_items (snippet_tabs parent n langs bt) =
      (if bt = cl "esql" then [(cl "ES|QL", cl "esql")] else []) ++
        ((cl "Console", cl "console") ::
          langs.map (fun l => (tab_label l, lower_list l))) := by
  obtain ⟨k, hk, hs⟩ := scan_lang_list parent n hp hn langs hl
  have hshape := snippet_tabs_shape parent n langs bt
  have hC := snip_chunk_length (cl "Console") (cl "console") parent n (cl "console")
  by_cases hbt : bt = cl "esql"
  · rw [if_pos hbt] at hshape
    have hE := snip_chunk_length (cl "ES|QL") (cl "esql") parent n (cl "esql")
    have hKle : 36 + ((10 + (inc_junk parent n (cl "esql")).length) +
        ((10 + (inc_junk parent n (cl "console")).length) + k)) ≤
        (snippet_tabs parent n langs bt).length := by
      rw [hshape]
      simp only [List.length_append]
      rw [show (cl "::::{tab-set}\n:group: api-examples\n\n").length = 36 from rfl,
        show (cl "::::").length = 4 from rfl, hE, hC]
      omega
    obtain ⟨fuel0, hf⟩ := Nat.exists_eq_add_of_le hKle
    rw [tab_items, hf, hshape]
    rw [show 36 + ((10 + (inc_junk parent n (cl "esql")).length) +
        ((10 + (inc_junk parent n (cl "console")).length) + k)) + fuel0 =
      36 + (((10 + (inc_junk parent n (cl "esql")).length) +
        (((10 + (inc_junk parent n (cl "console")).length) + k) + fuel0))) from by omega]
    rw [scan_header]
    rw [show (10 + (inc_junk parent n (cl "esql")).length) +
        (((10 + (inc_junk parent n (cl "console")).length) + k) + fuel0) =
      10 + (inc_junk parent n (cl "esql")).length +
        (((10 + (inc_junk parent n (cl "console")).length) + k) + fuel0) from by omega]
    rw [scan_snip_chunk _ (cl "ES|QL") (cl "esql") parent n (cl "esql") _
      hp hn (by decide) (by decide) (by decide)]
    rw [show ((10 + (inc_junk parent n (cl "console")).length) + k) + fuel0 =
      10 + (inc_junk parent n (cl "console")).length + (k + fuel0) from by omega]
    rw [scan_snip_chunk _ (cl "Console") (cl "console") parent n (cl "console") _
      hp hn (by decide) (by decide) (by decide)]
    rw [hs fuel0 (cl "::::"), scan_no_brace fuel0 _ (by decide), if_pos hbt]
    simp
  · rw [if_neg hbt] at hshape
    have hKle : 36 + ((10 + (inc_junk parent n (cl "console")).length) + k) ≤
        (snippet_tabs parent n langs bt).length := by
      rw [hshape]
      simp only [List.length_append, List.nil_append]
      rw [show (cl "::::{tab-set}\n:group: api-examples\n\n").length = 36 from rfl,
        show (cl "::::").length = 4 from rfl, hC]
      omega
    obtain ⟨fuel0, hf⟩ := Nat.exists_eq_add_of_le hKle
    rw [tab_items, hf, hshape]
    simp only [List.nil_append]
    rw [show 36 + ((10 + (inc_junk parent n (cl "console")).length) + k) + fuel0 =
      36 + ((10 + (inc_junk parent n (cl "console")).length) + (k + fuel0)) from by omega]
    rw [scan_header]
    rw [scan_snip_chunk _ (cl "Console") (cl "console") parent n (cl "console") _
      hp hn (by decide) (by decide) (by decide)]
    rw [hs fuel0 (cl "::::"), scan_no_brace fuel0 _ (by decide), if_neg hbt]
    simp

end AddLang

namespace AddLang

theorem blt_decomp (lang c : List Char) :
    build_language_tab lang c =
      '\n' :: (cl ":::" ++ ('{' :: (cl "tab-item\x7d " ++ (tab_label lang ++
        ('\n' :: (cl ":sync: " ++ (lang ++ ('\n' :: blt_body lang c)))))))) := by
  simp only [build_language_tab, blt_body, tab_label]
  simp only [List.append_assoc, List.cons_append]
  rfl

theorem blt_length (lang c : List Char) :
    (build_language_tab lang c).length =
      24 + (tab_label lang).length + lang.length + (blt_body lang c).length := by
  rw [blt_decomp]
  simp only [List.length_cons, List.length_append]
  rw [show (cl ":::").length = 3 from rfl, show (cl "tab-item\x7d ").length = 10 from rfl,
    show (cl ":sync: ").length = 7 from rfl]
  omega

theorem blt_fold_eq (cc : Assoc) (langs : List (List Char)) (a : List Char) :
    langs.foldl (fun acc lang =>
      acc ++ build_language_tab lang ((alookup cc lang).getD [])) a =
    a ++ joinL (langs.map (fun l => build_language_tab l ((alookup cc l).getD []))) := by
  induction langs generalizing a with
  | nil => simp [joinL]
  | cons l ls ih =>
      rw [List.foldl_cons, ih, List.map_cons, joinL, List.append_assoc]

theorem scan_blt_list (cc : Assoc) :
    ∀ (langs : List (List Char)),
      (∀ l ∈ langs, '\n' ∉ l ∧ '\n' ∉ tab_label l ∧
        '{' ∉ blt_body l ((alookup cc l).getD [])) →
    ∃ k, k ≤ (joinL (langs.map (fun l =>
        build_language_tab l ((alookup cc l).getD [])))).length ∧
      ∀ (fuel : Nat) (TAIL : List Char),
        scan_tab_items (k + fuel)
          (joinL (langs.map (fun l =>
            build_language_tab l ((alookup cc l).getD []))) ++ TAIL) =
        langs.map (fun l => (tab_label l, l)) ++ scan_tab_items fuel TAIL := by
  intro langs
  induction langs with
  | nil =>
      intro _
      refine ⟨0, by simp, ?_⟩
      intro fuel TAIL
      simp [joinL, Nat.zero_add]
  | cons l ls ih =>
      intro hl
      obtain ⟨k, hk, hs⟩ := ih (fun x hx => hl x (List.mem_cons_of_mem l hx))
      obtain ⟨hlang, hlab, hbody⟩ := hl l (List.mem_cons_self l ls)
      refine ⟨6 + (blt_body l ((alookup cc l).getD [])).length + k, ?_, ?_⟩
      · rw [List.map_cons, joinL, List.length_append, blt_length]
        omega
      · intro fuel TAIL
        rw [List.map_cons, joinL, List.append_assoc]
        have hsh : build_language_tab l ((alookup cc l).getD []) ++
            (joinL (ls.map (fun l => build_language_tab l ((alookup cc l).getD []))) ++ TAIL) =
            cl "\n:::" ++ ('{' :: (cl "tab-item\x7d " ++ (tab_label l ++
              ('\n' :: (cl ":sync: " ++ (l ++ ('\n' :: (blt_body l ((alookup cc l).getD []) ++
                (joinL (ls.map (fun l => build_language_tab l ((alookup cc l).getD []))) ++ TAIL))))))))) := by
          rw [blt_decomp]
          simp only [List.cons_append, List.append_assoc]
          rfl
        rw [hsh]
        rw [show 6 + (blt_body l ((alookup cc l).getD [])).length + k + fuel =
            (cl "\n:::").length + ((('\n' :: blt_body l ((alookup cc l).getD [])).length +
              (k + fuel)) + 1) from by
          rw [show (cl "\n:::").length = 4 from rfl, List.length_cons]
          omega]
        rw [scan_skip _ _ _ (by decide)]
        rw [scan_tab_chunk _ (tab_label l) l _ hlab hlang]
        rw [show ('\n' :: (blt_body l ((alookup cc l).getD []) ++
            (joinL (ls.map (fun l => build_language_tab l ((alookup cc l).getD []))) ++ TAIL))) =
          ('\n' :: blt_body l ((alookup cc l).getD [])) ++
            (joinL (ls.map (fun l => build_language_tab l ((alookup cc l).getD []))) ++ TAIL) from rfl]
        rw [scan_skip _ _ _ (fun hx => by
          rcases List.mem_cons.mp hx with h | h
          · cases h
          · exact hbody h)]
        rw [hs fuel TAIL, List.map_cons, List.cons_append]

end AddLang


namespace AddLang

theorem tab_items_wrap_in_tabs (conv : Conv) (code anns : List Char)
    (langs2 : List (List Char)) (fb : Bool) (cc : Assoc)
    (errs : List (List Char × List Char))
    (hconv : convert_console conv (strip_annotations (pstrip code))
      (LangArg.many langs2) fb = Except.ok (cc, errs))
    (hcode : '{' ∉ pstrip code) (hanns : '{' ∉ anns)
    (hl2 : ∀ l ∈ langs2, '\n' ∉ l ∧ '\n' ∉ tab_label l ∧
      '{' ∉ blt_body l ((alookup cc l).getD [])) :
    ∃ tabs, wrap_in_tabs conv code anns (some langs2) fb (cl "console") =
        Except.ok (tabs, errs) ∧
      tab_items tabs = (cl "Console", cl "console") ::
        langs2.map (fun l => (tab_label l, l)) := by
  have hw : wrap_in_tabs conv code anns (some langs2) fb (cl "console") =
      (match convert_console conv (strip_annotations (pstrip code))
          (LangArg.many langs2) fb with
       | .error e => .error e
       | .ok (converted_codes, conversion_errors) =>
           .ok ((langs2.foldl (fun acc lang =>
               acc ++ build_language_tab lang ((alookup converted_codes lang).getD []))
               (cl "::::{tab-set}\n:group: api-examples\n\n" ++
                 (cl ":::{tab-item} Console\n:sync: console\n```console\n" ++
                   pstrip code ++ cl "\n```\n" ++
                   (if anns.isEmpty then [] else anns ++ [ '\n' ]) ++ cl ":::\n") ++ [])) ++
             cl "\n::::",
             conversion_errors)) := rfl
  rw [hconv] at hw
  have hw2 : wrap_in_tabs conv code anns (some langs2) fb (cl "console") =
      Except.ok ((langs2.foldl (fun acc lang =>
          acc ++ build_language_tab lang ((alookup cc lang).getD []))
          (cl "::::{tab-set}\n:group: api-examples\n\n" ++
            (cl ":::{tab-item} Console\n:sync: console\n```console\n" ++
              pstrip code ++ cl "\n```\n" ++
              (if anns.isEmpty then [] else anns ++ [ '\n' ]) ++ cl ":::\n") ++ [])) ++
        cl "\n::::", errs) := hw
  refine ⟨_, hw2, ?_⟩
  obtain ⟨k, hk, hs⟩ := scan_blt_list cc langs2 hl2
  rw [blt_fold_eq, tab_items]
  set J := joinL (langs2.map (fun l => build_language_tab l ((alookup cc l).getD [])))
    with hJ
  set A := (if anns.isEmpty then ([] : List Char) else anns ++ [ '\n' ]) with hA
  set C := pstrip code with hC
  have hifann : '{' ∉ A := by
    rw [hA]
    by_cases h : anns.isEmpty
    · rw [if_pos h]; simp
    · rw [if_neg h]; exact not_mem_app hanns (by decide)
  have hu : '{' ∉ '\n' :: (cl "```console\n" ++ (C ++ (cl "\n```\n" ++
      (A ++ cl ":::\n")))) := by
    intro hx
    rcases List.mem_cons.mp hx with h | h
    · cases h
    · exact not_mem_app (by decide) (not_mem_app (hC ▸ hcode) (not_mem_app (by decide)
        (not_mem_app hifann (by decide)))) h
  have hKle : 36 + (3 + (1 + (('\n' :: (cl "```console\n" ++ (C ++ (cl "\n```\n" ++
        (A ++ cl ":::\n"))))).length + k))) ≤
      ((cl "::::{tab-set}\n:group: api-examples\n\n" ++
        (cl ":::{tab-item} Console\n:sync: console\n```console\n" ++
          C ++ cl "\n```\n" ++ A ++ cl ":::\n") ++ []) ++ J ++ cl "\n::::").length := by
    simp only [List.length_append, List.length_cons, List.append_nil]
    rw [show (cl "::::{tab-set}\n:group: api-examples\n\n").length = 36 from rfl,
      show (cl ":::{tab-item} Console\n:sync: console\n```console\n").length = 48 from rfl,
      show (cl "\n```\n").length = 5 from rfl,
      show (cl ":::\n").length = 4 from rfl,
      show (cl "\n::::").length = 5 from rfl,
      show (cl "```console\n").length = 11 from rfl]
    omega
  obtain ⟨fuel0, hf⟩ := Nat.exists_eq_add_of_le hKle
  rw [hf]
  simp only [List.append_nil, List.append_assoc]
  rw [show 36 + (3 + (1 + (('\n' :: (cl "```console\n" ++ (C ++ (cl "\n```\n" ++
        (A ++ cl ":::\n"))))).length + k))) + fuel0 =
      36 + ((cl ":::").length + ((('\n' :: (cl "```console\n" ++ (C ++ (cl "\n```\n" ++
        (A ++ cl ":::\n"))))).length + (k + fuel0)) + 1)) from by
    rw [show (cl ":::").length = 3 from rfl]
    omega]
  rw [scan_header]
  rw [show cl ":::{tab-item} Console\n:sync: console\n```console\n" ++
      (C ++ (cl "\n```\n" ++ (A ++ (cl ":::\n" ++ (J ++ cl "\n::::"))))) =
      cl ":::" ++ ('{' :: (cl "tab-item\x7d " ++ (cl "Console" ++ ('\n' :: (cl ":sync: " ++
        (cl "console" ++ ('\n' :: (cl "```console\n" ++ (C ++ (cl "\n```\n" ++
          (A ++ (cl ":::\n" ++ (J ++ cl "\n::::"))))))))))))) from rfl]
  rw [scan_skip _ _ _ (by decide)]
  rw [scan_tab_chunk _ (cl "Console") (cl "console") _ (by decide) (by decide)]
  rw [show ('\n' :: (cl "```console\n" ++ (C ++ (cl "\n```\n" ++ (A ++ (cl ":::\n" ++
      (J ++ cl "\n::::"))))))) =
      ('\n' :: (cl "```console\n" ++ (C ++ (cl "\n```\n" ++ (A ++ cl ":::\n"))))) ++
      (J ++ cl "\n::::") from by
    simp only [List.cons_append, List.append_assoc]]
  rw [scan_skip _ _ _ hu]
  rw [hs fuel0 (cl "\n::::")]
  rw [scan_no_brace fuel0 _ (by decide)]
  simp

end AddLang

namespace AddLang

/-- A second converter oracle whose output depends only on the converter
language, so converted snippets stay brace-free. -/
def demo_conv2 : Conv := fun fmt _ _ => .ok (cl "demo-" ++ fmt)

theorem tab_items_wrap_esql (conv : Conv) (code anns : List Char)
    (langs3 : List (List Char)) (fb : Bool) (cc : Assoc)
    (errs : List (List Char × List Char))
    (hconv : convert_console conv (esql_to_console (strip_annotations (pstrip code)))
      (LangArg.many langs3) fb = Except.ok (cc, errs))
    (hcode : '{' ∉ pstrip code)
    (hsa : '{' ∉ strip_annotations (pstrip code))
    (hanns : '{' ∉ anns)
    (hl3 : ∀ l ∈ langs3, '\n' ∉ l ∧ '\n' ∉ tab_label l ∧
      '{' ∉ blt_body l ((alookup cc l).getD [])) :
    ∃ tabs, wrap_in_tabs conv code anns (some langs3) fb (cl "esql") =
        Except.ok (tabs, errs) ∧
      tab_items tabs = (cl "ES|QL", cl "esql") :: ((cl "Console", cl "console") ::
        langs3.map (fun l => (tab_label l, l))) := by
  have hw : wrap_in_tabs conv code anns (some langs3) fb (cl "esql") =
      (match convert_console conv (esql_to_console (strip_annotations (pstrip code)))
          (LangArg.many langs3) fb with
       | .error e => .error e
       | .ok (converted_codes, conversion_errors) =>
           .ok ((langs3.foldl (fun acc lang =>
               acc ++ build_language_tab lang ((alookup converted_codes lang).getD []))
               (cl "::::{tab-set}\n:group: api-examples\n\n" ++
                 (cl ":::{tab-item} ES|QL\n:sync: esql\n```esql\n" ++
                   pstrip code ++ cl "\n```\n" ++
                   (if anns.isEmpty then [] else anns ++ [ '\n' ]) ++ cl ":::\n") ++
                 (cl "\n:::{tab-item} Console\n:sync: console\n```console\n" ++
                   esql_to_console (strip_annotations (pstrip code)) ++
                   cl "\n```\n:::\n"))) ++
             cl "\n::::",
             conversion_errors)) := rfl
  rw [hconv] at hw
  have hw2 : wrap_in_tabs conv code anns (some langs3) fb (cl "esql") =
      Except.ok ((langs3.foldl (fun acc lang =>
          acc ++ build_language_tab lang ((alookup cc lang).getD []))
          (cl "::::{tab-set}\n:group: api-examples\n\n" ++
            (cl ":::{tab-item} ES|QL\n:sync: esql\n```esql\n" ++
              pstrip code ++ cl "\n```\n" ++
              (if anns.isEmpty then [] else anns ++ [ '\n' ]) ++ cl ":::\n") ++
            (cl "\n:::{tab-item} Console\n:sync: console\n```console\n" ++
              esql_to_console (strip_annotations (pstrip code)) ++
              cl "\n```\n:::\n"))) ++
        cl "\n::::", errs) := hw
  refine ⟨_, hw2, ?_⟩
  obtain ⟨k, hk, hs⟩ := scan_blt_list cc langs3 hl3
  rw [blt_fold_eq, tab_items]
  set J := joinL (langs3.map (fun l => build_language_tab l ((alookup cc l).getD [])))
    with hJ
  set A := (if anns.isEmpty then ([] : List Char) else anns ++ [ '\n' ]) with hA
  set C := pstrip code with hC
  set S := strip_annotations C with hS
  have hifann : '{' ∉ A := by
    rw [hA]
    by_cases h : anns.isEmpty
    · rw [if_pos h]; simp
    · rw [if_neg h]; exact not_mem_app hanns (by decide)
  have hSm : '{' ∉ S := by rw [hS, hC]; exact hsa
  have hu1 : '{' ∉ '\n' :: (cl "```esql\n" ++ (C ++ (cl "\n```\n" ++
      (A ++ cl ":::\n")))) := by
    intro hx
    rcases List.mem_cons.mp hx with h | h
    · cases h
    · exact not_mem_app (by decide) (not_mem_app (hC ▸ hcode) (not_mem_app (by decide)
        (not_mem_app hifann (by decide)))) h
  have hu2b : '{' ∉ cl "\n  \"query\": \"\"\"\n" ++ (S ++ (cl "\n  \"\"\"\n\x7d" ++
      cl "\n```\n:::\n")) :=
    not_mem_app (by decide) (not_mem_app hSm (not_mem_app (by decide) (by decide)))
  have hKle : 36 + (3 + (1 + (('\n' :: (cl "```esql\n" ++ (C ++ (cl "\n```\n" ++
        (A ++ cl ":::\n"))))).length + (4 + (1 + (36 + (1 +
        ((cl "\n  \"query\": \"\"\"\n" ++ (S ++ (cl "\n  \"\"\"\n\x7d" ++
          cl "\n```\n:::\n"))).length + k)))))))) ≤
      ((cl "::::{tab-set}\n:group: api-examples\n\n" ++
        (cl ":::{tab-item} ES|QL\n:sync: esql\n```esql\n" ++
          C ++ cl "\n```\n" ++ A ++ cl ":::\n") ++
        (cl "\n:::{tab-item} Console\n:sync: console\n```console\n" ++
          esql_to_console S ++ cl "\n```\n:::\n")) ++ J ++ cl "\n::::").length := by
    simp only [esql_to_console, List.length_append, List.length_cons]
    rw [show (cl "::::{tab-set}\n:group: api-examples\n\n").length = 36 from rfl,
      show (cl ":::{tab-item} ES|QL\n:sync: esql\n```esql\n").length = 40 from rfl,
      show (cl "\n```\n").length = 5 from rfl,
      show (cl ":::\n").length = 4 from rfl,
      show (cl "\n:::{tab-item} Console\n:sync: console\n```console\n").length = 49
        from rfl,
      show (cl "POST /_query?format=txt\n\x7b\n  \"query\": \"\"\"\n").length = 41
        from rfl,
      show (cl "\n  \"\"\"\n\x7d").length = 8 from rfl,
      show (cl "\n```\n:::\n").length = 9 from rfl,
      show (cl "\n::::").length = 5 from rfl,
      show (cl "```esql\n").length = 8 from rfl,
      show (cl "\n  \"query\": \"\"\"\n").length = 16 from rfl]
    omega
  obtain ⟨fuel0, hf⟩ := Nat.exists_eq_add_of_le hKle
  rw [hf]
  simp only [esql_to_console, List.append_assoc]
  rw [show 36 + (3 + (1 + (('\n' :: (cl "```esql\n" ++ (C ++ (cl "\n```\n" ++
        (A ++ cl ":::\n"))))).length + (4 + (1 + (36 + (1 +
        ((cl "\n  \"query\": \"\"\"\n" ++ (S ++ (cl "\n  \"\"\"\n\x7d" ++
          cl "\n```\n:::\n"))).length + k)))))))) + fuel0 =
      36 + ((cl ":::").length + ((('\n' :: (cl "```esql\n" ++ (C ++ (cl "\n```\n" ++
        (A ++ cl ":::\n"))))).length + ((cl "\n:::").length +
        (((cl "\n```console\nPOST /_query?format=txt\n").length +
          (((cl "\n  \"query\": \"\"\"\n" ++ (S ++ (cl "\n  \"\"\"\n\x7d" ++
            cl "\n```\n:::\n"))).length + (k + fuel0)) + 1)) + 1))) + 1)) from by
    rw [show (cl ":::").length = 3 from rfl, show (cl "\n:::").length = 4 from rfl,
      show (cl "\n```console\nPOST /_query?format=txt\n").length = 36 from rfl]
    omega]
  rw [scan_header]
  rw [show cl ":::{tab-item} ES|QL\n:sync: esql\n```esql\n" ++
      (C ++ (cl "\n```\n" ++ (A ++ (cl ":::\n" ++
        (cl "\n:::{tab-item} Console\n:sync: console\n```console\n" ++
          (cl "POST /_query?format=txt\n\x7b\n  \"query\": \"\"\"\n" ++
            (S ++ (cl "\n  \"\"\"\n\x7d" ++ (cl "\n```\n:::\n" ++
              (J ++ cl "\n::::")))))))))) =
      cl ":::" ++ ('{' :: (cl "tab-item\x7d " ++ (cl "ES|QL" ++ ('\n' :: (cl ":sync: " ++
        (cl "esql" ++ ('\n' :: (cl "```esql\n" ++ (C ++ (cl "\n```\n" ++ (A ++
          (cl ":::\n" ++ (cl "\n:::{tab-item} Console\n:sync: console\n```console\n" ++
            (cl "POST /_query?format=txt\n\x7b\n  \"query\": \"\"\"\n" ++
              (S ++ (cl "\n  \"\"\"\n\x7d" ++ (cl "\n```\n:::\n" ++
                (J ++ cl "\n::::")))))))))))))))))) from rfl]
  rw [scan_skip _ _ _ (by decide)]
  rw [scan_tab_chunk _ (cl "ES|QL") (cl "esql") _ (by decide) (by decide)]
  rw [show ('\n' :: (cl "```esql\n" ++ (C ++ (cl "\n```\n" ++ (A ++ (cl ":::\n" ++
      (cl "\n:::{tab-item} Console\n:sync: console\n```console\n" ++
        (cl "POST /_query?format=txt\n\x7b\n  \"query\": \"\"\"\n" ++
          (S ++ (cl "\n  \"\"\"\n\x7d" ++ (cl "\n```\n:::\n" ++
            (J ++ cl "\n::::")))))))))))) =
      ('\n' :: (cl "```esql\n" ++ (C ++ (cl "\n```\n" ++ (A ++ cl ":::\n"))))) ++
      (cl "\n:::{tab-item} Console\n:sync: console\n```console\n" ++
        (cl "POST /_query?format=txt\n\x7b\n  \"query\": \"\"\"\n" ++
          (S ++ (cl "\n  \"\"\"\n\x7d" ++ (cl "\n```\n:::\n" ++
            (J ++ cl "\n::::")))))) from by
    simp only [List.cons_append, List.append_assoc]]
  rw [scan_skip _ _ _ hu1]
  rw [show cl "\n:::{tab-item} Console\n:sync: console\n```console\n" ++
      (cl "POST /_query?format=txt\n\x7b\n  \"query\": \"\"\"\n" ++
        (S ++ (cl "\n  \"\"\"\n\x7d" ++ (cl "\n```\n:::\n" ++ (J ++ cl "\n::::"))))) =
      cl "\n:::" ++ ('{' :: (cl "tab-item\x7d " ++ (cl "Console" ++ ('\n' ::
        (cl ":sync: " ++ (cl "console" ++ ('\n' ::
          (cl "```console\nPOST /_query?format=txt\n" ++ ('{' ::
            (cl "\n  \"query\": \"\"\"\n" ++ (S ++ (cl "\n  \"\"\"\n\x7d" ++
              (cl "\n```\n:::\n" ++ (J ++ cl "\n::::")))))))))))))) from rfl]
  rw [scan_skip _ _ _ (by decide)]
  rw [scan_tab_chunk _ (cl "Console") (cl "console") _ (by decide) (by decide)]
  rw [show ('\n' :: (cl "```console\nPOST /_query?format=txt\n" ++ ('{' ::
      (cl "\n  \"query\": \"\"\"\n" ++ (S ++ (cl "\n  \"\"\"\n\x7d" ++
        (cl "\n```\n:::\n" ++ (J ++ cl "\n::::")))))))) =
      cl "\n```console\nPOST /_query?format=txt\n" ++ ('{' ::
      (cl "\n  \"query\": \"\"\"\n" ++ (S ++ (cl "\n  \"\"\"\n\x7d" ++
        (cl "\n```\n:::\n" ++ (J ++ cl "\n::::")))))) from rfl]
  rw [scan_skip _ _ _ (by decide)]
  rw [scan_brace_no_item _ (cl "\n  \"query\": \"\"\"\n" ++ (S ++ (cl "\n  \"\"\"\n\x7d" ++
      (cl "\n```\n:::\n" ++ (J ++ cl "\n::::"))))) rfl]
  rw [show cl "\n  \"query\": \"\"\"\n" ++ (S ++ (cl "\n  \"\"\"\n\x7d" ++
      (cl "\n```\n:::\n" ++ (J ++ cl "\n::::")))) =
      (cl "\n  \"query\": \"\"\"\n" ++ (S ++ (cl "\n  \"\"\"\n\x7d" ++
        cl "\n```\n:::\n"))) ++ (J ++ cl "\n::::") from by
    simp only [List.append_assoc]]
  rw [scan_skip _ _ _ hu2b]
  rw [hs fuel0 (cl "\n::::")]
  rw [scan_no_brace fuel0 _ (by decide)]
  simp

end AddLang

namespace AddLang

/-- C7 (amended): in every generated tab-set — snippet mode, and inline
mode for both console and esql blocks — the tab order is an ES|QL tab
first for an esql block, then the Console tab, then one tab per requested
language in request order; every tab's sync key is its language identifier
in the inline form, but in the snippet form a language tab's sync key is
the LOWER-CASED requested identifier, not the identifier as requested. -/
theorem generated_tab_order_and_sync
    (parent : List Char) (n : Nat) (langs : List (List Char)) (bt : List Char)
    (hp : '{' ∉ parent) (hn : '{' ∉ nat_digits n)
    (hl : ∀ l ∈ langs, '{' ∉ l ∧ '\n' ∉ lower_list l ∧ '\n' ∉ tab_label l)
    (conv : Conv) (code anns : List Char) (langs2 : List (List Char)) (fb : Bool)
    (cc : Assoc) (errs : List (List Char × List Char))
    (hconv : convert_console conv (strip_annotations (pstrip code))
      (LangArg.many langs2) fb = Except.ok (cc, errs))
    (hcode : '{' ∉ pstrip code) (hanns : '{' ∉ anns)
    (hl2 : ∀ l ∈ langs2, '\n' ∉ l ∧ '\n' ∉ tab_label l ∧
      '{' ∉ blt_body l ((alookup cc l).getD []))
    (conv3 : Conv) (code3 anns3 : List Char) (langs3 : List (List Char))
    (fb3 : Bool) (cc3 : Assoc) (errs3 : List (List Char × List Char))
    (hconv3 : convert_console conv3 (esql_to_console (strip_annotations (pstrip code3)))
      (LangArg.many langs3) fb3 = Except.ok (cc3, errs3))
    (hcode3 : '{' ∉ pstrip code3)
    (hsa3 : '{' ∉ strip_annotations (pstrip code3))
    (hanns3 : '{' ∉ anns3)
    (hl3 : ∀ l ∈ langs3, '\n' ∉ l ∧ '\n' ∉ tab_label l ∧
      '{' ∉ blt_body l ((alookup cc3 l).getD [])) :
    tab_items (snippet_tabs parent n langs bt) =
      (if bt = cl "esql" then [(cl "ES|QL", cl "esql")] else []) ++
        ((cl "Console", cl "console") ::
          langs.map (fun l => (tab_label l, lower_list l))) ∧
    (∃ tabs, wrap_in_tabs conv code anns (some langs2) fb (cl "console") =
        Except.ok (tabs, errs) ∧
      tab_items tabs = (cl "Console", cl "console") ::
        langs2.map (fun l => (tab_label l, l))) ∧
    ∃ tabs, wrap_in_tabs conv3 code3 anns3 (some langs3) fb3 (cl "esql") =
        Except.ok (tabs, errs3) ∧
      tab_items tabs = (cl "ES|QL", cl "esql") :: ((cl "Console", cl "console") ::
        langs3.map (fun l => (tab_label l, l))) :=
  ⟨tab_items_snippet_tabs parent n langs bt hp hn hl,
   tab_items_wrap_in_tabs conv code anns langs2 fb cc errs hconv hcode hanns hl2,
   tab_items_wrap_esql conv3 code3 anns3 langs3 fb3 cc3 errs3 hconv3 hcode3 hsa3
     hanns3 hl3⟩

set_option maxRecDepth 8192 in
/-- C7 counterexample: requesting language "Python" in snippet mode yields a
tab whose sync key is "python", not the requested identifier "Python". -/
theorem snippet_sync_lowercased_cex :
    tab_items (snippet_tabs (cl "p") 1 [cl "Python"] (cl "console")) =
      [(cl "Console", cl "console"), (cl "Python", cl "python")] ∧
    cl "python" ≠ cl "Python" :=
  ⟨rfl, by decide⟩

set_option maxRecDepth 8192 in
theorem generated_tab_order_and_sync_witness :
    (tab_items (snippet_tabs (cl "p") 1 [cl "Python"] (cl "console")) =
      (if cl "console" = cl "esql" then [(cl "ES|QL", cl "esql")] else []) ++
        ((cl "Console", cl "console") ::
          [cl "Python"].map (fun l => (tab_label l, lower_list l)))) ∧
    (∃ tabs, wrap_in_tabs demo_conv (cl "GET /x") [] (some [cl "python"]) true
        (cl "console") = Except.ok (tabs, []) ∧
      tab_items tabs = (cl "Console", cl "console") ::
        [cl "python"].map (fun l => (tab_label l, l))) ∧
    ∃ tabs, wrap_in_tabs demo_conv2 (cl "FROM idx") [] (some [cl "python"]) true
        (cl "esql") = Except.ok (tabs, []) ∧
      tab_items tabs = (cl "ES|QL", cl "esql") :: ((cl "Console", cl "console") ::
        [cl "python"].map (fun l => (tab_label l, l))) :=
  generated_tab_order_and_sync (cl "p") 1 [cl "Python"] (cl "console")
    (by decide) (by decide) (by decide)
    demo_conv (cl "GET /x") [] [cl "python"] true
    [(cl "python", cl "CONV[Python|C]\nGET /x")] []
    rfl (by decide) (by decide) (by decide)
    demo_conv2 (cl "FROM idx") [] [cl "python"] true
    [(cl "python", cl "demo-Python")] []
    rfl (by decide) (by decide) (by decide) (by decide)

end AddLang

namespace AddLang

theorem ci_starts_self_append (l r : List Char) : ci_starts l (l ++ r) = true := by
  induction l with
  | nil => rfl
  | cons c cs ih =>
      show (ci_eq c c && ci_starts cs (cs ++ r)) = true
      rw [ih, show ci_eq c c = true from by simp [ci_eq], Bool.true_and]

theorem match_tab_item_self (label sync post : List Char) :
    match_tab_item_at label sync
      (cl ":::{tab-item} " ++ (label ++ (cl "\n:sync: " ++ (sync ++ post)))) = true := by
  refine List.any_eq_true.mpr
    ⟨label ++ (cl "\n:sync: " ++ (sync ++ post)), ?_, ?_⟩
  · exact show _ ∈ (label ++ (cl "\n:sync: " ++ (sync ++ post))) ::
      ws_splits (label ++ (cl "\n:sync: " ++ (sync ++ post))) from List.mem_cons_self _ _
  · refine (Bool.and_eq_true _ _).mpr ⟨ci_starts_self_append _ _, ?_⟩
    rw [List.drop_left]
    refine List.any_eq_true.mpr ⟨cl "\n:sync: " ++ (sync ++ post), ?_, ?_⟩
    · exact show _ ∈ (cl "\n:sync: " ++ (sync ++ post)) ::
        ws_splits (cl "\n:sync: " ++ (sync ++ post)) from List.mem_cons_self _ _
    · show (ws_splits0 (cl ":sync: " ++ (sync ++ post))).any _ = true
      refine List.any_eq_true.mpr ⟨cl ":sync: " ++ (sync ++ post), ?_, ?_⟩
      · exact show _ ∈ (cl ":sync: " ++ (sync ++ post)) ::
          ws_splits (cl ":sync: " ++ (sync ++ post)) from List.mem_cons_self _ _
      · refine (Bool.and_eq_true _ _).mpr ⟨rfl, ?_⟩
        refine List.any_eq_true.mpr ⟨sync ++ post, ?_, ?_⟩
        · exact show _ ∈ (sync ++ post) :: ws_splits (sync ++ post) from
            List.mem_cons_self _ _
        · exact ci_starts_self_append _ _

theorem search_tab_item_occurs (label sync pre post : List Char) :
    search_tab_item label sync
      (pre ++ (cl ":::{tab-item} " ++ (label ++ (cl "\n:sync: " ++ (sync ++ post))))) =
      true := by
  refine List.any_eq_true.mpr
    ⟨cl ":::{tab-item} " ++ (label ++ (cl "\n:sync: " ++ (sync ++ post))), ?_, ?_⟩
  · exact (List.mem_tails _ _).mpr ⟨pre, rfl⟩
  · exact match_tab_item_self label sync post

end AddLang

namespace AddLang

/-- C4 (amended): when the preflight guard fires, create-mode processing
reports the file skipped and leaves document and snippet directory
untouched; and the guard does fire for any document containing a tab-item
whose label is the CAPITALIZED requested identifier with the lower-cased
sync key, or an ES|QL tab.  (The guard checks `lang.capitalize()`, not the
language's generated tab label, so e.g. a generated "JavaScript" tab is
not detected for the requested language "js".) -/
theorem create_guard_skips
    (conv : Conv) (parent : List Char) (languages : Option (List (List Char)))
    (dir : Dir) (markdown : List Char)
    (hg : (has_language_tabs markdown languages).1 = true) :
    process_file conv parent languages false dir markdown =
      .ok ⟨dir, markdown, false⟩ ∧
    (∀ lang pre post, lang ∈ languages.getD DEFAULT_LANGUAGES →
      (has_language_tabs (pre ++ (cl ":::{tab-item} " ++ (capitalizeP lang ++
        (cl "\n:sync: " ++ (lower_list lang ++ post))))) languages).1 = true) ∧
    (∀ pre post, (has_language_tabs (pre ++ (cl ":::{tab-item} " ++ (cl "ES|QL" ++
        (cl "\n:sync: " ++ (cl "esql" ++ post))))) languages).1 = true) := by
  refine ⟨?_, ?_, ?_⟩
  · rw [process_file, if_neg (by simp), if_pos hg]
  · intro lang pre post hmem
    rw [has_language_tabs]
    by_cases he : search_tab_item (cl "ES|QL") (cl "esql")
        (pre ++ (cl ":::{tab-item} " ++ (capitalizeP lang ++
          (cl "\n:sync: " ++ (lower_list lang ++ post))))) = true
    · rw [if_pos he]
    · rw [if_neg he]
      cases hf : (languages.getD DEFAULT_LANGUAGES).find? (fun l =>
          search_tab_item (capitalizeP l) (lower_list l)
            (pre ++ (cl ":::{tab-item} " ++ (capitalizeP lang ++
              (cl "\n:sync: " ++ (lower_list lang ++ post)))))) with
      | some x => rfl
      | none =>
          exfalso
          have := List.find?_eq_none.mp hf lang hmem
          rw [search_tab_item_occurs] at this
          exact Bool.true_eq_false ▸ this rfl
  · intro pre post
    rw [has_language_tabs, if_pos (search_tab_item_occurs (cl "ES|QL") (cl "esql") pre post)]

end AddLang

namespace AddLang

set_option maxRecDepth 8192 in
/-- C4 counterexample: a document holding a generated JavaScript tab with
sync key js is not detected when "js" is requested (the guard looks for
label "Js"), and create mode then modifies the document and writes snippet
files. -/
theorem create_guard_misses_cex :
    (has_language_tabs
        (cl ":::{tab-item} JavaScript\n:sync: js\n\n```console\nGET /a\n```\n")
        (some [cl "js"])).1 = false ∧
    tab_label (cl "js") = cl "JavaScript" ∧
    capitalizeP (cl "js") = cl "Js" ∧
    ∃ st, process_file demo_conv (cl "doc") (some [cl "js"]) false []
        (cl ":::{tab-item} JavaScript\n:sync: js\n\n```console\nGET /a\n```\n") =
      Except.ok st ∧
      st.updated = true ∧
      st.md ≠ cl ":::{tab-item} JavaScript\n:sync: js\n\n```console\nGET /a\n```\n" ∧
      st.dir ≠ [] :=
  ⟨rfl, rfl, rfl, ⟨_, rfl, rfl, by decide, by decide⟩⟩

set_option maxRecDepth 8192 in
theorem create_guard_skips_witness :
    (process_file demo_conv (cl "doc") (some [cl "js"]) false []
        (cl ":::{tab-item} Js\n:sync: js\n") =
      Except.ok ⟨[], cl ":::{tab-item} Js\n:sync: js\n", false⟩) ∧
    (∀ lang pre post, lang ∈ (some [cl "js"]).getD DEFAULT_LANGUAGES →
      (has_language_tabs (pre ++ (cl ":::{tab-item} " ++ (capitalizeP lang ++
        (cl "\n:sync: " ++ (lower_list lang ++ post))))) (some [cl "js"])).1 = true) ∧
    (∀ pre post, (has_language_tabs (pre ++ (cl ":::{tab-item} " ++ (cl "ES|QL" ++
        (cl "\n:sync: " ++ (cl "esql" ++ post))))) (some [cl "js"])).1 = true) :=
  create_guard_skips demo_conv (cl "doc") (some [cl "js"]) []
    (cl ":::{tab-item} Js\n:sync: js\n") (by decide)

end AddLang

namespace AddLang

theorem sub_blocks_exact (bt : List Char) (ic : Bool)
    (hcond : ∀ code : List Char,
      (decide (bt ≠ cl "console") || !(startsL (cl "-result") code)) =
        !(ic && startsL (cl "-result") code)) :
    ∀ (fuel : Nat) (s : List Char) (reps : List (List Char)),
      reps.length = ((scan_blocks bt fuel s).filterMap (fun p =>
        if bt ≠ cl "console" || !(startsL (cl "-result") p.1) then
          some (p.1, pstrip p.2) else none)).length →
      ∃ t, sub_blocks bt ic fuel reps s = Except.ok (t, []) := by
  intro fuel
  induction fuel with
  | zero =>
      intro s reps hlen
      rw [show scan_blocks bt 0 s = [] from rfl] at hlen
      simp only [List.filterMap_nil, List.length_nil] at hlen
      rw [List.length_eq_zero] at hlen
      subst hlen
      exact ⟨s, rfl⟩
  | succ fuel ih =>
      intro s reps hlen
      cases s with
      | nil =>
          rw [show scan_blocks bt (fuel + 1) [] = [] from rfl] at hlen
          simp only [List.filterMap_nil, List.length_nil] at hlen
          rw [List.length_eq_zero] at hlen
          subst hlen
          exact ⟨[], rfl⟩
      | cons c rest =>
          cases hm : match_block_at bt (c :: rest) with
          | none =>
              rw [scan_blocks, hm] at hlen
              obtain ⟨t, ht⟩ := ih rest reps hlen
              refine ⟨c :: t, ?_⟩
              simp only [sub_blocks, hm, ht]
          | some q =>
              obtain ⟨code, ann, whole, r⟩ := q
              rw [scan_blocks, hm] at hlen
              by_cases hres : (ic && startsL (cl "-result") code) = true
              · have hdrop : (decide (bt ≠ cl "console") ||
                    !(startsL (cl "-result") code)) = false := by
                  rw [hcond, hres]; rfl
                rw [List.filterMap_cons,
                  show (if bt ≠ cl "console" || !(startsL (cl "-result") (code, ann).1) then
                      some ((code, ann).1, pstrip (code, ann).2) else none) = none from by
                    show (if bt ≠ cl "console" || !(startsL (cl "-result") code) then
                        some (code, pstrip ann) else none) = none
                    rw [if_neg (by rw [hdrop]; simp)]] at hlen
                obtain ⟨t, ht⟩ := ih r reps hlen
                refine ⟨whole ++ t, ?_⟩
                simp only [sub_blocks, hm]
                rw [if_pos hres]
                simp only [ht]
              · have hkeep : (decide (bt ≠ cl "console") ||
                    !(startsL (cl "-result") code)) = true := by
                  rw [hcond]
                  simp only [Bool.not_eq_true] at hres
                  rw [hres]; rfl
                rw [List.filterMap_cons,
                  show (if bt ≠ cl "console" || !(startsL (cl "-result") (code, ann).1) then
                      some ((code, ann).1, pstrip (code, ann).2) else none) =
                      some (code, pstrip ann) from by
                    show (if bt ≠ cl "console" || !(startsL (cl "-result") code) then
                        some (code, pstrip ann) else none) = some (code, pstrip ann)
                    rw [if_pos hkeep],
                  List.length_cons] at hlen
                cases reps with
                | nil => exact absurd hlen (by simp)
                | cons rep rs =>
                    rw [List.length_cons, Nat.succ_inj] at hlen
                    obtain ⟨t, ht⟩ := ih r rs hlen
                    refine ⟨rep ++ t, ?_⟩
                    simp only [sub_blocks, hm]
                    rw [if_neg hres]
                    simp only [ht]

end AddLang

namespace AddLang

/-- C10 (amended): substitution never exhausts or leaves replacements when
given one replacement per extracted block of the text it actually runs on:
the console pass consumes exactly one replacement per console block
extracted from the document, and the esql pass consumes exactly one per
esql block extracted from the console-SUBSTITUTED text (not the original
document, whose esql count can differ). -/
theorem replace_extract_agree (md : List Char) (creps ereps : List (List Char))
    (hc : creps.length = (extract_code_blocks md (cl "console")).length)
    (he : ∀ t1 rs, sub_blocks (cl "console") true md.length creps md =
        Except.ok (t1, rs) →
      ereps.length = (extract_code_blocks t1 (cl "esql")).length) :
    ∃ t1 t2,
      sub_blocks (cl "console") true md.length creps md = Except.ok (t1, []) ∧
      sub_blocks (cl "esql") false t1.length ereps t1 = Except.ok (t2, []) ∧
      replace_blocks md creps ereps = Except.ok t2 := by
  have hcond1 : ∀ code : List Char,
      (decide ((cl "console") ≠ cl "console") || !(startsL (cl "-result") code)) =
        !(true && startsL (cl "-result") code) := by
    intro code
    rw [show (decide ((cl "console") ≠ cl "console")) = false from rfl]
    cases startsL (cl "-result") code <;> rfl
  have hcond2 : ∀ code : List Char,
      (decide ((cl "esql") ≠ cl "console") || !(startsL (cl "-result") code)) =
        !(false && startsL (cl "-result") code) := by
    intro code
    rw [show (decide ((cl "esql") ≠ cl "console")) = true from rfl]
    rfl
  obtain ⟨t1, ht1⟩ := sub_blocks_exact (cl "console") true hcond1 md.length md creps
    (by rw [hc]; rfl)
  obtain ⟨t2, ht2⟩ := sub_blocks_exact (cl "esql") false hcond2 t1.length t1 ereps
    (by rw [he t1 [] ht1]; rfl)
  refine ⟨t1, t2, ht1, ht2, ?_⟩
  rw [replace_blocks]
  simp only [ht1, ht2]

end AddLang

namespace AddLang

/-- C10 counterexample: the document has one extracted esql block, yet the
esql substitution pass (which runs after the console pass has consumed the
shared closing-fence backticks) finds no esql block and leaves its one
replacement unconsumed. -/
theorem replace_esql_skew_cex :
    (extract_code_blocks (cl "```console\nA\n```esql\nB\n```\n") (cl "esql")).length = 1 ∧
    sub_blocks (cl "console") true (cl "```console\nA\n```esql\nB\n```\n").length
        [cl "X"] (cl "```console\nA\n```esql\nB\n```\n") =
      Except.ok (cl "Xesql\nB\n```\n", []) ∧
    sub_blocks (cl "esql") false (cl "Xesql\nB\n```\n").length [cl "Y"]
        (cl "Xesql\nB\n```\n") =
      Except.ok (cl "Xesql\nB\n```\n", [cl "Y"]) :=
  ⟨rfl, rfl, rfl⟩

theorem replace_extract_agree_witness :
    ∃ t1 t2,
      sub_blocks (cl "console") true (cl "q\n```console\nGET /a\n```\n").length [cl "T"]
          (cl "q\n```console\nGET /a\n```\n") = Except.ok (t1, []) ∧
      sub_blocks (cl "esql") false t1.length [] t1 = Except.ok (t2, []) ∧
      replace_blocks (cl "q\n```console\nGET /a\n```\n") [cl "T"] [] = Except.ok t2 :=
  replace_extract_agree (cl "q\n```console\nGET /a\n```\n") [cl "T"] [] (by decide)
    (fun t1 rs h => by
      rw [show sub_blocks (cl "console") true (cl "q\n```console\nGET /a\n```\n").length
          [cl "T"] (cl "q\n```console\nGET /a\n```\n") =
        Except.ok ((cl "q\nT\n"), ([] : List (List Char))) from rfl] at h
      cases h
      decide)

end AddLang

namespace AddLang

theorem sort_expected (data : List (List Char × List Char)) :
    ∀ n, sort_by_num (expected_consoles n data) = expected_consoles n data := by
  induction data with
  | nil => intro n; rfl
  | cons p rest ih =>
      intro n
      obtain ⟨code, anns⟩ := p
      rw [expected_consoles, sort_by_num, ih (n + 1)]
      cases rest with
      | nil => rfl
      | cons q qs =>
          obtain ⟨c2, a2⟩ := q
          rw [expected_consoles, insert_by_num, if_pos (Nat.le_succ n)]

theorem expected_map_fst (data : List (List Char × List Char)) :
    ∀ n, (expected_consoles n data).map Prod.fst = List.range' n data.length := by
  induction data with
  | nil => intro n; rfl
  | cons p rest ih =>
      intro n
      obtain ⟨c, a⟩ := p
      rw [expected_consoles, List.map_cons, ih (n + 1), List.length_cons]
      rfl

theorem expected_length (data : List (List Char × List Char)) :
    ∀ n, (expected_consoles n data).length = data.length := by
  induction data with
  | nil => intro n; rfl
  | cons p rest ih =>
      intro n
      obtain ⟨c, a⟩ := p
      rw [expected_consoles, List.length_cons, ih (n + 1), List.length_cons]

theorem parse_expected (data : List (List Char × List Char))
    (hgood : ∀ p ∈ data,
      parse_snippet_file (snippet_body (cl "console") p.1 p.2) = p ∧ p.1 ≠ []) :
    ∀ n, (expected_consoles n data).filterMap (fun p =>
        if (parse_snippet_file p.2).1.isEmpty then none
        else some (parse_snippet_file p.2)) = data := by
  induction data with
  | nil => intro n; rfl
  | cons p rest ih =>
      intro n
      obtain ⟨code, anns⟩ := p
      obtain ⟨hp, hne⟩ := hgood (code, anns) (List.mem_cons_self _ _)
      rw [expected_consoles, List.filterMap_cons]
      rw [show parse_snippet_file (n, snippet_body (cl "console") code anns).2 =
        (code, anns) from hp]
      rw [show (if ((code, anns).1.isEmpty) = true then
          (none : Option (List Char × List Char)) else some (code, anns)) =
          some (code, anns) from by
        rw [if_neg]
        simp only [List.isEmpty_eq_true]
        exact hne]
      rw [ih (fun q hq => hgood q (List.mem_cons_of_mem _ hq)) (n + 1)]

theorem mem_zip_same (l : List Nat) (p : Nat × Nat) (hp : p ∈ l.zip l) :
    p.1 = p.2 := by
  induction l with
  | nil => cases hp
  | cons a as ih =>
      rw [List.zip_cons_cons] at hp
      rcases List.mem_cons.mp hp with h | h
      · rw [h]
      · exact ih h

theorem apply_renumber_eq_pairs (parent : List Char) :
    ∀ (pairs : List (Nat × Nat)) (t : List Char), (∀ p ∈ pairs, p.1 = p.2) →
      apply_renumber parent pairs t = t := by
  intro pairs
  induction pairs with
  | nil => intro t _; rfl
  | cons p ps ih =>
      intro t h
      rw [apply_renumber, List.foldl_cons]
      rw [show (if p.1 ≠ p.2 then sub_include parent p.1 p.2 t.length t else t) = t from by
        rw [if_neg]
        simp only [ne_eq, not_not]
        exact h p (List.mem_cons_self _ _)]
      exact ih t (fun q hq => h q (List.mem_cons_of_mem _ hq))

theorem has_console_expected (d : Dir)
    (hce : console_entries d ≠ []) : has_console_snippets d = true := by
  induction d with
  | nil => exact absurd rfl hce
  | cons e es ih =>
      obtain ⟨n, lang, content⟩ := e
      by_cases hl : lang = cl "console"
      · rw [has_console_snippets, List.any_cons]
        rw [show (decide ((n, lang, content).2.1 = cl "console")) = true from by
          simp [hl]]
        rfl
      · have h2 : console_entries es ≠ [] := by
          intro hx
          apply hce
          rw [console_entries, List.filterMap_cons,
            show (if (n, lang, content).2.1 = cl "console" then
              some ((n, lang, content).1, (n, lang, content).2.2) else none) =
              (none : Option (Nat × List Char)) from by rw [if_neg hl]]
          exact hx
        rw [has_console_snippets, List.any_cons]
        rw [show (es.any fun e => decide (e.2.1 = cl "console")) = true from ih h2]
        simp

end AddLang

namespace AddLang

/-- C2 (amended): regeneration is idempotent whenever each parsed console
snippet survives a write/parse roundtrip (no target language is named
"console", and every parsed (code, annotations) pair is parsed back
unchanged from the snippet file the regeneration writes, with nonempty
code): the second run returns exactly the first run's state.  Without the
roundtrip condition a second run can rewrite different snippet files. -/
theorem regenerate_idempotent (conv : Conv) (parent : List Char)
    (languages : Option (List (List Char))) (dir : Dir) (md : List Char)
    (st : FileState)
    (hrun : regenerate_from_snippets conv parent languages dir md = Except.ok st)
    (hnc : cl "console" ∉ languages.getD DEFAULT_LANGUAGES)
    (hne : console_data_of dir ≠ [])
    (hgood : ∀ p ∈ console_data_of dir,
      parse_snippet_file (snippet_body (cl "console") p.1 p.2) = p ∧ p.1 ≠ []) :
    regenerate_from_snippets conv parent languages st.dir st.md = Except.ok st := by
  rw [regenerate_from_snippets] at hrun
  by_cases hhc : has_console_snippets dir = true
  · have hb : (!has_console_snippets dir) = false := by rw [hhc]; rfl
    rw [if_neg (by rw [hb]; simp)] at hrun
    cases hloop : regen_loop conv (languages.getD DEFAULT_LANGUAGES) [] 1 false
        (console_data_of dir) with
    | error e =>
        rw [hloop] at hrun
        simp at hrun
    | ok pr =>
        obtain ⟨d2, errs⟩ := pr
        rw [hloop] at hrun
        have hrun2 : Except.ok (⟨d2,
            if actual_numbers_of dir ≠ expected_numbers_of dir ∨
                (console_data_of dir).length ≠ count_tabsets_in_markdown md
            then apply_renumber parent
              ((actual_numbers_of dir).zip (expected_numbers_of dir)) md
            else md, !errs⟩ : FileState) = Except.ok st := hrun
        generalize hmd : (if actual_numbers_of dir ≠ expected_numbers_of dir ∨
            (console_data_of dir).length ≠ count_tabsets_in_markdown md
          then apply_renumber parent
            ((actual_numbers_of dir).zip (expected_numbers_of dir)) md
          else md) = mdX at hrun2
        have hst := Except.ok.inj hrun2
        subst hst
        show regenerate_from_snippets conv parent languages d2 mdX =
          Except.ok ⟨d2, mdX, !errs⟩
        have hce : console_entries d2 = expected_consoles 1 (console_data_of dir) := by
          have h := regen_loop_consoles conv (languages.getD DEFAULT_LANGUAGES) hnc
            (console_data_of dir) [] 1 false d2 errs hloop
            (by intro p hp; cases hp)
          rw [show console_entries ([] : Dir) = [] from rfl, List.nil_append] at h
          exact h
        have hgcs : get_console_snippets d2 =
            expected_consoles 1 (console_data_of dir) := by
          rw [get_console_snippets, hce, sort_expected]
        have hdata2 : console_data_of d2 = console_data_of dir := by
          rw [console_data_of, hgcs, parse_expected _ hgood 1]
        have hact : actual_numbers_of d2 = expected_numbers_of d2 := by
          rw [actual_numbers_of, expected_numbers_of, hgcs, expected_map_fst,
            expected_length]
        have hhc2 : has_console_snippets d2 = true := by
          refine has_console_expected d2 ?_
          rw [hce]
          intro hx
          apply hne
          cases hdata : console_data_of dir with
          | nil => rfl
          | cons p ps =>
              exfalso
              rw [hdata] at hx
              obtain ⟨c, a⟩ := p
              rw [expected_consoles] at hx
              cases hx
        rw [regenerate_from_snippets]
        rw [if_neg (by rw [hhc2]; simp)]
        have hmd3 : (if actual_numbers_of d2 ≠ expected_numbers_of d2 ∨
            (console_data_of dir).length ≠ count_tabsets_in_markdown mdX
          then apply_renumber parent
            ((actual_numbers_of d2).zip (expected_numbers_of d2)) mdX
          else mdX) = mdX := by
          by_cases hcond : actual_numbers_of d2 ≠ expected_numbers_of d2 ∨
              (console_data_of dir).length ≠ count_tabsets_in_markdown mdX
          · rw [if_pos hcond, hact]
            exact apply_renumber_eq_pairs parent _ mdX
              (fun p hp => mem_zip_same _ p hp)
          · rw [if_neg hcond]
        simp only [hdata2, hloop]
        rw [hmd3]
  · have hb : has_console_snippets dir = false := by
      cases h : has_console_snippets dir
      · rfl
      · exact absurd h hhc
    rw [if_pos (by rw [hb]; rfl)] at hrun
    cases hrun
    simp [regenerate_from_snippets, hb]

end AddLang

namespace AddLang

set_option maxRecDepth 8192 in
/-- C2 counterexample: a console snippet whose code body contains a fence
followed by a numbered list makes the annotation search of
`parse_snippet_file` pick a different list on the second run, so the
second regeneration writes a different console snippet file. -/
theorem regenerate_not_idempotent_cex :
    ∃ st1 st2,
      regenerate_from_snippets demo_conv (cl "doc") (some [cl "python"])
          [(1, cl "console",
            cl "q```\n\n5. bar\n\n```console\nx```\n\n1. foo\n```\n")] (cl "m") =
        Except.ok st1 ∧
      regenerate_from_snippets demo_conv (cl "doc") (some [cl "python"])
          st1.dir st1.md = Except.ok st2 ∧
      st2.dir ≠ st1.dir := by
  refine ⟨_, _, rfl, rfl, ?_⟩
  decide

set_option maxRecDepth 8192 in
theorem regenerate_idempotent_witness :
    regenerate_from_snippets demo_conv (cl "doc") (some [cl "python"])
        [(1, cl "console", cl "```console\nGET /a\n```\n"),
         (1, cl "python", cl "```python\nCONV[Python|C]\nGET /a\n```\n")]
        (cl "m") =
      Except.ok ⟨[(1, cl "console", cl "```console\nGET /a\n```\n"),
         (1, cl "python", cl "```python\nCONV[Python|C]\nGET /a\n```\n")],
        cl "m", true⟩ :=
  regenerate_idempotent demo_conv (cl "doc") (some [cl "python"])
    [(1, cl "console", cl "```console\nGET /a\n```\n")] (cl "m")
    ⟨[(1, cl "console", cl "```console\nGET /a\n```\n"),
      (1, cl "python", cl "```python\nCONV[Python|C]\nGET /a\n```\n")], cl "m", true⟩
    rfl (by decide) (by decide) (by decide)

end AddLang

namespace AddLang

theorem nat_digits_aux_digits :
    ∀ (fuel n : Nat), ∀ c ∈ nat_digits_aux fuel n, is_digit_char c = true := by
  intro fuel
  induction fuel with
  | zero => intro n c hc; cases hc
  | succ f ih =>
      intro n c hc
      rw [nat_digits_aux] at hc
      by_cases hn : n < 10
      · rw [if_pos hn] at hc
        rcases List.mem_cons.mp hc with h | h
        · subst h
          interval_cases n <;> decide
        · cases h
      · rw [if_neg hn] at hc
        rcases List.mem_append.mp hc with h | h
        · exact ih (n / 10) c h
        · rcases List.mem_cons.mp h with h2 | h2
          · subst h2
            have hm : n % 10 < 10 := Nat.mod_lt _ (by omega)
            generalize n % 10 = m at hm ⊢
            interval_cases m <;> decide
          · cases h2

theorem nat_digits_digits (n : Nat) : ∀ c ∈ nat_digits n, is_digit_char c = true :=
  nat_digits_aux_digits (n + 1) n

theorem digits_val_append_one (xs : List Char) (c : Char) :
    digits_val (xs ++ [c]) = 10 * digits_val xs + (c.toNat - 48) := by
  rw [digits_val, digits_val, List.foldl_append, List.foldl_cons, List.foldl_nil]

theorem digits_val_aux :
    ∀ (fuel n : Nat), n < fuel → digits_val (nat_digits_aux fuel n) = n := by
  intro fuel
  induction fuel with
  | zero => intro n hn; omega
  | succ f ih =>
      intro n hn
      rw [nat_digits_aux]
      by_cases h10 : n < 10
      · rw [if_pos h10]
        have : digits_val [Char.ofNat (48 + n)] = n := by
          interval_cases n <;> decide
        exact this
      · rw [if_neg h10]
        rw [digits_val_append_one]
        rw [ih (n / 10) (by omega)]
        have hc : (Char.ofNat (48 + n % 10)).toNat - 48 = n % 10 := by
          have hm : n % 10 < 10 := Nat.mod_lt _ (by omega)
          generalize n % 10 = m at hm ⊢
          interval_cases m <;> decide
        rw [hc]
        omega

theorem digits_val_nat_digits (n : Nat) : digits_val (nat_digits n) = n :=
  digits_val_aux (n + 1) n (by omega)

theorem nat_digits_inj (a b : Nat) (h : nat_digits a = nat_digits b) : a = b := by
  have := digits_val_nat_digits a
  rw [h, digits_val_nat_digits] at this
  omega

end AddLang

namespace AddLang

theorem dropPre_append_both (a : List Char) :
    ∀ (b s : List Char), dropPre (a ++ b) (a ++ s) = dropPre b s := by
  induction a with
  | nil => intro b s; rfl
  | cons c cs ih =>
      intro b s
      show (if c = c then dropPre (cs ++ b) (cs ++ s) else none) = dropPre b s
      rw [if_pos rfl, ih]

theorem dropPre_append_cases (l : List Char) :
    ∀ (m s r : List Char), dropPre l (m ++ s) = some r →
      (∃ m2, m = l ++ m2 ∧ r = m2 ++ s) ∨
      (∃ l2, l = m ++ l2 ∧ dropPre l2 s = some r) := by
  induction l with
  | nil =>
      intro m s r h
      cases h
      exact Or.inl ⟨m, rfl, rfl⟩
  | cons c cs ih =>
      intro m s r h
      cases m with
      | nil => exact Or.inr ⟨c :: cs, rfl, h⟩
      | cons d ds =>
          rw [show ((d :: ds) ++ s) = d :: (ds ++ s) from rfl, dropPre] at h
          by_cases hcd : c = d
          · rw [if_pos hcd] at h
            rcases ih ds s r h with ⟨m2, hm, hr⟩ | ⟨l2, hl, hd2⟩
            · exact Or.inl ⟨m2, by rw [hm, hcd]; rfl, hr⟩
            · exact Or.inr ⟨l2, by rw [hl, hcd]; rfl, hd2⟩
          · rw [if_neg hcd] at h
            cases h

theorem takeWhile_word_append (lang : List Char) (X : List Char)
    (hw : ∀ c ∈ lang, is_word_char c = true) :
    (lang ++ '.' :: X).takeWhile is_word_char = lang ∧
    (lang ++ '.' :: X).drop lang.length = '.' :: X := by
  constructor
  · induction lang with
    | nil =>
        show List.takeWhile is_word_char ('.' :: X) = []
        rw [List.takeWhile_cons, show is_word_char '.' = false from by decide]
        rfl
    | cons c cs ih =>
        rw [List.cons_append, List.takeWhile_cons,
          hw c (List.mem_cons_self _ _),
          ih (fun x hx => hw x (List.mem_cons_of_mem _ hx))]
        rfl
  · exact List.drop_left lang ('.' :: X)

theorem try_include_head_ne (parent : List Char) (old : Nat) (c : Char)
    (rest : List Char) (hc : c ≠ '_') :
    try_include parent old (c :: rest) = none := by
  have hd : dropPre (include_pat parent old) (c :: rest) = none := by
    show dropPre ('_' :: (((cl "snippets/" ++ parent) ++ cl "/example") ++
      nat_digits old)) (c :: rest) = none
    rw [dropPre, if_neg (Ne.symm hc)]
  simp only [try_include, hd]

theorem try_include_self (parent : List Char) (k : Nat) (lang rest : List Char)
    (hlne : lang ≠ []) (hw : ∀ c ∈ lang, is_word_char c = true) :
    try_include parent k
      (include_pat parent k ++ ('-' :: (lang ++ (cl ".md" ++ rest)))) =
      some ('-' :: (lang ++ cl ".md"), rest) := by
  rw [show (lang ++ (cl ".md" ++ rest)) = lang ++ '.' :: (cl "md" ++ rest) from by
    simp [cl]]
  have h1 := takeWhile_word_append lang (cl "md" ++ rest) hw
  simp only [try_include, dropPre_append_self, if_true]
  rw [h1.1, h1.2]
  rw [if_neg (by
    simp only [List.isEmpty_eq_true]
    exact hlne)]
  rw [show dropPre (cl ".md") ('.' :: (cl "md" ++ rest)) = some rest from by
    show dropPre (cl ".md") (cl ".md" ++ rest) = some rest
    rw [dropPre_append_self]]

theorem try_include_ref_ne (parent : List Char) (old k : Nat)
    (lang rest : List Char) (hne : old ≠ k) :
    try_include parent old
      (include_pat parent k ++ ('-' :: (lang ++ (cl ".md" ++ rest)))) = none := by
  have hsh : include_pat parent k ++ ('-' :: (lang ++ (cl ".md" ++ rest))) =
      ((cl "_snippets/" ++ parent) ++ cl "/example") ++
        (nat_digits k ++ ('-' :: (lang ++ (cl ".md" ++ rest)))) := by
    rw [include_pat]
    simp [List.append_assoc]
  cases hdp : dropPre (include_pat parent old)
      (include_pat parent k ++ ('-' :: (lang ++ (cl ".md" ++ rest)))) with
  | none => simp only [try_include, hdp]
  | some r1 =>
      have hr1 : ∃ d r2, r1 = d :: r2 ∧ is_digit_char d = true := by
        have hdp2 := hdp
        rw [hsh, show include_pat parent old =
          ((cl "_snippets/" ++ parent) ++ cl "/example") ++ nat_digits old from by
            rw [include_pat], dropPre_append_both] at hdp2
        rcases dropPre_append_cases (nat_digits old) (nat_digits k) _ r1 hdp2 with
          ⟨m2, hm, hr⟩ | ⟨l2, hl, hd2⟩
        · cases m2 with
          | nil =>
              rw [List.append_nil] at hm
              exact absurd (nat_digits_inj old k hm.symm) hne
          | cons d t =>
              refine ⟨d, t ++ ('-' :: (lang ++ (cl ".md" ++ rest))), by rw [hr]; rfl, ?_⟩
              refine nat_digits_digits k d ?_
              rw [hm]
              exact List.mem_append_right _ (List.mem_cons_self _ _)
        · exfalso
          cases l2 with
          | nil =>
              rw [List.append_nil] at hl
              exact hne (nat_digits_inj old k hl)
          | cons e t =>
              have he : is_digit_char e = true := by
                refine nat_digits_digits old e ?_
                rw [hl]
                exact List.mem_append_right _ (List.mem_cons_self _ _)
              rw [dropPre, if_neg (by
                intro hx
                rw [hx] at he
                exact absurd he (by decide))] at hd2
              cases hd2
      obtain ⟨d, r2, hr, hd⟩ := hr1
      have hdne : d ≠ '-' := by
        intro hx
        rw [hx] at hd
        exact absurd hd (by decide)
      simp only [try_include, hdp, hr]
      rw [if_neg hdne]

end AddLang

namespace AddLang

def render_piece (parent : List Char) : (List Char ⊕ (Nat × List Char)) → List Char
  | Sum.inl t => t
  | Sum.inr (k, lang) => include_pat parent k ++ ('-' :: (lang ++ cl ".md"))

/-- A document as alternating free text and include-path references. -/
def render_doc (parent : List Char)
    (ps : List (List Char ⊕ (Nat × List Char))) : List Char :=
  joinL (ps.map (render_piece parent))

/-- The sequential composite renumbering map of the renumbering loop. -/
def numMap (pairs : List (Nat × Nat)) (k : Nat) : Nat :=
  pairs.foldl (fun cur p => if cur = p.1 then p.2 else cur) k

def ren_one (old new : Nat) :
    (List Char ⊕ (Nat × List Char)) → (List Char ⊕ (Nat × List Char))
  | Sum.inl t => Sum.inl t
  | Sum.inr (k, lang) => Sum.inr (if k = old then new else k, lang)

theorem sub_include_nil (parent : List Char) (old new fuel : Nat) :
    sub_include parent old new fuel [] = [] := by
  cases fuel <;> rfl

theorem sub_include_skip (parent : List Char) (old new : Nat) (u : List Char)
    (hu : '_' ∉ u) :
    ∀ (fuel : Nat) (rest : List Char),
      sub_include parent old new (u.length + fuel) (u ++ rest) =
        u ++ sub_include parent old new fuel rest := by
  induction u with
  | nil => intro fuel rest; simp
  | cons c cs ih =>
      intro fuel rest
      have hc : c ≠ '_' := fun hx => hu (hx ▸ List.mem_cons_self c cs)
      have hcs : '_' ∉ cs := fun hx => hu (List.mem_cons_of_mem c hx)
      rw [List.length_cons, show cs.length + 1 + fuel = (cs.length + fuel) + 1 by omega]
      show sub_include parent old new ((cs.length + fuel) + 1) (c :: (cs ++ rest)) = _
      simp only [sub_include, try_include_head_ne parent old c _ hc]
      rw [ih hcs fuel rest]
      rfl

theorem sub_include_hit (parent : List Char) (old new : Nat) (lang : List Char)
    (hlne : lang ≠ []) (hw : ∀ c ∈ lang, is_word_char c = true)
    (fuel : Nat) (rest : List Char) :
    sub_include parent old new (fuel + 1)
        ((include_pat parent old ++ ('-' :: (lang ++ cl ".md"))) ++ rest) =
      (include_pat parent new ++ ('-' :: (lang ++ cl ".md"))) ++
        sub_include parent old new fuel rest := by
  have hsh1 : (include_pat parent old ++ ('-' :: (lang ++ cl ".md"))) ++ rest =
      include_pat parent old ++ ('-' :: (lang ++ (cl ".md" ++ rest))) := by
    simp [List.append_assoc]
  have hsh2 : include_pat parent old ++ ('-' :: (lang ++ (cl ".md" ++ rest))) =
      '_' :: ((((cl "snippets/" ++ parent) ++ cl "/example") ++ nat_digits old) ++
        ('-' :: (lang ++ (cl ".md" ++ rest)))) := by
    rw [include_pat]
    rfl
  rw [hsh1, hsh2]
  simp only [sub_include,
    show try_include parent old
        ('_' :: ((((cl "snippets/" ++ parent) ++ cl "/example") ++ nat_digits old) ++
          ('-' :: (lang ++ (cl ".md" ++ rest))))) =
      some ('-' :: (lang ++ cl ".md"), rest) from
      try_include_self parent old lang rest hlne hw]

theorem sub_include_miss (parent : List Char) (old new k : Nat)
    (lang : List Char) (hne : old ≠ k) (hp : '_' ∉ parent) (hl : '_' ∉ lang)
    (fuel : Nat) (rest : List Char) :
    sub_include parent old new
        ((include_pat parent k ++ ('-' :: (lang ++ cl ".md"))).length + fuel)
        ((include_pat parent k ++ ('-' :: (lang ++ cl ".md"))) ++ rest) =
      (include_pat parent k ++ ('-' :: (lang ++ cl ".md"))) ++
        sub_include parent old new fuel rest := by
  have hnd : '_' ∉ (((cl "snippets/" ++ parent) ++ cl "/example") ++ nat_digits k) ++
      ('-' :: (lang ++ cl ".md")) := by
    refine not_mem_app (not_mem_app (not_mem_app (not_mem_app (by decide) hp)
      (by decide)) ?_) ?_
    · intro hx
      exact absurd (nat_digits_digits k '_' hx) (by decide)
    · intro hx
      rcases List.mem_cons.mp hx with h | h
      · cases h
      · rcases List.mem_append.mp h with h2 | h2
        · exact hl h2
        · revert h2; decide
  have hsh1 : (include_pat parent k ++ ('-' :: (lang ++ cl ".md"))) ++ rest =
      include_pat parent k ++ ('-' :: (lang ++ (cl ".md" ++ rest))) := by
    simp [List.append_assoc]
  have hsh2 : include_pat parent k ++ ('-' :: (lang ++ (cl ".md" ++ rest))) =
      '_' :: ((((cl "snippets/" ++ parent) ++ cl "/example") ++ nat_digits k) ++
        ('-' :: (lang ++ (cl ".md" ++ rest)))) := by
    rw [include_pat]
    rfl
  have hlen : (include_pat parent k ++ ('-' :: (lang ++ cl ".md"))).length =
      ((((cl "snippets/" ++ parent) ++ cl "/example") ++ nat_digits k) ++
        ('-' :: (lang ++ cl ".md"))).length + 1 := by
    rw [show include_pat parent k ++ ('-' :: (lang ++ cl ".md")) =
      '_' :: ((((cl "snippets/" ++ parent) ++ cl "/example") ++ nat_digits k) ++
        ('-' :: (lang ++ cl ".md"))) from by rw [include_pat]; rfl, List.length_cons]
  rw [hsh1, hsh2]
  rw [show (include_pat parent k ++ ('-' :: (lang ++ cl ".md"))).length + fuel =
    (((((cl "snippets/" ++ parent) ++ cl "/example") ++ nat_digits k) ++
      ('-' :: (lang ++ cl ".md"))).length + fuel) + 1 from by rw [hlen]; omega]
  simp only [sub_include,
    show try_include parent old
        ('_' :: ((((cl "snippets/" ++ parent) ++ cl "/example") ++ nat_digits k) ++
          ('-' :: (lang ++ (cl ".md" ++ rest))))) = none from
      try_include_ref_ne parent old k lang rest hne]
  rw [show (((cl "snippets/" ++ parent) ++ cl "/example") ++ nat_digits k) ++
      ('-' :: (lang ++ (cl ".md" ++ rest))) =
    ((((cl "snippets/" ++ parent) ++ cl "/example") ++ nat_digits k) ++
      ('-' :: (lang ++ cl ".md"))) ++ rest from by
    simp [List.append_assoc]]
  rw [sub_include_skip parent old new _ hnd fuel rest]
  rw [show include_pat parent k ++ ('-' :: (lang ++ cl ".md")) =
    '_' :: ((((cl "snippets/" ++ parent) ++ cl "/example") ++ nat_digits k) ++
      ('-' :: (lang ++ cl ".md"))) from by rw [include_pat]; rfl]
  rfl

end AddLang

namespace AddLang

theorem render_doc_cons (parent : List Char) (pc : List Char ⊕ (Nat × List Char))
    (ps : List (List Char ⊕ (Nat × List Char))) :
    render_doc parent (pc :: ps) = render_piece parent pc ++ render_doc parent ps := rfl

theorem sub_include_doc (parent : List Char) (old new : Nat)
    (hp : '_' ∉ parent) :
    ∀ (ps : List (List Char ⊕ (Nat × List Char))),
      (∀ t, Sum.inl t ∈ ps → '_' ∉ t) →
      (∀ k lang, Sum.inr (k, lang) ∈ ps → lang ≠ [] ∧
        (∀ c ∈ lang, is_word_char c = true) ∧ '_' ∉ lang) →
    ∃ kf, kf ≤ (render_doc parent ps).length ∧
      ∀ (fuel : Nat) (rest : List Char),
        sub_include parent old new (kf + fuel) (render_doc parent ps ++ rest) =
          render_doc parent (ps.map (ren_one old new)) ++
            sub_include parent old new fuel rest := by
  intro ps
  induction ps with
  | nil =>
      intro _ _
      refine ⟨0, by simp, ?_⟩
      intro fuel rest
      simp [render_doc, joinL, Nat.zero_add]
  | cons pc ps ih =>
      intro htext href
      obtain ⟨kf, hkf, hs⟩ := ih
        (fun t ht => htext t (List.mem_cons_of_mem _ ht))
        (fun k lang hr => href k lang (List.mem_cons_of_mem _ hr))
      cases pc with
      | inl t =>
          have ht : '_' ∉ t := htext t (List.mem_cons_self _ _)
          refine ⟨t.length + kf, ?_, ?_⟩
          · rw [render_doc_cons, List.length_append]
            exact Nat.add_le_add (le_of_eq rfl) hkf
          · intro fuel rest
            rw [render_doc_cons, List.append_assoc]
            rw [show t.length + kf + fuel = t.length + (kf + fuel) from by omega]
            rw [show render_piece parent (Sum.inl t) = t from rfl]
            rw [sub_include_skip parent old new t ht (kf + fuel)
              (render_doc parent ps ++ rest)]
            rw [hs fuel rest, List.map_cons, render_doc_cons,
              show render_piece parent ((ren_one old new) (Sum.inl t)) = t from rfl,
              List.append_assoc]
      | inr q =>
          obtain ⟨k2, lang⟩ := q
          obtain ⟨hlne, hw, hlu⟩ := href k2 lang (List.mem_cons_self _ _)
          have hrp : render_piece parent (Sum.inr (k2, lang)) =
              include_pat parent k2 ++ ('-' :: (lang ++ cl ".md")) := rfl
          by_cases hko : k2 = old
          · subst hko
            refine ⟨1 + kf, ?_, ?_⟩
            · rw [render_doc_cons, List.length_append, hrp]
              have h1 : 0 < (include_pat parent k2 ++ ('-' :: (lang ++ cl ".md"))).length := by
                rw [show include_pat parent k2 ++ ('-' :: (lang ++ cl ".md")) =
                  '_' :: ((((cl "snippets/" ++ parent) ++ cl "/example") ++
                    nat_digits k2) ++ ('-' :: (lang ++ cl ".md"))) from by
                  rw [include_pat]; rfl]
                simp
              omega
            · intro fuel rest
              rw [render_doc_cons, hrp, List.append_assoc]
              rw [show 1 + kf + fuel = (kf + fuel) + 1 from by omega]
              rw [sub_include_hit parent k2 new lang hlne hw (kf + fuel)
                (render_doc parent ps ++ rest)]
              rw [hs fuel rest, List.map_cons, render_doc_cons,
                show render_piece parent ((ren_one k2 new) (Sum.inr (k2, lang))) =
                  include_pat parent new ++ ('-' :: (lang ++ cl ".md")) from by
                  rw [show (ren_one k2 new) (Sum.inr (k2, lang)) =
                    Sum.inr (new, lang) from by rw [ren_one, if_pos rfl]]
                  rfl]
              simp [List.append_assoc]
          · refine ⟨(include_pat parent k2 ++ ('-' :: (lang ++ cl ".md"))).length + kf,
              ?_, ?_⟩
            · rw [render_doc_cons, hrp]
              simp only [List.length_append]
              omega
            · intro fuel rest
              rw [render_doc_cons, hrp, List.append_assoc]
              rw [show (include_pat parent k2 ++ ('-' :: (lang ++ cl ".md"))).length +
                kf + fuel =
                (include_pat parent k2 ++ ('-' :: (lang ++ cl ".md"))).length +
                  (kf + fuel) from by omega]
              rw [sub_include_miss parent old new k2 lang (fun hx => hko hx.symm)
                hp hlu (kf + fuel) (render_doc parent ps ++ rest)]
              rw [hs fuel rest, List.map_cons, render_doc_cons,
                show render_piece parent ((ren_one old new) (Sum.inr (k2, lang))) =
                  include_pat parent k2 ++ ('-' :: (lang ++ cl ".md")) from by
                  rw [show (ren_one old new) (Sum.inr (k2, lang)) =
                    Sum.inr (k2, lang) from by rw [ren_one, if_neg hko]]
                  rfl]
              simp [List.append_assoc]

end AddLang

namespace AddLang

theorem ren_one_numMap (pairs : List (Nat × Nat)) (p : Nat × Nat)
    (pc : List Char ⊕ (Nat × List Char)) :
    (fun pc => match pc with
      | Sum.inl t => Sum.inl t
      | Sum.inr (k, lang) => Sum.inr (numMap pairs k, lang)) (ren_one p.1 p.2 pc) =
    (fun pc => match pc with
      | Sum.inl t => Sum.inl t
      | Sum.inr (k, lang) => Sum.inr (numMap (p :: pairs) k, lang)) pc := by
  cases pc with
  | inl t => rfl
  | inr q =>
      obtain ⟨k, lang⟩ := q
      show Sum.inr (numMap pairs (if k = p.1 then p.2 else k), lang) =
        Sum.inr (numMap (p :: pairs) k, lang)
      rfl

theorem map_ren_nil (ps : List (List Char ⊕ (Nat × List Char))) :
    ps.map (fun pc => match pc with
      | Sum.inl t => Sum.inl t
      | Sum.inr (k, lang) => Sum.inr (numMap [] k, lang)) = ps := by
  induction ps with
  | nil => rfl
  | cons pc rest ih =>
      rw [List.map_cons, ih]
      cases pc with
      | inl t => rfl
      | inr q => obtain ⟨k, lang⟩ := q; rfl

theorem map_ren_one_id (o : Nat) :
    ∀ (ps : List (List Char ⊕ (Nat × List Char))), ps.map (ren_one o o) = ps := by
  intro ps
  induction ps with
  | nil => rfl
  | cons pc rest ih =>
      rw [List.map_cons, ih]
      cases pc with
      | inl t => rfl
      | inr q =>
          obtain ⟨k, lang⟩ := q
          rw [ren_one]
          by_cases hk : k = o
          · rw [if_pos hk, hk]
          · rw [if_neg hk]

theorem apply_renumber_doc (parent : List Char) (hp : '_' ∉ parent) :
    ∀ (pairs : List (Nat × Nat)) (ps : List (List Char ⊕ (Nat × List Char))),
      (∀ t, Sum.inl t ∈ ps → '_' ∉ t) →
      (∀ k lang, Sum.inr (k, lang) ∈ ps → lang ≠ [] ∧
        (∀ c ∈ lang, is_word_char c = true) ∧ '_' ∉ lang) →
    apply_renumber parent pairs (render_doc parent ps) =
      render_doc parent (ps.map (fun pc => match pc with
        | Sum.inl t => Sum.inl t
        | Sum.inr (k, lang) => Sum.inr (numMap pairs k, lang))) := by
  intro pairs
  induction pairs with
  | nil =>
      intro ps _ _
      rw [map_ren_nil]
      rfl
  | cons p rest ih =>
      intro ps htext href
      have htext2 : ∀ t, Sum.inl t ∈ ps.map (ren_one p.1 p.2) → '_' ∉ t := by
        intro t ht
        obtain ⟨pc, hpc, he⟩ := List.mem_map.mp ht
        cases pc with
        | inl t2 =>
            have : t2 = t := Sum.inl.inj he
            subst this
            exact htext t2 hpc
        | inr q =>
            obtain ⟨k, lang⟩ := q
            exact absurd he (by rw [ren_one]; intro hx; cases hx)
      have href2 : ∀ k lang, Sum.inr (k, lang) ∈ ps.map (ren_one p.1 p.2) →
          lang ≠ [] ∧ (∀ c ∈ lang, is_word_char c = true) ∧ '_' ∉ lang := by
        intro k lang ht
        obtain ⟨pc, hpc, he⟩ := List.mem_map.mp ht
        cases pc with
        | inl t2 => exact absurd he (by rw [ren_one]; intro hx; cases hx)
        | inr q =>
            obtain ⟨k2, lang2⟩ := q
            have : lang2 = lang := by
              rw [ren_one] at he
              exact (Prod.mk.injEq _ _ _ _ ▸ Sum.inr.inj he).2
            subst this
            exact href k2 lang2 hpc
      have hpass : (if p.1 ≠ p.2 then
          sub_include parent p.1 p.2 (render_doc parent ps).length
            (render_doc parent ps)
        else render_doc parent ps) =
          render_doc parent (ps.map (ren_one p.1 p.2)) := by
        by_cases hpp : p.1 = p.2
        · rw [if_neg (by simp [hpp])]
          rw [← hpp, map_ren_one_id]
        · rw [if_pos hpp]
          obtain ⟨kf, hkf, hs⟩ := sub_include_doc parent p.1 p.2 hp ps htext href
          obtain ⟨fuel0, hf⟩ := Nat.exists_eq_add_of_le hkf
          rw [hf]
          rw [show render_doc parent ps = render_doc parent ps ++ [] from by simp]
          rw [hs fuel0 [], sub_include_nil]
          simp
      rw [show apply_renumber parent (p :: rest) (render_doc parent ps) =
        apply_renumber parent rest
          (if p.1 ≠ p.2 then
            sub_include parent p.1 p.2 (render_doc parent ps).length
              (render_doc parent ps)
          else render_doc parent ps) from rfl]
      rw [hpass, ih (ps.map (ren_one p.1 p.2)) htext2 href2]
      have hmm2 : List.map (fun pc => match pc with
          | Sum.inl t => Sum.inl t
          | Sum.inr (k, lang) => Sum.inr (numMap rest k, lang))
          (List.map (ren_one p.1 p.2) ps) =
        List.map (fun pc => match pc with
          | Sum.inl t => Sum.inl t
          | Sum.inr (k, lang) => Sum.inr (numMap (p :: rest) k, lang)) ps := by
        rw [List.map_map]
        exact List.map_congr_left (fun pc _ => ren_one_numMap rest p pc)
      rw [hmm2]

theorem numMap_unchanged (k : Nat) :
    ∀ (pairs : List (Nat × Nat)), (∀ p ∈ pairs, k ≠ p.1) → numMap pairs k = k := by
  intro pairs
  induction pairs with
  | nil => intro _; rfl
  | cons p rest ih =>
      intro h
      show numMap rest (if k = p.1 then p.2 else k) = k
      rw [if_neg (h p (List.mem_cons_self _ _))]
      exact ih (fun q hq => h q (List.mem_cons_of_mem _ hq))

theorem numMap_zip_rank :
    ∀ (l : List Nat) (s : Nat), List.Pairwise (· < ·) l →
      (∀ x ∈ l, s ≤ x) → ∀ (i : Nat) (hi : i < l.length),
      numMap (l.zip (List.range' s l.length)) (l.get ⟨i, hi⟩) = s + i := by
  intro l
  induction l with
  | nil => intro s _ _ i hi; exact absurd hi (by simp)
  | cons a t ih =>
      intro s hpw hge i hi
      have hlt : ∀ x ∈ t, a < x := (List.pairwise_cons.mp hpw).1
      have hzip : (a :: t).zip (List.range' s (a :: t).length) =
          (a, s) :: t.zip (List.range' (s + 1) t.length) := rfl
      rw [hzip]
      cases i with
      | zero =>
          show numMap ((a, s) :: t.zip (List.range' (s + 1) t.length)) a = s + 0
          rw [show numMap ((a, s) :: t.zip (List.range' (s + 1) t.length)) a =
            numMap (t.zip (List.range' (s + 1) t.length))
              (if a = a then s else a) from rfl, if_pos rfl]
          rw [numMap_unchanged s _ (fun p hp => by
            have h1 : p.1 ∈ t := (List.of_mem_zip hp).1
            have := hlt p.1 h1
            have := hge a (List.mem_cons_self _ _)
            omega)]
          omega
      | succ j =>
          have hj : j < t.length := by
            rw [List.length_cons] at hi
            omega
          show numMap ((a, s) :: t.zip (List.range' (s + 1) t.length))
            (t.get ⟨j, hj⟩) = s + (j + 1)
          rw [show numMap ((a, s) :: t.zip (List.range' (s + 1) t.length))
              (t.get ⟨j, hj⟩) =
            numMap (t.zip (List.range' (s + 1) t.length))
              (if t.get ⟨j, hj⟩ = a then s else t.get ⟨j, hj⟩) from rfl]
          rw [if_neg (by
            have := hlt (t.get ⟨j, hj⟩) (t.get_mem _ _)
            omega)]
          rw [ih (s + 1) (List.pairwise_cons.mp hpw).2
            (fun x hx => by have := hlt x hx; have := hge a (List.mem_cons_self _ _); omega)
            j hj]
          omega

end AddLang

namespace AddLang

/-- C1 (amended): on a successful regeneration run over a document made of
include references and reference-free text, the console snippet files are
rewritten with sequential numbers 1..N where N is the number of PARSEABLE
console snippets (unparseable files are dropped, not renumbered); when the
sorted console file numbers already equal 1..(file count) and the parseable
count equals the document's tab-set count the markdown is untouched, and
otherwise every include reference number is rewritten by the sequential
composite renumbering map, which sends the i-th smallest console file
number to i+1. -/
theorem regenerate_renumbering (conv : Conv) (parent : List Char)
    (languages : Option (List (List Char))) (dir : Dir)
    (ps : List (List Char ⊕ (Nat × List Char))) (st : FileState)
    (hrun : regenerate_from_snippets conv parent languages dir
      (render_doc parent ps) = Except.ok st)
    (hhc : has_console_snippets dir = true)
    (hnc : cl "console" ∉ languages.getD DEFAULT_LANGUAGES)
    (hp : '_' ∉ parent)
    (htext : ∀ t, Sum.inl t ∈ ps → '_' ∉ t)
    (href : ∀ k lang, Sum.inr (k, lang) ∈ ps → lang ≠ [] ∧
      (∀ c ∈ lang, is_word_char c = true) ∧ '_' ∉ lang)
    (hsorted : List.Pairwise (· < ·) (actual_numbers_of dir))
    (hpos : ∀ x ∈ actual_numbers_of dir, 1 ≤ x) :
    console_entries st.dir = expected_consoles 1 (console_data_of dir) ∧
    ((actual_numbers_of dir = expected_numbers_of dir ∧
        (console_data_of dir).length =
          count_tabsets_in_markdown (render_doc parent ps)) →
      st.md = render_doc parent ps) ∧
    ((actual_numbers_of dir ≠ expected_numbers_of dir ∨
        (console_data_of dir).length ≠
          count_tabsets_in_markdown (render_doc parent ps)) →
      st.md = render_doc parent (ps.map (fun pc => match pc with
        | Sum.inl t => Sum.inl t
        | Sum.inr (k, lang) => Sum.inr (numMap
            ((actual_numbers_of dir).zip (expected_numbers_of dir)) k, lang)))) ∧
    (∀ i (hi : i < (actual_numbers_of dir).length),
      numMap ((actual_numbers_of dir).zip (expected_numbers_of dir))
        ((actual_numbers_of dir).get ⟨i, hi⟩) = 1 + i) := by
  rw [regenerate_from_snippets] at hrun
  rw [if_neg (by rw [hhc]; simp)] at hrun
  cases hloop : regen_loop conv (languages.getD DEFAULT_LANGUAGES) [] 1 false
      (console_data_of dir) with
  | error e =>
      rw [hloop] at hrun
      simp at hrun
  | ok pr =>
      obtain ⟨d2, errs⟩ := pr
      rw [hloop] at hrun
      have hrun2 : Except.ok (⟨d2,
          if actual_numbers_of dir ≠ expected_numbers_of dir ∨
              (console_data_of dir).length ≠
                count_tabsets_in_markdown (render_doc parent ps)
          then apply_renumber parent
            ((actual_numbers_of dir).zip (expected_numbers_of dir))
            (render_doc parent ps)
          else render_doc parent ps, !errs⟩ : FileState) = Except.ok st := hrun
      have hst := Except.ok.inj hrun2
      subst hst
      refine ⟨?_, ?_, ?_, ?_⟩
      · show console_entries d2 = _
        have h := regen_loop_consoles conv (languages.getD DEFAULT_LANGUAGES) hnc
          (console_data_of dir) [] 1 false d2 errs hloop
          (by intro p hp2; cases hp2)
        rw [show console_entries ([] : Dir) = [] from rfl, List.nil_append] at h
        exact h
      · intro hcond
        show (if _ then _ else _) = _
        rw [if_neg (by
          intro hx
          rcases hx with hx | hx
          · exact hx hcond.1
          · exact hx hcond.2)]
      · intro hcond
        show (if _ then _ else _) = _
        rw [if_pos hcond]
        exact apply_renumber_doc parent hp _ ps htext href
      · intro i hi
        rw [show expected_numbers_of dir =
          List.range' 1 (actual_numbers_of dir).length from by
            rw [expected_numbers_of, actual_numbers_of, List.length_map]]
        exact numMap_zip_rank (actual_numbers_of dir) 1 hsorted hpos i hi

end AddLang

namespace AddLang

set_option maxRecDepth 8192 in
/-- C1 counterexample: with console snippet files numbered [1, 3] where
file 1 is unparseable, regeneration writes only files numbered 1 (one
parseable snippet) yet still rewrites include references 3 to 2, leaving
the document pointing at example2 files that do not exist. -/
theorem regenerate_renumber_cex :
    ∃ st, regenerate_from_snippets demo_conv (cl "doc") (some [cl "python"])
        [(1, cl "console", cl "x"),
         (3, cl "console", cl "```console\nGET /b\n```\n")]
        (cl "_snippets/doc/example3-console.md") = Except.ok st ∧
      st.md = cl "_snippets/doc/example2-console.md" ∧
      (∀ p ∈ st.dir, p.1 = 1) := by
  refine ⟨_, rfl, rfl, ?_⟩
  decide

set_option maxRecDepth 8192 in
theorem regenerate_renumbering_witness :
    console_entries [(1, cl "console", cl "```console\nGET /a\n```\n"),
        (1, cl "python", cl "```python\nCONV[Python|C]\nGET /a\n```\n")] =
      expected_consoles 1
        (console_data_of [(2, cl "console", cl "```console\nGET /a\n```\n")]) ∧
    ((actual_numbers_of [(2, cl "console", cl "```console\nGET /a\n```\n")] =
        expected_numbers_of [(2, cl "console", cl "```console\nGET /a\n```\n")] ∧
      (console_data_of [(2, cl "console", cl "```console\nGET /a\n```\n")]).length =
        count_tabsets_in_markdown (render_doc (cl "doc")
          [Sum.inl (cl "intro\n"), Sum.inr (2, cl "console")])) →
      cl "intro\n_snippets/doc/example1-console.md" =
        render_doc (cl "doc") [Sum.inl (cl "intro\n"), Sum.inr (2, cl "console")]) ∧
    ((actual_numbers_of [(2, cl "console", cl "```console\nGET /a\n```\n")] ≠
        expected_numbers_of [(2, cl "console", cl "```console\nGET /a\n```\n")] ∨
      (console_data_of [(2, cl "console", cl "```console\nGET /a\n```\n")]).length ≠
        count_tabsets_in_markdown (render_doc (cl "doc")
          [Sum.inl (cl "intro\n"), Sum.inr (2, cl "console")])) →
      cl "intro\n_snippets/doc/example1-console.md" =
        render_doc (cl "doc")
          ([Sum.inl (cl "intro\n"), Sum.inr (2, cl "console")].map
            (fun pc => match pc with
              | Sum.inl t => Sum.inl t
              | Sum.inr (k, lang) => Sum.inr (numMap
                  ((actual_numbers_of
                      [(2, cl "console", cl "```console\nGET /a\n```\n")]).zip
                    (expected_numbers_of
                      [(2, cl "console", cl "```console\nGET /a\n```\n")])) k,
                  lang)))) ∧
    (∀ i (hi : i <
        (actual_numbers_of
          [(2, cl "console", cl "```console\nGET /a\n```\n")]).length),
      numMap ((actual_numbers_of
            [(2, cl "console", cl "```console\nGET /a\n```\n")]).zip
          (expected_numbers_of
            [(2, cl "console", cl "```console\nGET /a\n```\n")]))
        ((actual_numbers_of
            [(2, cl "console", cl "```console\nGET /a\n```\n")]).get ⟨i, hi⟩) =
        1 + i) :=
  regenerate_renumbering demo_conv (cl "doc") (some [cl "python"])
    [(2, cl "console", cl "```console\nGET /a\n```\n")]
    [Sum.inl (cl "intro\n"), Sum.inr (2, cl "console")]
    ⟨[(1, cl "console", cl "```console\nGET /a\n```\n"),
      (1, cl "python", cl "```python\nCONV[Python|C]\nGET /a\n```\n")],
     cl "intro\n_snippets/doc/example1-console.md", true⟩
    rfl (by decide) (by decide) (by decide)
    (by
      intro t ht
      rcases List.mem_cons.mp ht with h | h
      · have h2 := Sum.inl.inj h
        subst h2
        decide
      · rcases List.mem_cons.mp h with h2 | h2
        · simp at h2
        · cases h2)
    (by
      intro k lang ht
      rcases List.mem_cons.mp ht with h | h
      · simp at h
      · rcases List.mem_cons.mp h with h2 | h2
        · have h3 := Sum.inr.inj h2
          have hl : lang = cl "console" := congrArg Prod.snd h3
          subst hl
          refine ⟨by decide, by decide, by decide⟩
        · cases h2)
    (by decide) (by decide)

end AddLang
